import Mathlib

/-!
# Laser Engraver Embedded: serial protocol stack

A shallow embedding of `uart_fifo.c` and `laser_driver.c`.

* Memory buffers (`uint8_t *`) are functions `Nat → Nat` from index to byte.
* `uint8_t`, `uint16_t` and `uint32_t` arithmetic is arithmetic on `Nat` reduced
  modulo `2^8`, `2^16`, `2^32` where the C code can wrap.
* The constants of `defs.h`, `uart_fifo.h` and `laser_driver.h` (headers that
  are not part of the sources) are the fields of `Defs`; the facts about them
  that a theorem uses are collected in `Defs.WF`.
-/

namespace LaserEngraver

/-! ## Constants of the absent headers -/

/-- The preprocessor constants used by `uart_fifo.c` and `laser_driver.c`. -/
structure Defs where
  STX : Nat
  ETX : Nat
  ESC : Nat
  ACK_MSG : Nat
  NAK_MSG : Nat
  NEW_CMD : Nat
  CMD_BURN : Nat
  CMD_START : Nat
  CMD_END : Nat
  CMD_INIT : Nat
  CMD_PIXEL_READY : Nat
  CMD_EMERGENCY : Nat
  CMD_BURN_PAYLOAD_SIZE : Nat
  CMD_START_PAYLOAD_SIZE : Nat
  CMD_END_PAYLOAD_SIZE : Nat
  CMD_INIT_PAYLOAD_SIZE : Nat
  CMD_READY_RESPONSE_SIZE : Nat
  CMD_EMERG_RESPONSE_SIZE : Nat
  CMD_INIT_RESPONSE_SIZE : Nat
  MIN_PACKET_LENGTH : Nat
  MAX_PACKET_LENGTH : Nat
  FIFO_SIZE : Nat
  MAX_ATTEMPTS : Nat
  PIXEL_TIMEOUT : Nat
  TRUE : Nat
  FALSE : Nat
  JUST_INITIALIZED : Nat
  LID_OPEN : Nat
  LASER_ENA_PIN : Nat
  FAN_ENA_PIN : Nat
  OUTMOD0 : Nat
  OUTMOD1 : Nat
  OUTMOD2 : Nat
  INTENSITY_1 : Nat
  INTENSITY_2 : Nat
  INTENSITY_3 : Nat
  MAX_INTENSITY : Nat
  LASER_DUR_1 : Nat
  LASER_DUR_2 : Nat
  LASER_DUR_3 : Nat
  LASER_DUR_4 : Nat

/-- The facts about the constants that the protocol relies on: the framing
bytes, the ack sentinels and the command ids are bytes; the three framing bytes
differ; `NEW_CMD` and the command ids are not ack sentinels; payload sizes are
those of the wire protocol (Burn carries 4 bytes, every other message none);
the shortest frame is `STX, command, ETX`. -/
structure Defs.WF (D : Defs) : Prop where
  stx_byte : D.STX < 256
  etx_byte : D.ETX < 256
  esc_byte : D.ESC < 256
  ack_byte : D.ACK_MSG < 256
  nak_byte : D.NAK_MSG < 256
  new_byte : D.NEW_CMD < 256
  burn_byte : D.CMD_BURN < 256
  start_byte : D.CMD_START < 256
  end_byte : D.CMD_END < 256
  init_byte : D.CMD_INIT < 256
  ready_byte : D.CMD_PIXEL_READY < 256
  emerg_byte : D.CMD_EMERGENCY < 256
  stx_ne_etx : D.STX ≠ D.ETX
  stx_ne_esc : D.STX ≠ D.ESC
  etx_ne_esc : D.ETX ≠ D.ESC
  ack_ne_nak : D.ACK_MSG ≠ D.NAK_MSG
  new_ne_ack : D.NEW_CMD ≠ D.ACK_MSG
  new_ne_nak : D.NEW_CMD ≠ D.NAK_MSG
  burn_ne_ack : D.CMD_BURN ≠ D.ACK_MSG
  burn_ne_nak : D.CMD_BURN ≠ D.NAK_MSG
  start_ne_ack : D.CMD_START ≠ D.ACK_MSG
  start_ne_nak : D.CMD_START ≠ D.NAK_MSG
  end_ne_ack : D.CMD_END ≠ D.ACK_MSG
  end_ne_nak : D.CMD_END ≠ D.NAK_MSG
  init_ne_ack : D.CMD_INIT ≠ D.ACK_MSG
  init_ne_nak : D.CMD_INIT ≠ D.NAK_MSG
  ready_ne_ack : D.CMD_PIXEL_READY ≠ D.ACK_MSG
  ready_ne_nak : D.CMD_PIXEL_READY ≠ D.NAK_MSG
  emerg_ne_ack : D.CMD_EMERGENCY ≠ D.ACK_MSG
  emerg_ne_nak : D.CMD_EMERGENCY ≠ D.NAK_MSG
  burn_ne_start : D.CMD_BURN ≠ D.CMD_START
  burn_ne_end : D.CMD_BURN ≠ D.CMD_END
  burn_ne_init : D.CMD_BURN ≠ D.CMD_INIT
  start_ne_end : D.CMD_START ≠ D.CMD_END
  start_ne_init : D.CMD_START ≠ D.CMD_INIT
  end_ne_init : D.CMD_END ≠ D.CMD_INIT
  ready_ne_emerg : D.CMD_PIXEL_READY ≠ D.CMD_EMERGENCY
  ready_ne_init : D.CMD_PIXEL_READY ≠ D.CMD_INIT
  emerg_ne_init : D.CMD_EMERGENCY ≠ D.CMD_INIT
  burn_size : D.CMD_BURN_PAYLOAD_SIZE = 4
  start_size : D.CMD_START_PAYLOAD_SIZE = 0
  end_size : D.CMD_END_PAYLOAD_SIZE = 0
  init_size : D.CMD_INIT_PAYLOAD_SIZE = 0
  ready_size : D.CMD_READY_RESPONSE_SIZE = 0
  emerg_size : D.CMD_EMERG_RESPONSE_SIZE = 0
  init_resp_size : D.CMD_INIT_RESPONSE_SIZE = 0
  min_len : D.MIN_PACKET_LENGTH = 3
  true_ne_false : D.TRUE ≠ D.FALSE

/-- A sample assignment of the constants (ASCII control codes for the framing
bytes and sentinels); used to instantiate the theorems on concrete inputs. -/
def sampleDefs : Defs where
  STX := 2
  ETX := 3
  ESC := 27
  ACK_MSG := 6
  NAK_MSG := 21
  NEW_CMD := 0
  CMD_BURN := 66
  CMD_START := 83
  CMD_END := 69
  CMD_INIT := 73
  CMD_PIXEL_READY := 82
  CMD_EMERGENCY := 88
  CMD_BURN_PAYLOAD_SIZE := 4
  CMD_START_PAYLOAD_SIZE := 0
  CMD_END_PAYLOAD_SIZE := 0
  CMD_INIT_PAYLOAD_SIZE := 0
  CMD_READY_RESPONSE_SIZE := 0
  CMD_EMERG_RESPONSE_SIZE := 0
  CMD_INIT_RESPONSE_SIZE := 0
  MIN_PACKET_LENGTH := 3
  MAX_PACKET_LENGTH := 16
  FIFO_SIZE := 64
  MAX_ATTEMPTS := 3
  PIXEL_TIMEOUT := 5000
  TRUE := 1
  FALSE := 0
  JUST_INITIALIZED := 2
  LID_OPEN := 16
  LASER_ENA_PIN := 4
  FAN_ENA_PIN := 1
  OUTMOD0 := 32
  OUTMOD1 := 64
  OUTMOD2 := 128
  INTENSITY_1 := 100
  INTENSITY_2 := 200
  INTENSITY_3 := 300
  MAX_INTENSITY := 400
  LASER_DUR_1 := 1
  LASER_DUR_2 := 2
  LASER_DUR_3 := 3
  LASER_DUR_4 := 4

/-! ## Packet codec (`uart_fifo.c`) -/

/-- Reduction to `uint16_t`. -/
def u16 (n : Nat) : Nat := n % 65536

/-- Reduction to `uint32_t`. -/
def u32 (n : Nat) : Nat := n % 4294967296

/-- The fields of `struct TPacket_Data` that the code accesses. -/
structure TPacket_Data where
  command : Nat
  ack : Nat
  data_size : Nat
  data : Nat → Nat

/-- `calc_8bit_mod_checksum`: `mod_sum` is a `uint8_t` accumulator over
`data[0..length-1]`; the result `256 - mod_sum` is converted to `uint8_t`. -/
def calc_8bit_mod_checksum (data : Nat → Nat) (length : Nat) : Nat :=
  let mod_sum := (List.range length).foldl (fun s i => (s + data i) % 256) 0
  (256 - mod_sum) % 256

/-- The test `x == STX || x == ETX || x == ESC` of `pack_tx_packet`. -/
def needs_esc (D : Defs) (x : Nat) : Bool :=
  x == D.STX || x == D.ETX || x == D.ESC

/-- A transmit buffer together with the write index `tx_it`. -/
structure TxBuf where
  buf : Nat → Nat
  it : Nat

/-- `tx_buff[tx_it++] = v`. -/
def TxBuf.put (b : TxBuf) (v : Nat) : TxBuf :=
  { buf := Function.update b.buf b.it v, it := u16 (b.it + 1) }

/-- The payload loop of `pack_tx_packet`,
`for( i = data_size - 1; i >= 0; i-- )`; the first argument is `i + 1`. -/
def pack_data_loop (D : Defs) (data : Nat → Nat) : Nat → TxBuf → TxBuf
  | 0, b => b
  | i + 1, b =>
    let b1 := if needs_esc D (data i) then b.put D.ESC else b
    pack_data_loop D data i (b1.put (data i))

/-- `pack_tx_packet`: returns the buffer after the writes and the returned
length `tx_it + 1`. -/
def pack_tx_packet (D : Defs) (tx_data : TPacket_Data) (tx_buff : Nat → Nat) :
    (Nat → Nat) × Nat :=
  let b0 : TxBuf := (TxBuf.mk tx_buff 0).put D.STX
  let b1 : TxBuf :=
    if tx_data.ack = D.NAK_MSG ∨ tx_data.ack = D.ACK_MSG then
      let b := b0.put tx_data.ack
      if tx_data.command ≠ D.NAK_MSG then b.put tx_data.command else b
    else
      let b := b0.put tx_data.command
      if tx_data.data_size > 0 then
        let b := pack_data_loop D tx_data.data tx_data.data_size b
        let checksum := calc_8bit_mod_checksum tx_data.data tx_data.data_size
        let b := if needs_esc D checksum then b.put D.ESC else b
        b.put checksum
      else b
  (Function.update b1.buf b1.it D.ETX, u16 (b1.it + 1))

/-- The payload loop of `parse_rx_packet`,
`while( j >= 0 && rx_it < length )`; the first argument is `j + 1`.
Returns the final `rx_it` and the payload array. -/
def parse_data_loop (D : Defs) (rx_buff : Nat → Nat) (length : Nat) :
    Nat → Nat → (Nat → Nat) → Nat × (Nat → Nat)
  | 0, rx_it, data => (rx_it, data)
  | j + 1, rx_it, data =>
    if rx_it < length then
      let rx_it1 := if rx_buff rx_it = D.ESC then u16 (rx_it + 1) else rx_it
      parse_data_loop D rx_buff length j (u16 (rx_it1 + 1))
        (Function.update data j (rx_buff rx_it1))
    else (rx_it, data)

/-- The payload-size tables of `parse_rx_packet` (the two `switch`
statements); `none` is the `default` branch. -/
def payload_size (D : Defs) (ack command : Nat) : Option Nat :=
  if ack = D.NEW_CMD then
    if command = D.CMD_BURN then some D.CMD_BURN_PAYLOAD_SIZE
    else if command = D.CMD_START then some D.CMD_START_PAYLOAD_SIZE
    else if command = D.CMD_END then some D.CMD_END_PAYLOAD_SIZE
    else if command = D.CMD_INIT then some D.CMD_INIT_PAYLOAD_SIZE
    else none
  else
    if command = D.CMD_PIXEL_READY then some D.CMD_READY_RESPONSE_SIZE
    else if command = D.CMD_EMERGENCY then some D.CMD_EMERG_RESPONSE_SIZE
    else if command = D.CMD_INIT then some D.CMD_INIT_RESPONSE_SIZE
    else none

/-- `parse_rx_packet`: returns the result code (0 on success, 1 on error) and
the contents of `*rx_data` on return; the argument `rx_data` is its contents on
entry (only the payload array survives the initial assignments). -/
def parse_rx_packet (D : Defs) (rx_buff : Nat → Nat) (length : Nat)
    (rx_data : TPacket_Data) : Nat × TPacket_Data :=
  let r0 : TPacket_Data :=
    { command := D.NAK_MSG, ack := D.NAK_MSG, data_size := 0, data := rx_data.data }
  if length < D.MIN_PACKET_LENGTH then (1, r0)
  else if rx_buff 0 ≠ D.STX then (1, r0)
  else
    let rx_it := 1
    let ack := if rx_buff rx_it = D.ACK_MSG then D.ACK_MSG
               else if rx_buff rx_it = D.NAK_MSG then D.NAK_MSG else D.NEW_CMD
    let rx_it := if rx_buff rx_it = D.ACK_MSG ∨ rx_buff rx_it = D.NAK_MSG then 2 else 1
    let command := rx_buff rx_it
    let rx_it := rx_it + 1
    match payload_size D ack command with
    | none => (1, { r0 with ack := ack, command := D.NAK_MSG })
    | some size =>
      let r1 : TPacket_Data := { r0 with ack := ack, command := command, data_size := size }
      if size ≠ 0 then
        let lp := parse_data_loop D rx_buff length size rx_it r1.data
        let rx_it := lp.1
        let r2 : TPacket_Data := { r1 with data := lp.2 }
        if rx_it ≥ length then (1, r2)
        else
          let rx_it := if rx_buff rx_it = D.ESC then u16 (rx_it + 1) else rx_it
          let exp_checksum := calc_8bit_mod_checksum r2.data r2.data_size
          if rx_buff rx_it ≠ exp_checksum then (1, r2)
          else
            let rx_it := u16 (rx_it + 1)
            if rx_buff rx_it ≠ D.ETX then (1, r2) else (0, r2)
      else
        if rx_buff rx_it ≠ D.ETX then (1, r1) else (0, r1)

/-- `parse_burn_cmd_payload`: returns `(yLocation, xLocation, laserInt)`.
The four bytes are widened to `uint32_t`; shifts are `uint32_t` shifts. -/
def parse_burn_cmd_payload (burn_cmd_payload : Nat → Nat) : Nat × Nat × Nat :=
  let combinedPacket := 0 ||| burn_cmd_payload 0
  let combinedPacket := combinedPacket ||| u32 (burn_cmd_payload 1 <<< 8)
  let combinedPacket2 := 0 ||| u32 (burn_cmd_payload 2 <<< 0)
  let combinedPacket2 := combinedPacket2 ||| u32 (burn_cmd_payload 3 <<< 8)
  let combinedPacket := combinedPacket ||| u32 (combinedPacket2 <<< 16)
  let yLocation := (combinedPacket &&& 0x00003FFE) >>> 1
  let xLocation := (combinedPacket &&& 0x07FFC000) >>> 14
  let laserInt := (combinedPacket &&& 0x18000000) >>> 27
  (yLocation, xLocation, laserInt)

/-- The array holding the bytes of a list (0 beyond its end). -/
def bytes (l : List Nat) : Nat → Nat := fun i => l.getD i 0

/-- The little-endian word of four bytes. -/
def le_word (b0 b1 b2 b3 : Nat) : Nat :=
  b0 + 256 * b1 + 65536 * b2 + 16777216 * b3

/-! ## Firmware state, environment and observation trace

The main loop is sequential; the receive interrupt and the millisecond timer
run between its steps. The environment is part of the state:

* `rx_wire` holds the bytes that the host will send, in order;
* `sched` holds, for each coming poll (`poll_msg`, a call of
  `check_and_respond_to_msg` from the main loop or from a retry loop), the time
  elapsed since the previous poll and the number of bytes of `rx_wire` whose
  receive interrupt has run by then;
* a busy wait on `rx_flag` lets the receive interrupt run for the next byte of
  `rx_wire`, and never ends when there is none;
* `lid_in` holds the successive values read from port `P6IN`; a busy wait on
  the lid that exhausts them never ends;
* `stack` is the content of uninitialised local arrays.

Interrupts are taken at these points only: at the entry of a poll and inside
a busy wait on `rx_flag`. A function that can wait forever returns an
`Option`; `none` means that it does not return. `trace` records, in order, the calls to the laser, motor and
delay functions and to `uart_putp`, and the readings of `P6IN` made by the
busy waits of the Start branch of `check_and_respond_to_msg`. -/

/-- Observable calls, and the readings of the lid sensor made while a Start
command is handled. -/
inductive Event
  | putp (frame : List Nat)
  | lid_read (P6IN : Nat)
  | enable_laser
  | disable_laser
  | turn_on_laser (intensity : Nat)
  | turn_off_laser
  | halt_burn
  | homeLaser
  | moveMotors (x y : Nat)
  | delay_ms (d : Nat)
  deriving DecidableEq

/-- `UINT32_MAX`. -/
def UINT32_MAX : Nat := 4294967295

/-- The globals of the byte transport of `uart_fifo.c` and the interrupt
enable register of the UART. -/
structure Uart where
  tx_char : Nat
  rx_flag : Nat
  rx_char : Nat
  tx_fifo : Nat → Nat
  rx_fifo : Nat → Nat
  tx_fifo_ptA : Nat
  tx_fifo_ptB : Nat
  rx_fifo_ptA : Nat
  rx_fifo_ptB : Nat
  rx_fifo_full : Nat
  tx_fifo_full : Nat
  packet_ip : Nat
  packet_ready : Nat
  UCA1IE : Nat

/-- The session flags of `uart_fifo.c` (`door_opened` is defined elsewhere and
declared `extern` there). -/
structure Session where
  burn_ready : Nat
  picture_ip : Nat
  pi_init : Nat
  first_pixel : Nat
  door_opened : Nat
  last_rx_time : Nat
  pixel_request_time : Nat

/-- The global `laser_on` of `laser_driver.c` and the port and timer registers
it writes. -/
structure Laser where
  laser_on : Nat
  P1OUT : Nat
  P7OUT : Nat
  TA0CCR1 : Nat
  TA0CCTL1 : Nat

/-- The environment: the millisecond counter `time_ms`, the bytes to come on
the wire, the interrupt schedule of the coming polls, the coming readings of
`P6IN`, and the content of uninitialised local arrays. -/
structure Env where
  time_ms : Nat
  rx_wire : List Nat
  sched : List (Nat × Nat)
  lid_in : List Nat
  stack : Nat → Nat

/-- The whole state. -/
structure State where
  uart : Uart
  ses : Session
  laser : Laser
  env : Env
  trace : List Event

/-- `r &= ~m`. -/
def bit_clear (r m : Nat) : Nat := r ^^^ (r &&& m)

/-- Append an event to the trace. -/
def State.log (s : State) (e : Event) : State := { s with trace := s.trace ++ [e] }

/-! ### `laser_driver.c` -/

/-- `disable_fan`. -/
def disable_fan (D : Defs) (l : Laser) : Laser :=
  { l with P7OUT := bit_clear l.P7OUT D.FAN_ENA_PIN }

/-- `enable_fan`. -/
def enable_fan (D : Defs) (l : Laser) : Laser :=
  { l with P7OUT := l.P7OUT ||| D.FAN_ENA_PIN }

/-- `disable_laser`: the enable pin is driven high, the fan is stopped. -/
def disable_laser (D : Defs) (s : State) : State :=
  let s := s.log Event.disable_laser
  { s with laser := disable_fan D { s.laser with P1OUT := s.laser.P1OUT ||| D.LASER_ENA_PIN } }

/-- `enable_laser`: the enable pin is driven low, the fan is started. -/
def enable_laser (D : Defs) (s : State) : State :=
  let s := s.log Event.enable_laser
  { s with laser :=
      enable_fan D { s.laser with P1OUT := bit_clear s.laser.P1OUT D.LASER_ENA_PIN } }

/-- `turn_on_laser`. -/
def turn_on_laser (D : Defs) (intensity : Nat) (s : State) : State :=
  let s := s.log (Event.turn_on_laser intensity)
  { s with laser :=
      { s.laser with
          TA0CCR1 := u16 intensity,
          TA0CCTL1 := ((s.laser.TA0CCTL1 ||| D.OUTMOD2) ||| D.OUTMOD1) ||| D.OUTMOD0,
          laser_on := D.TRUE } }

/-- `turn_off_laser`. -/
def turn_off_laser (D : Defs) (s : State) : State :=
  let s := s.log Event.turn_off_laser
  { s with laser :=
      { s.laser with
          TA0CCR1 := 0,
          TA0CCTL1 := bit_clear (bit_clear (bit_clear s.laser.TA0CCTL1 D.OUTMOD2) D.OUTMOD1)
                        D.OUTMOD0,
          laser_on := D.FALSE } }

/-- Modelled from the spec: `delay_ms` of `time.c`, which is not part of the
sources; the collaborator `sleep_ms(duration)` lets `duration` milliseconds
of the `uint32_t` counter `time_ms` pass. -/
def delay_ms (d : Nat) (s : State) : State :=
  let s := s.log (Event.delay_ms d)
  { s with env := { s.env with time_ms := u32 (s.env.time_ms + d) } }

/-- `turn_on_laser_timed`. -/
def turn_on_laser_timed (D : Defs) (intensity duration : Nat) (s : State) : State :=
  turn_off_laser D (delay_ms duration (turn_on_laser D intensity s))

/-- `halt_burn`. -/
def halt_burn (D : Defs) (s : State) : State :=
  let s := s.log Event.halt_burn
  let s := disable_laser D s
  let s := turn_off_laser D s
  { s with ses := { s.ses with picture_ip := D.FALSE } }

/-- The busy waits on the lid sensor: `while( !( P6IN & LID_OPEN ) );` when
`until_set` is true, `while( P6IN & LID_OPEN );` when it is false. Each
iteration reads `P6IN` once. Returns the readings that remain. -/
def wait_lid (D : Defs) (until_set : Bool) : List Nat → Option (List Nat)
  | [] => none
  | r :: rest =>
    if (decide (r &&& D.LID_OPEN ≠ 0)) = until_set then some rest
    else wait_lid D until_set rest

/-! ### `uart_fifo.c`: byte transport -/

/-- `uart_putc`. -/
def uart_putc (D : Defs) (c : Nat) (u : Uart) : Uart :=
  let ptA := u16 (u.tx_fifo_ptA + 1)
  let ptA := if ptA = D.FIFO_SIZE then 0 else ptA
  { u with tx_char := c,
           tx_fifo := Function.update u.tx_fifo u.tx_fifo_ptA c,
           tx_fifo_ptA := ptA,
           tx_fifo_full := if u.tx_fifo_ptB = ptA then 1 else 0,
           UCA1IE := u.UCA1IE ||| 2 }

/-- `uart_putp`: `uart_putc` for `packet[0..length-1]`; the call is recorded
with the bytes it enqueues. -/
def uart_putp (D : Defs) (packet : Nat → Nat) (length : Nat) (s : State) : State :=
  { s with uart := (List.range length).foldl (fun u i => uart_putc D (packet i) u) s.uart,
           trace := s.trace ++ [Event.putp ((List.range length).map packet)] }

/-- The backward scan of the receive handler,
`while( rx_fifo[ ( rx_fifo_ptB - 1 ) - esc_count - 1 ] == ESC ) { esc_count++; }`,
in the 16-bit unsigned arithmetic of the MSP430. After 65536 iterations
`esc_count` is 0 again, so a scan that has not stopped by then never stops. -/
def isr_esc_scan (D : Defs) (rx_fifo : Nat → Nat) (ptB : Nat) : Nat → Nat → Option Nat
  | 0, _ => none
  | fuel + 1, esc_count =>
    if rx_fifo (u16 (ptB + 131072 - 1 - esc_count - 1)) = D.ESC then
      isr_esc_scan D rx_fifo ptB fuel (u16 (esc_count + 1))
    else some esc_count

/-- The receive branch of `USCI0RXTX_ISR` for the incoming byte `c`. -/
def USCI0RXTX_ISR_rx (D : Defs) (c : Nat) (u : Uart) : Option Uart :=
  let ptB := u16 (u.rx_fifo_ptB + 1)
  let ptB := if ptB = D.FIFO_SIZE then 0 else ptB
  let u1 : Uart :=
    { u with rx_char := c, rx_flag := 1,
             rx_fifo := Function.update u.rx_fifo u.rx_fifo_ptB c,
             rx_fifo_ptB := ptB,
             rx_fifo_full := if u.rx_fifo_ptA = ptB then 1 else 0 }
  if c = D.STX ∧ u1.packet_ip = 0 then some { u1 with packet_ip := 1 }
  else if c = D.ETX ∧ u1.packet_ip = 1 then
    match isr_esc_scan D u1.rx_fifo u1.rx_fifo_ptB 65536 0 with
    | none => none
    | some esc_count =>
      if esc_count % 2 = 0 then some { u1 with packet_ip := 0, packet_ready := 1 }
      else some u1
  else some u1

/-- The receive interrupt runs for the next byte of the wire. -/
def receive_one (D : Defs) (c : Nat) (w : List Nat) (s : State) : Option State :=
  (USCI0RXTX_ISR_rx D c s.uart).map fun u =>
    { s with uart := u, env := { s.env with rx_wire := w } }

/-- The receive interrupt runs for the next `n` bytes of the wire. -/
def deliver (D : Defs) : Nat → State → Option State
  | 0, s => some s
  | n + 1, s =>
    match s.env.rx_wire with
    | [] => some s
    | c :: w => (receive_one D c w s).bind (deliver D n)

/-- The interrupts that ran since the previous poll: the timer has advanced
`time_ms` and the receive interrupt has run for the bytes that arrived. -/
def interrupts (D : Defs) (s : State) : Option State :=
  match s.env.sched with
  | [] => some s
  | (dt, n) :: rest =>
    deliver D n { s with env := { s.env with sched := rest,
                                             time_ms := u32 (s.env.time_ms + dt) } }

/-- `uart_getc`. -/
def uart_getc (D : Defs) (s : State) : Option (Nat × State) :=
  let waited : Option State :=
    if s.uart.rx_flag = 0 then
      match s.env.rx_wire with
      | [] => none
      | c :: w => receive_one D c w s
    else some s
  waited.map fun s =>
    let c := s.uart.rx_fifo s.uart.rx_fifo_ptA
    let ptA := u16 (s.uart.rx_fifo_ptA + 1)
    let ptA := if ptA = D.FIFO_SIZE then 0 else ptA
    (c, { s with uart :=
            { s.uart with rx_fifo_ptA := ptA,
                          rx_flag := if ptA = s.uart.rx_fifo_ptB then 0
                                     else s.uart.rx_flag } })

/-- The scan of `uart_getp`,
`while( esc_count < i && packet[ i - esc_count - 1 ] == ESC ) { esc_count++; }`. -/
def getp_esc_scan (D : Defs) (packet : Nat → Nat) (i : Nat) : Nat → Nat → Nat
  | 0, esc_count => esc_count
  | fuel + 1, esc_count =>
    if esc_count < i ∧ packet (i - esc_count - 1) = D.ESC then
      getp_esc_scan D packet i fuel (esc_count + 1)
    else esc_count

/-- The `for` loop of `uart_getp`; one iteration per unit of fuel. Returns the
returned length, the packet buffer and the state. -/
def uart_getp_loop (D : Defs) (max_length : Nat) :
    Nat → Nat → Nat → (Nat → Nat) → State → Option (Nat × (Nat → Nat) × State)
  | 0, _, _, _, _ => none
  | fuel + 1, i, message_started, packet, s =>
    if i < max_length then
      match uart_getc D s with
      | none => none
      | some (c, s) =>
        let started := if message_started = 0 then (if c = D.STX then 1 else 0)
                       else message_started
        let packet := if message_started = 0 ∧ c ≠ D.STX then packet
                      else Function.update packet i c
        let i := if message_started = 0 ∧ c ≠ D.STX then u16 (i + 65535) else i
        if packet i = D.ETX ∧ getp_esc_scan D packet i i 0 % 2 = 0 then
          some (u16 (i + 1), packet, s)
        else uart_getp_loop D max_length fuel (u16 (i + 1)) started packet s
    else some (max_length, packet, s)

/-- `uart_getp`. Every iteration consumes one received byte, so the loop runs
at most once per byte in the ring or on the wire. -/
def uart_getp (D : Defs) (packet : Nat → Nat) (max_length : Nat) (s : State) :
    Option (Nat × (Nat → Nat) × State) :=
  uart_getp_loop D max_length (65536 + s.env.rx_wire.length + max_length + 1) 0 0 packet s

/-! ### `uart_fifo.c`: session dispatcher and reliability layer -/

/-- `send_ack`. -/
def send_ack (D : Defs) (command ack : Nat) (s : State) : State :=
  let tx_data : TPacket_Data :=
    { command := command, ack := ack, data_size := 0, data := s.env.stack }
  let f := pack_tx_packet D tx_data s.env.stack
  uart_putp D f.1 f.2 s

/-- The test of the pixel-request timeout,
`(int32_t)( time_ms - pixel_request_time ) > PIXEL_TIMEOUT`: the difference is
taken in `uint32_t`, and values from `2^31` on are negative as `int32_t`. -/
def timed_out (D : Defs) (time_ms pixel_request_time : Nat) : Bool :=
  let time_since_rq := u32 (time_ms + 4294967296 - pixel_request_time)
  decide (time_since_rq < 2147483648 ∧ time_since_rq > D.PIXEL_TIMEOUT)

/-- The branch of `check_and_respond_to_msg` taken when no frame is ready:
the pixel-request timeout. -/
def pixel_timeout_check (D : Defs) (s : State) : State :=
  if s.ses.pixel_request_time ≠ UINT32_MAX then
    if timed_out D s.env.time_ms s.ses.pixel_request_time then halt_burn D s else s
  else s

/-- A busy wait on the lid sensor in the Start branch of
`check_and_respond_to_msg`, on the readings to come: `while( !( P6IN & LID_OPEN ) );`
when `until_set` is true, `while( P6IN & LID_OPEN );` when it is false. Each
iteration reads `P6IN` once and the reading is recorded in the trace. Returns
whether the loop has ended, and the state; a loop that has used up the
readings has not ended. -/
def wait_lid_in (D : Defs) (until_set : Bool) : List Nat → State → Bool × State
  | [], s => (false, { s with env := { s.env with lid_in := [] } })
  | r :: rest, s =>
    let s := { s with env := { s.env with lid_in := rest },
                      trace := s.trace ++ [Event.lid_read r] }
    if (decide (r &&& D.LID_OPEN ≠ 0)) = until_set then (true, s)
    else wait_lid_in D until_set rest s

/-- The three busy waits of the Start branch: until the lid reads closed;
then, when `door_opened == FALSE`, until it reads open, `door_opened = TRUE`,
and until it reads closed again. Returns whether the last wait has ended, and
the state reached: the state in which the branch goes on when the waits have
ended, the state in which it is still waiting when they have not. -/
def start_waits (D : Defs) (s : State) : Bool × State :=
  let w1 := wait_lid_in D true s.env.lid_in s
  if w1.1 then
    if w1.2.ses.door_opened = D.FALSE then
      let w2 := wait_lid_in D false w1.2.env.lid_in w1.2
      if w2.1 then
        let s := { w2.2 with ses := { w2.2.ses with door_opened := D.TRUE } }
        wait_lid_in D true s.env.lid_in s
      else w2
    else w1
  else w1

/-- The Start branch of `check_and_respond_to_msg`: the waits on the lid, then
`send_ack`, the session flags and `homeLaser`. Returns whether the branch has
ended, and the state reached (the state in which it is still waiting on the
lid when it has not). -/
def start_cmd (D : Defs) (command : Nat) (s : State) : Bool × State :=
  let w := start_waits D s
  if w.1 then
    let s := send_ack D command D.ACK_MSG w.2
    let s := { s with ses := { s.ses with picture_ip := D.TRUE, burn_ready := D.FALSE,
                                          first_pixel := D.TRUE } }
    (true, s.log Event.homeLaser)
  else w

/-- The part of `check_and_respond_to_msg` that follows `parse_rx_packet`:
`ret` is its result code and `lrx_data` the decoded packet. A Start branch
that does not end never returns. -/
def dispatch (D : Defs) (ret : Nat) (lrx_data : TPacket_Data) (s : State) : Option State :=
  if ret = 0 then
    if lrx_data.ack = D.NEW_CMD then
      if lrx_data.command = D.CMD_BURN then
        let s := send_ack D lrx_data.command D.ACK_MSG s
        let s := { s with ses := { s.ses with burn_ready := D.TRUE,
                                              pixel_request_time := UINT32_MAX } }
        if s.ses.first_pixel = D.TRUE then
          let s := enable_laser D s
          let s := delay_ms 1 s
          some { s with ses := { s.ses with first_pixel := D.FALSE } }
        else some s
      else if lrx_data.command = D.CMD_START then
        let r := start_cmd D lrx_data.command s
        if r.1 then some r.2 else none
      else if lrx_data.command = D.CMD_END then
        let s := send_ack D lrx_data.command D.ACK_MSG s
        let s := disable_laser D s
        let s := { s with ses := { s.ses with picture_ip := D.FALSE } }
        let s := s.log Event.homeLaser
        some { s with ses := { s.ses with door_opened := D.FALSE } }
      else if lrx_data.command = D.CMD_INIT then
        let s := disable_laser D s
        let s := s.log Event.homeLaser
        let s := send_ack D lrx_data.command D.ACK_MSG s
        some { s with ses := { s.ses with pi_init := D.JUST_INITIALIZED } }
      else
        some (send_ack D lrx_data.command D.NAK_MSG s)
    else some s
  else
    some (send_ack D lrx_data.command D.NAK_MSG s)

/-- The receive path of `check_and_respond_to_msg`: `last_rx_time` is set,
`uart_getp` reads the frame into the local `rx_packet` and `parse_rx_packet`
decodes it into the local `lrx_data`. Returns the result code, `lrx_data` and
the state. -/
def receive_packet (D : Defs) (s : State) : Option (Nat × TPacket_Data × State) :=
  let s := { s with ses := { s.ses with last_rx_time := s.env.time_ms } }
  (uart_getp D s.env.stack D.MAX_PACKET_LENGTH s).map fun r =>
    let parsed := parse_rx_packet D r.2.1 r.1
      { command := 0, ack := 0, data_size := 0, data := s.env.stack }
    (parsed.1, parsed.2, r.2.2)

/-- `check_and_respond_to_msg`; `rx_data` is `none` for a null pointer. -/
def check_and_respond_to_msg (D : Defs) (rx_data : Option TPacket_Data) (s : State) :
    Option (Option TPacket_Data × State) :=
  if s.uart.packet_ready = 1 then
    (receive_packet D s).bind fun r =>
    (dispatch D r.1 r.2.1 r.2.2).bind fun s =>
    some (rx_data.map (fun _ => r.2.1), s)
  else
    some (rx_data, pixel_timeout_check D s)

/-- A poll: the interrupts since the previous poll have run, then
`check_and_respond_to_msg` is called. -/
def poll_msg (D : Defs) (rx_data : Option TPacket_Data) (s : State) :
    Option (Option TPacket_Data × State) :=
  (interrupts D s).bind (check_and_respond_to_msg D rx_data)

/-- The packet that a call of `check_and_respond_to_msg` takes from the
receive path, with the result code of `parse_rx_packet` and the state in which
it is dispatched; `none` when no frame is ready or the call waits forever for
one. -/
def received (D : Defs) (s : State) : Option (Nat × TPacket_Data × State) :=
  if s.uart.packet_ready = 1 then receive_packet D s else none

/-- The test `rx_data.ack == ACK_MSG && rx_data.command == tx_data.command` of
`send_ready_for_pixel`. -/
def ready_acked (D : Defs) (rx_data : TPacket_Data) : Bool :=
  rx_data.ack == D.ACK_MSG && rx_data.command == D.CMD_PIXEL_READY

/-- The retry loop of `send_ready_for_pixel`; the first argument is
`MAX_ATTEMPTS - i`. Returns the number of iterations made, `rx_data` and the
state. -/
def ready_loop (D : Defs) (tx_buff : Nat → Nat) (tx_length : Nat) :
    Nat → TPacket_Data → State → Option (Nat × TPacket_Data × State)
  | 0, rx_data, s => some (0, rx_data, s)
  | n + 1, rx_data, s =>
    if ready_acked D rx_data then some (0, rx_data, s)
    else
      (poll_msg D (some rx_data) (uart_putp D tx_buff tx_length s)).bind fun r =>
      (ready_loop D tx_buff tx_length n (r.1.getD rx_data) r.2).bind fun q =>
      some (q.1 + 1, q.2)

/-- The retry loop of `send_ready_for_pixel` on the frame it builds. -/
def send_ready_attempts (D : Defs) (s : State) : Option (Nat × TPacket_Data × State) :=
  let tx_data : TPacket_Data :=
    { command := D.CMD_PIXEL_READY, ack := D.NEW_CMD, data_size := 0, data := s.env.stack }
  let f := pack_tx_packet D tx_data s.env.stack
  ready_loop D f.1 f.2 D.MAX_ATTEMPTS
    { command := 0, ack := 0, data_size := 0, data := s.env.stack } s

/-- `send_ready_for_pixel`. -/
def send_ready_for_pixel (D : Defs) (s : State) : Option State :=
  (send_ready_attempts D s).bind fun r =>
  if ready_acked D r.2.1 then
    some { r.2.2 with ses := { r.2.2.ses with pixel_request_time := r.2.2.env.time_ms } }
  else some (halt_burn D r.2.2)

/-- The lid check of `respond_to_burn_cmd`:
`if( !( P6IN & LID_OPEN ) ) { disable_laser(); while( !( P6IN & LID_OPEN ) ); enable_laser(); }`. -/
def lid_check (D : Defs) (s : State) : Option State :=
  match s.env.lid_in with
  | [] => none
  | r :: rest =>
    let s := { s with env := { s.env with lid_in := rest } }
    if r &&& D.LID_OPEN = 0 then
      let s := disable_laser D s
      (wait_lid D true s.env.lid_in).map fun l =>
        enable_laser D { s with env := { s.env with lid_in := l } }
    else some s

/-- The `switch( laser_intensity )` of `respond_to_burn_cmd`. -/
def fire_laser (D : Defs) (laser_intensity : Nat) (s : State) : State :=
  if laser_intensity = 0 then turn_on_laser_timed D D.INTENSITY_1 D.LASER_DUR_1 s
  else if laser_intensity = 1 then turn_on_laser_timed D D.INTENSITY_2 D.LASER_DUR_2 s
  else if laser_intensity = 2 then turn_on_laser_timed D D.INTENSITY_3 D.LASER_DUR_3 s
  else if laser_intensity = 3 then turn_on_laser_timed D D.MAX_INTENSITY D.LASER_DUR_4 s
  else s

/-- The part of `respond_to_burn_cmd` that precedes `send_ready_for_pixel`;
`motor_ret` is the value that `moveMotors` returns. -/
def burn_pixel (D : Defs) (burn_cmd_payload : Nat → Nat) (motor_ret : Nat) (s : State) :
    Option State :=
  let pos := parse_burn_cmd_payload burn_cmd_payload
  let s := s.log (Event.moveMotors pos.2.1 pos.1)
  let s := if motor_ret = 1 then halt_burn D s else s
  (lid_check D s).map fun s =>
    let s := fire_laser D pos.2.2 s
    { s with ses := { s.ses with burn_ready := D.FALSE } }

/-- `respond_to_burn_cmd`. -/
def respond_to_burn_cmd (D : Defs) (burn_cmd_payload : Nat → Nat) (motor_ret : Nat)
    (s : State) : Option State :=
  (burn_pixel D burn_cmd_payload motor_ret s).bind (send_ready_for_pixel D)

/-- The state after `init_uart` and `init_laser` on a device whose other
globals hold their initial values, with the given environment. -/
def init_state (D : Defs) (rx_wire : List Nat) (sched : List (Nat × Nat))
    (lid_in : List Nat) : State :=
  { uart := { tx_char := 0, rx_flag := 0, rx_char := 0,
              tx_fifo := fun _ => 0, rx_fifo := fun _ => 0,
              tx_fifo_ptA := 0, tx_fifo_ptB := 0, rx_fifo_ptA := 0, rx_fifo_ptB := 0,
              rx_fifo_full := 0, tx_fifo_full := 0, packet_ip := 0, packet_ready := 0,
              UCA1IE := 1 },
    ses := { burn_ready := D.FALSE, picture_ip := D.FALSE, pi_init := D.FALSE,
             first_pixel := D.FALSE, door_opened := D.FALSE,
             last_rx_time := UINT32_MAX, pixel_request_time := UINT32_MAX },
    laser := { laser_on := D.FALSE, P1OUT := D.LASER_ENA_PIN, P7OUT := 0,
               TA0CCR1 := 0, TA0CCTL1 := 0 },
    env := { time_ms := 0, rx_wire := rx_wire, sched := sched, lid_in := lid_in,
             stack := fun _ => 0 },
    trace := [] }

/-- Only the fields of the byte transport and the wire differ. -/
def RxOnly (s t : State) : Prop :=
  t.ses = s.ses ∧ t.laser = s.laser ∧ t.trace = s.trace ∧
  t.env.time_ms = s.env.time_ms ∧ t.env.sched = s.env.sched ∧
  t.env.lid_in = s.env.lid_in ∧ t.env.stack = s.env.stack

/-- The frames passed to `uart_putp`, in order. -/
def tx_frames : List Event → List (List Nat)
  | [] => []
  | Event.putp f :: es => f :: tx_frames es
  | _ :: es => tx_frames es

/-! ## Wire layout as the specification words it -/

/-- One payload or checksum byte on the wire: preceded by exactly one `ESC`
if and only if it equals `STX`, `ETX` or `ESC`. -/
def esc_bytes (D : Defs) (x : Nat) : List Nat :=
  if needs_esc D x then [D.ESC, x] else [x]

/-- The payload section of a frame: `data[i]` for `i = n-1` down to `0`,
each escaped by `esc_bytes`. -/
def payload_wire (D : Defs) (data : Nat → Nat) : Nat → List Nat
  | 0 => []
  | i + 1 => esc_bytes D (data i) ++ payload_wire D data i

/-- The frame of a NewCommand packet with a non-empty payload:
`STX`, command, escaped payload, escaped checksum, `ETX`. -/
def frame_layout (D : Defs) (command : Nat) (data : Nat → Nat) (n : Nat) : List Nat :=
  [D.STX, command] ++ payload_wire D data n
    ++ esc_bytes D (calc_8bit_mod_checksum data n) ++ [D.ETX]

/-- The index in the frame of the byte that carries `data[i]` (after its
`ESC`, when it has one): the two header bytes, the wire bytes of
`data[n-1] .. data[i+1]`, and the `ESC` of `data[i]` precede it. -/
def payload_index (D : Defs) (data : Nat → Nat) (n i : Nat) : Nat :=
  2 + ((payload_wire D data n).length - (payload_wire D data (i + 1)).length)
    + (if needs_esc D (data i) then 1 else 0)

/-! ## Proof vocabulary: buffers holding lists, wire tokens -/

/-- The buffer `buf` holds the list `l` from index `it` on. -/
def At (buf : Nat → Nat) : Nat → List Nat → Prop
  | _, [] => True
  | it, x :: l => buf it = x ∧ At buf (it + 1) l

/-- `tx_buff[tx_it++] = v` for each `v` of a list in turn. -/
def TxBuf.puts (b : TxBuf) (l : List Nat) : TxBuf := l.foldl TxBuf.put b

/-- A wire token: a byte value and whether an `ESC` precedes it. -/
abbrev Tok := Bool × Nat

/-- The wire bytes of a token. -/
def tok_bytes (D : Defs) (t : Tok) : List Nat :=
  if t.1 then [D.ESC, t.2] else [t.2]

/-- The wire bytes of a token sequence. -/
def toks_bytes (D : Defs) : List Tok → List Nat
  | [] => []
  | t :: ts => tok_bytes D t ++ toks_bytes D ts

/-- A token the decoder reads back as one byte: an unescaped token is not
`ESC` itself. -/
def tok_ok (D : Defs) (t : Tok) : Prop := t.1 = false → t.2 ≠ D.ESC

/-- The sum of the byte values of a token sequence. -/
def toks_sum : List Tok → Nat
  | [] => 0
  | t :: ts => t.2 + toks_sum ts

/-- The payload array after the decoder loop has stored the values of the
tokens `ts` at the indices `ts.length - 1` down to `0`. -/
def fill : List Tok → (Nat → Nat) → (Nat → Nat)
  | [], d => d
  | t :: ts, d => fill ts (Function.update d ts.length t.2)

/-- The tokens the encoder emits for `data[k+m-1]` down to `data[k]`. -/
def enc_seg (D : Defs) (data : Nat → Nat) (k : Nat) : Nat → List Tok
  | 0 => []
  | m + 1 => (needs_esc D (data (k + m)), data (k + m)) :: enc_seg D data k m

/-- A valid logical packet: one of the three ack kinds, a command that the
decoder table lists for that kind, the payload length of the table, and byte
values in the payload. -/
def valid_packet (D : Defs) (p : TPacket_Data) : Prop :=
  (p.ack = D.NEW_CMD ∨ p.ack = D.ACK_MSG ∨ p.ack = D.NAK_MSG) ∧
  payload_size D p.ack p.command = some p.data_size ∧
  ∀ i, i < p.data_size → p.data i < 256

/-- A sample Burn packet whose payload holds `ESC`, `STX`, a plain byte and
`ETX`. -/
def sampleBurn : TPacket_Data :=
  { command := 66, ack := 0, data_size := 4, data := bytes [27, 2, 5, 3] }

/-- The state in which the interrupts scheduled for the next poll have run. -/
def after_interrupts (D : Defs) (s : State) : State := (interrupts D s).getD s

/-- The state of an idle device that has just received a Burn frame with
payload `[14, 0, 4, 8]`: the receive interrupt has run for its 8 bytes; no
picture session is open. -/
def burnArrival : State :=
  after_interrupts sampleDefs (init_state sampleDefs [2, 66, 8, 4, 0, 14, 230, 3] [(0, 8)] [])

/-- One poll of the main loop: `check_and_respond_to_msg( 0 )`. -/
def poll (D : Defs) (s : State) : Option State :=
  (poll_msg D none s).map Prod.snd

/-- `n` successive polls. -/
def polls (D : Defs) : Nat → State → Option State
  | 0, s => some s
  | n + 1, s => (poll D s).bind (polls D n)

/-- The values of `time_ms` at the next `n` polls, from the current value and
the interrupt schedule. -/
def poll_times : Nat → Nat → List (Nat × Nat) → List Nat
  | 0, _, _ => []
  | n + 1, t, [] => t :: poll_times n t []
  | n + 1, t, e :: rest => u32 (t + e.1) :: poll_times n (u32 (t + e.1)) rest

/-- The events of one call of `halt_burn`. -/
def halt_events : List Event :=
  [Event.halt_burn, Event.disable_laser, Event.turn_off_laser]

/-- The events of a sequence of polls with no frame ready, the pixel
request of time `t0` outstanding: one call of `halt_burn` for each poll whose
time is past the timeout. -/
def timeout_events (D : Defs) (t0 : Nat) : List Nat → List Event
  | [] => []
  | tm :: rest =>
    (if timed_out D tm t0 then halt_events else []) ++ timeout_events D t0 rest

/-- The number of calls of `halt_burn` in a trace. -/
def halt_count (tr : List Event) : Nat := tr.count Event.halt_burn

/-- A picture session in progress on which a Burn frame with payload
`[14, 0, 4, 8]` (y = 7, x = 16, intensity level 1) has just arrived; the host
will acknowledge the pixel request that follows; `lid_in` are the readings of
the lid sensor to come. -/
def burnThenAck (lid_in : List Nat) : State :=
  { init_state sampleDefs [2, 66, 8, 4, 0, 14, 230, 3, 2, 6, 82, 3] [(0, 8)] lid_in with
    ses := { burn_ready := 0, picture_ip := 1, pi_init := 1, first_pixel := 0,
             door_opened := 1, last_rx_time := 0, pixel_request_time := 0 },
    laser := { laser_on := 0, P1OUT := 0, P7OUT := 1, TA0CCR1 := 0, TA0CCTL1 := 0 } }

/-- A picture session in progress on which a Burn frame with payload
`[14, 0, 4, 8]` has just arrived; the lid is closed and the host sends
nothing more. -/
def burnInSession : State :=
  { init_state sampleDefs [2, 66, 8, 4, 0, 14, 230, 3] [(0, 8)] [16] with
    ses := { burn_ready := 0, picture_ip := 1, pi_init := 1, first_pixel := 0,
             door_opened := 1, last_rx_time := 0, pixel_request_time := 0 },
    laser := { laser_on := 0, P1OUT := 0, P7OUT := 1, TA0CCR1 := 0, TA0CCTL1 := 0 } }

/-- A picture session in progress, no frame pending; the host answers the
first pixel request with the Nak frame `STX, NAK_MSG, CMD_PIXEL_READY, ETX`
and then stays silent. -/
def hostNaksOnce : State :=
  { init_state sampleDefs [2, 21, 82, 3] [(0, 4)] [] with
    ses := { burn_ready := 0, picture_ip := 1, pi_init := 1, first_pixel := 0,
             door_opened := 1, last_rx_time := 0, pixel_request_time := UINT32_MAX } }

/-- The ack kind that `parse_rx_packet` reads from the byte after `STX`. -/
def frame_ack (D : Defs) (rx_buff : Nat → Nat) : Nat :=
  if rx_buff 1 = D.ACK_MSG then D.ACK_MSG
  else if rx_buff 1 = D.NAK_MSG then D.NAK_MSG else D.NEW_CMD

/-- The index of the command byte of a frame: 2 after an ack sentinel, 1
otherwise. -/
def command_index (D : Defs) (rx_buff : Nat → Nat) : Nat :=
  if rx_buff 1 = D.ACK_MSG ∨ rx_buff 1 = D.NAK_MSG then 2 else 1

/-- The value of `rx_it` at the last test of `parse_rx_packet`,
`if(rx_buff[rx_it] != ETX )`, on a frame that gets that far: the index after
the command byte when the payload is empty, the index after the checksum
otherwise. -/
def etx_index (D : Defs) (rx_buff : Nat → Nat) (length : Nat) (rx_data : TPacket_Data) : Nat :=
  let rx_it := command_index D rx_buff + 1
  match payload_size D (frame_ack D rx_buff) (rx_buff (command_index D rx_buff)) with
  | none => rx_it
  | some size =>
    if size ≠ 0 then
      let rx_it := (parse_data_loop D rx_buff length size rx_it rx_data.data).1
      let rx_it := if rx_buff rx_it = D.ESC then u16 (rx_it + 1) else rx_it
      u16 (rx_it + 1)
    else rx_it

/-- The reply frame that `send_ack` builds: `pack_tx_packet` leaves the
command byte out when it is `NAK_MSG`. -/
def ack_frame (D : Defs) (ack command : Nat) : List Nat :=
  if command ≠ D.NAK_MSG then [D.STX, ack, command, D.ETX] else [D.STX, ack, D.ETX]

/-- The busy waits on the lid of the Start branch of
`check_and_respond_to_msg`, on the coming readings `lid_in`: returns the
readings that remain when the waits end. -/
def start_lid_wait (D : Defs) (door_opened : Nat) (lid_in : List Nat) : Option (List Nat) :=
  (wait_lid D true lid_in).bind fun l =>
    if door_opened = D.FALSE then (wait_lid D false l).bind (wait_lid D true) else some l

/-- The state of an idle device on which the receive interrupt has run for
the bytes of `frame`; `lid_in` are the coming readings of the lid sensor. -/
def arrival (frame lid_in : List Nat) : State :=
  after_interrupts sampleDefs (init_state sampleDefs frame [(0, frame.length)] lid_in)

/-- The writes of the receive handler that precede its test of the byte. -/
def rx_store (D : Defs) (c : Nat) (u : Uart) : Uart :=
  let ptB := u16 (u.rx_fifo_ptB + 1)
  let ptB := if ptB = D.FIFO_SIZE then 0 else ptB
  { u with rx_char := c, rx_flag := 1,
           rx_fifo := Function.update u.rx_fifo u.rx_fifo_ptB c,
           rx_fifo_ptB := ptB,
           rx_fifo_full := if u.rx_fifo_ptA = ptB then 1 else 0 }

/-- An idle device on which the receive interrupt has run for 64 bytes
`0x41` (`FIFO_SIZE` of the sample constants) while the main loop has read
none: the receive ring is full. -/
def ringFull : State :=
  after_interrupts sampleDefs (init_state sampleDefs (List.replicate 64 65) [(0, 64)] [])

/-- The receive handler run for each byte of a stream, in order. -/
def isr_run (D : Defs) : List Nat → Uart → Option Uart
  | [], u => some u
  | c :: cs, u => (USCI0RXTX_ISR_rx D c u).bind (isr_run D cs)

/-- A stream of 63 bytes: `STX`, 61 bytes `0x41`, `ESC`. -/
def escAtRingEnd : List Nat := 2 :: (List.replicate 61 65 ++ [27])

/-- A stream of 65 bytes: `STX`, 62 bytes `0x41`, `ESC`, `ESC`. -/
def escAcrossRingEnd : List Nat := 2 :: (List.replicate 62 65 ++ [27, 27])

/-- The receive ring holds the stream `l` received since initialisation,
no byte of which has been overwritten. -/
def RingHolds (D : Defs) (l : List Nat) (u : Uart) : Prop :=
  u.rx_fifo_ptB = l.length ∧ (∀ i, i < l.length → u.rx_fifo i = l.getD i 0)
  ∧ (u.packet_ip = 1 → D.STX ∈ l)

/-- The indices at which the backward scan of the receive handler reads
`rx_fifo`, in order: `isr_esc_scan` with its reads recorded. -/
def isr_scan_reads (D : Defs) (rx_fifo : Nat → Nat) (ptB : Nat) : Nat → Nat → List Nat
  | 0, _ => []
  | fuel + 1, esc_count =>
    u16 (ptB + 131072 - 1 - esc_count - 1) ::
      (if rx_fifo (u16 (ptB + 131072 - 1 - esc_count - 1)) = D.ESC then
        isr_scan_reads D rx_fifo ptB fuel (u16 (esc_count + 1))
      else [])

/-- A stream of 63 bytes: `STX`, 62 bytes `0x41`. -/
def plainToRingEnd : List Nat := 2 :: List.replicate 62 65

/-- A device just initialised whose host sends the byte `0x41` and then the
Start frame `STX, CMD_START, ETX`. -/
def junkThenStart : State := init_state sampleDefs [65, 2, 83, 3] [] []

/-- `n` successive calls of `uart_getc`: the bytes returned, in order, and the
state after the last call. -/
def uart_getc_n (D : Defs) : Nat → State → Option (List Nat × State)
  | 0, s => some ([], s)
  | n + 1, s =>
    (uart_getc D s).bind fun r =>
    (uart_getc_n D n r.2).map fun q => (r.1 :: q.1, q.2)

/-- The receive ring holds the unread bytes `l`, oldest first, from the read
index on, and `rx_flag` tells whether there are any. -/
def Unread (D : Defs) (l : List Nat) (u : Uart) : Prop :=
  u.rx_fifo_ptA < D.FIFO_SIZE ∧ l.length ≤ D.FIFO_SIZE
  ∧ u.rx_fifo_ptB = (u.rx_fifo_ptA + l.length) % D.FIFO_SIZE
  ∧ (∀ j, j < l.length → u.rx_fifo ((u.rx_fifo_ptA + j) % D.FIFO_SIZE) = l.getD j 0)
  ∧ u.rx_flag = (if l = [] then 0 else 1)

/-- A device whose receive ring is empty with both indices at 62, two cells
before the end of the ring; the host sends `10, 20, 30, 40`. -/
def ringNearEnd : State :=
  { init_state sampleDefs [10, 20, 30, 40] [] [] with
    uart := { (init_state sampleDefs [] [] []).uart with rx_fifo_ptA := 62, rx_fifo_ptB := 62 } }

/-- The number of `ESC` bytes at the end of a byte list. -/
def esc_tail (D : Defs) (l : List Nat) : Nat :=
  (l.reverse.takeWhile (fun x => decide (x = D.ESC))).length

/-- After the bytes `P`, no byte of `R` is an `ETX` preceded by an even run of
`ESC`. -/
def Quiet (D : Defs) : List Nat → List Nat → Prop
  | _, [] => True
  | P, x :: R => ¬ (x = D.ETX ∧ esc_tail D P % 2 = 0) ∧ Quiet D (P ++ [x]) R

/-- The bytes that the coming calls of `uart_getc` return are those of
`stream`: the unread bytes of the receive ring, then the bytes still on the
wire. -/
def Pending (D : Defs) (s : State) (stream : List Nat) : Prop :=
  ∃ l, Unread D l s.uart ∧ stream = l ++ s.env.rx_wire

/-- A device just initialised whose host sends the frame of `sampleBurn` as
`pack_tx_packet` writes it (`STX, 0x42, ESC, ETX, 5, ESC, STX, ESC, ESC, 219,
ETX`), then the byte 9. -/
def burnOnWire : State :=
  init_state sampleDefs
    ((List.range (pack_tx_packet sampleDefs sampleBurn (fun _ => 0)).2).map
        (pack_tx_packet sampleDefs sampleBurn (fun _ => 0)).1 ++ [9]) [] []

/-- The transmit ring of `v` is that of `u` with the bytes of `l` enqueued:
they stand in `tx_fifo` from the write index `tx_fifo_ptA` of `u` on, modulo
`FIFO_SIZE`, every other cell is as in `u`, the write index has advanced by
the length of `l`, the read index `tx_fifo_ptB` is as in `u`, and the transmit
interrupt is enabled (`UCA1IE |= BIT1`). -/
def Enqueued (D : Defs) (l : List Nat) (u v : Uart) : Prop :=
  (∀ j, j < l.length → v.tx_fifo ((u.tx_fifo_ptA + j) % D.FIFO_SIZE) = l.getD j 0)
  ∧ (∀ i, (∀ j, j < l.length → i ≠ (u.tx_fifo_ptA + j) % D.FIFO_SIZE)
        → v.tx_fifo i = u.tx_fifo i)
  ∧ v.tx_fifo_ptA = (u.tx_fifo_ptA + l.length) % D.FIFO_SIZE
  ∧ v.tx_fifo_ptB = u.tx_fifo_ptB
  ∧ v.UCA1IE = u.UCA1IE ||| 2

/-- A whole session from power-up, with the sample constants. The host sends
the Start frame (the lid sensor reads closed, open, closed), then a Burn frame
with payload `[14, 0, 4, 8]` (the lid reads closed during the burn), then the
Ack `STX, ACK_MSG, CMD_PIXEL_READY, ETX` of the pixel request, and nothing
more. The main loop polls twice and calls `respond_to_burn_cmd`; the polls
that follow come 6000 and 1000 milliseconds later. -/
def sessionToAck : Option State :=
  ((poll sampleDefs
      (init_state sampleDefs [2, 83, 3, 2, 66, 8, 4, 0, 14, 230, 3, 2, 6, 82, 3]
        [(10, 3), (20, 8), (7, 4), (6000, 0), (1000, 0)] [16, 0, 16, 16])).bind
    (poll sampleDefs)).bind (respond_to_burn_cmd sampleDefs (bytes [14, 0, 4, 8]) 0)

/-! ## Theorems -/

theorem sampleDefs_WF : sampleDefs.WF := by
  constructor <;> decide

/-! ### Checksum -/

theorem checksum_fold_eq (data : Nat → Nat) (n : Nat) :
    (List.range n).foldl (fun s i => (s + data i) % 256) 0
      = ((List.range n).map data).sum % 256 := by
  induction n with
  | zero => simp
  | succ k ih =>
    simp only [List.range_succ, List.foldl_append, List.foldl_cons, List.foldl_nil,
      List.map_append, List.sum_append, List.map_cons, List.map_nil, List.sum_cons,
      List.sum_nil, ih]
    omega

theorem checksum_eq (data : Nat → Nat) (n : Nat) :
    calc_8bit_mod_checksum data n = (256 - ((List.range n).map data).sum % 256) % 256 := by
  simp only [calc_8bit_mod_checksum, checksum_fold_eq]

/-- C6: `calc_8bit_mod_checksum(data, n)` is `256 - (sum of the bytes mod 256)`
reduced modulo 256; the byte sum plus the checksum is a multiple of 256; and the
checksum is 0 when the byte sum is a multiple of 256 (in particular for n = 0). -/
theorem calc_8bit_mod_checksum_spec (data : Nat → Nat) (n : Nat) :
    calc_8bit_mod_checksum data n = (256 - ((List.range n).map data).sum % 256) % 256
    ∧ calc_8bit_mod_checksum data n < 256
    ∧ (((List.range n).map data).sum + calc_8bit_mod_checksum data n) % 256 = 0
    ∧ (((List.range n).map data).sum % 256 = 0 → calc_8bit_mod_checksum data n = 0)
    ∧ calc_8bit_mod_checksum data 0 = 0 := by
  have e := checksum_eq data n
  have e0 : calc_8bit_mod_checksum data 0 = 0 := by simp [calc_8bit_mod_checksum]
  refine ⟨e, ?_, ?_, ?_, e0⟩
  · omega
  · omega
  · intro h0; omega

/-! ### Burn payload -/

theorem and_shifted_mask (w k s m : Nat) (hm : m = (2 ^ k - 1) <<< s) :
    (w &&& m) >>> s = (w / 2 ^ s) % 2 ^ k := by
  subst hm
  apply Nat.eq_of_testBit_eq
  intro i
  rw [← Nat.shiftRight_eq_div_pow]
  simp only [Nat.testBit_shiftRight, Nat.testBit_and, Nat.testBit_shiftLeft,
    Nat.testBit_mod_two_pow, Nat.testBit_two_pow_sub_one]
  by_cases h : i < k <;> simp [h]

theorem combined_eq (b0 b1 b2 b3 : Nat) (h0 : b0 < 256) (h1 : b1 < 256)
    (h2 : b2 < 256) (h3 : b3 < 256) :
    (0 ||| b0 ||| u32 (b1 <<< 8)) ||| u32 ((0 ||| u32 (b2 <<< 0) ||| u32 (b3 <<< 8)) <<< 16)
      = le_word b0 b1 b2 b3 := by
  have e1 : u32 (b1 <<< 8) = 2 ^ 8 * b1 := by
    simp only [u32, Nat.shiftLeft_eq]; omega
  have e2 : u32 (b2 <<< 0) = b2 := by
    simp only [u32, Nat.shiftLeft_eq]; omega
  have e3 : u32 (b3 <<< 8) = 2 ^ 8 * b3 := by
    simp only [u32, Nat.shiftLeft_eq]; omega
  have a1 : 2 ^ 8 * b1 ||| b0 = 2 ^ 8 * b1 + b0 := (Nat.mul_add_lt_is_or (by omega) b1).symm
  have a2 : 2 ^ 8 * b3 ||| b2 = 2 ^ 8 * b3 + b2 := (Nat.mul_add_lt_is_or (by omega) b3).symm
  have e4 : u32 ((2 ^ 8 * b3 + b2) <<< 16) = 2 ^ 16 * (2 ^ 8 * b3 + b2) := by
    simp only [u32, Nat.shiftLeft_eq]; omega
  have a3 : 2 ^ 16 * (2 ^ 8 * b3 + b2) ||| (2 ^ 8 * b1 + b0)
      = 2 ^ 16 * (2 ^ 8 * b3 + b2) + (2 ^ 8 * b1 + b0) :=
    (Nat.mul_add_lt_is_or (by omega) _).symm
  rw [e1, e2, e3, Nat.zero_or, Nat.zero_or, Nat.or_comm b0, a1, Nat.or_comm b2, a2, e4,
    Nat.or_comm, a3]
  unfold le_word
  omega

theorem burn_layout (p : Nat → Nat)
    (h0 : p 0 < 256) (h1 : p 1 < 256) (h2 : p 2 < 256) (h3 : p 3 < 256) :
    parse_burn_cmd_payload p =
      ((le_word (p 0) (p 1) (p 2) (p 3) / 2) % 8192,
       (le_word (p 0) (p 1) (p 2) (p 3) / 16384) % 8192,
       (le_word (p 0) (p 1) (p 2) (p 3) / 134217728) % 4) := by
  unfold parse_burn_cmd_payload
  simp only [combined_eq _ _ _ _ h0 h1 h2 h3]
  rw [and_shifted_mask _ 13 1 0x00003FFE (by decide),
    and_shifted_mask _ 13 14 0x07FFC000 (by decide),
    and_shifted_mask _ 2 27 0x18000000 (by decide)]
  norm_num

/-- C4 (as stated, refuted): the raw bytes `[0x0E, 0x00, 0x80, 0x02]` do not
decode to vertical 7, horizontal 0, intensity 1. -/
theorem burn_example_as_stated_fails :
    parse_burn_cmd_payload (bytes [0x0E, 0x00, 0x80, 0x02]) ≠ (7, 0, 1) := by
  decide

/-- C4 (amended): the raw bytes `[0x0E, 0x00, 0x80, 0x02]` are the
little-endian word `0x0280000E` and decode to yLocation 7, xLocation 2560,
laserInt 0. -/
theorem burn_example_amended :
    le_word 0x0E 0x00 0x80 0x02 = 0x0280000E ∧
    parse_burn_cmd_payload (bytes [0x0E, 0x00, 0x80, 0x02]) = (7, 2560, 0) := by
  decide

/-- C5: for bytes `b0..b3` with little-endian word `w`, `parse_burn_cmd_payload`
returns yLocation = `(w / 2) mod 8192`, xLocation = `(w / 16384) mod 8192` and
laserInt = `(w / 134217728) mod 4`; laserInt is at most 3; and any other four
bytes whose word has the same bits 1..28 decode to the same triple. -/
theorem burn_payload_bit_layout (p : Nat → Nat)
    (h0 : p 0 < 256) (h1 : p 1 < 256) (h2 : p 2 < 256) (h3 : p 3 < 256) :
    parse_burn_cmd_payload p =
      ((le_word (p 0) (p 1) (p 2) (p 3) / 2) % 8192,
       (le_word (p 0) (p 1) (p 2) (p 3) / 16384) % 8192,
       (le_word (p 0) (p 1) (p 2) (p 3) / 134217728) % 4)
    ∧ (parse_burn_cmd_payload p).2.2 ≤ 3
    ∧ ∀ q : Nat → Nat, q 0 < 256 → q 1 < 256 → q 2 < 256 → q 3 < 256 →
        (le_word (q 0) (q 1) (q 2) (q 3) / 2) % 268435456
          = (le_word (p 0) (p 1) (p 2) (p 3) / 2) % 268435456 →
        parse_burn_cmd_payload q = parse_burn_cmd_payload p := by
  have e := burn_layout p h0 h1 h2 h3
  refine ⟨e, ?_, ?_⟩
  · rw [e]; show _ % 4 ≤ 3; omega
  · intro q g0 g1 g2 g3 hw
    rw [e, burn_layout q g0 g1 g2 g3]
    generalize le_word (q 0) (q 1) (q 2) (q 3) = wq at hw
    generalize le_word (p 0) (p 1) (p 2) (p 3) = wp at hw
    refine Prod.ext ?_ (Prod.ext ?_ ?_) <;> simp only <;> omega

/-- C5 at the bytes `[0x0E, 0x00, 0x02, 0x08]` (the word `0x0802000E` of the
test value in the source). -/
theorem burn_payload_bit_layout_witness :
    parse_burn_cmd_payload (bytes [0x0E, 0x00, 0x02, 0x08]) =
      ((le_word 0x0E 0x00 0x02 0x08 / 2) % 8192,
       (le_word 0x0E 0x00 0x02 0x08 / 16384) % 8192,
       (le_word 0x0E 0x00 0x02 0x08 / 134217728) % 4) :=
  (burn_payload_bit_layout (bytes [0x0E, 0x00, 0x02, 0x08])
    (by decide) (by decide) (by decide) (by decide)).1

/-! ### Encoder: the buffer written is the frame layout -/

theorem At_append (buf : Nat → Nat) (l1 l2 : List Nat) :
    ∀ it, At buf it (l1 ++ l2) ↔ At buf it l1 ∧ At buf (it + l1.length) l2 := by
  induction l1 with
  | nil => intro it; simp [At]
  | cons x l ih =>
    intro it
    have e : it + 1 + l.length = it + (l.length + 1) := by omega
    show (buf it = x ∧ At buf (it + 1) (l ++ l2))
      ↔ (buf it = x ∧ At buf (it + 1) l) ∧ At buf (it + (l.length + 1)) l2
    rw [ih, e, and_assoc]

theorem At_getD (buf : Nat → Nat) (l : List Nat) :
    ∀ it, At buf it l ↔ ∀ k, k < l.length → buf (it + k) = l.getD k 0 := by
  induction l with
  | nil => intro it; simp [At]
  | cons x l ih =>
    intro it
    simp only [At, ih, List.length_cons]
    constructor
    · rintro ⟨h0, h⟩ k hk
      cases k with
      | zero => simpa using h0
      | succ j =>
        have := h j (by omega)
        have e : it + (j + 1) = it + 1 + j := by omega
        rw [e, this]; simp
    · intro h
      refine ⟨by simpa using h 0 (by omega), fun k hk => ?_⟩
      have := h (k + 1) (by omega)
      have e : it + (k + 1) = it + 1 + k := by omega
      rw [e] at this
      rw [this]; simp

theorem At_update (buf : Nat → Nat) (idx x : Nat) (l : List Nat) :
    ∀ it, (idx < it ∨ it + l.length ≤ idx) →
      (At (Function.update buf idx x) it l ↔ At buf it l) := by
  induction l with
  | nil => intro it _; simp [At]
  | cons y l ih =>
    intro it h
    simp only [List.length_cons] at h
    have hne : it ≠ idx := by omega
    simp only [At, Function.update_noteq hne]
    rw [ih (it + 1) (by omega)]

theorem puts_append (b : TxBuf) (l1 l2 : List Nat) :
    b.puts (l1 ++ l2) = (b.puts l1).puts l2 := by
  simp [TxBuf.puts, List.foldl_append]

theorem puts_spec (l : List Nat) : ∀ b : TxBuf, b.it + l.length < 65536 →
    (b.puts l).it = b.it + l.length ∧ At (b.puts l).buf b.it l ∧
    ∀ k, (k < b.it ∨ b.it + l.length ≤ k) → (b.puts l).buf k = b.buf k := by
  induction l with
  | nil => intro b _; simp [TxBuf.puts, At]
  | cons x l ih =>
    intro b hb
    simp only [List.length_cons] at hb
    have hit : (b.put x).it = b.it + 1 := by
      simp only [TxBuf.put, u16]; omega
    have hp : b.puts (x :: l) = (b.put x).puts l := rfl
    obtain ⟨h1, h2, h3⟩ := ih (b.put x) (by rw [hit]; omega)
    rw [hp]
    refine ⟨by rw [h1, hit, List.length_cons]; omega, ?_, ?_⟩
    · refine ⟨?_, by rw [← hit]; exact h2⟩
      rw [h3 b.it (Or.inl (by rw [hit]; omega))]
      simp [TxBuf.put]
    · intro k hk
      simp only [List.length_cons] at hk
      rw [h3 k (by rw [hit]; omega)]
      have : k ≠ b.it := by omega
      simp [TxBuf.put, Function.update_noteq this]

theorem pack_data_loop_eq (D : Defs) (data : Nat → Nat) (n : Nat) :
    ∀ b : TxBuf, pack_data_loop D data n b = b.puts (payload_wire D data n) := by
  induction n with
  | zero => intro b; rfl
  | succ i ih =>
    intro b
    simp only [pack_data_loop, payload_wire, esc_bytes, ih, puts_append]
    by_cases h : needs_esc D (data i) = true <;> simp [h, TxBuf.puts]

theorem payload_wire_length_le (D : Defs) (data : Nat → Nat) (n : Nat) :
    (payload_wire D data n).length ≤ 2 * n := by
  induction n with
  | zero => simp [payload_wire]
  | succ i ih =>
    simp only [payload_wire, esc_bytes, List.length_append]
    split <;> simp <;> omega

theorem payload_wire_length_ge (D : Defs) (data : Nat → Nat) (n : Nat) :
    n ≤ (payload_wire D data n).length := by
  induction n with
  | zero => simp [payload_wire]
  | succ i ih =>
    simp only [payload_wire, esc_bytes, List.length_append]
    split <;> simp <;> omega

theorem esc_bytes_length (D : Defs) (x : Nat) :
    1 ≤ (esc_bytes D x).length ∧ (esc_bytes D x).length ≤ 2 := by
  unfold esc_bytes; split <;> simp

theorem frame_layout_length (D : Defs) (c : Nat) (data : Nat → Nat) (n : Nat) :
    n + 4 ≤ (frame_layout D c data n).length ∧ (frame_layout D c data n).length ≤ 2 * n + 5 := by
  have h1 := payload_wire_length_le D data n
  have h2 := esc_bytes_length D (calc_8bit_mod_checksum data n)
  have h3 := payload_wire_length_ge D data n
  simp only [frame_layout, List.length_append, List.length_cons, List.length_nil]
  omega

theorem pack_new_eq (D : Defs) (hD : D.WF) (p : TPacket_Data) (tx_buff : Nat → Nat)
    (hack : p.ack = D.NEW_CMD) (hn : 0 < p.data_size) (hs : p.data_size ≤ 255) :
    pack_tx_packet D p tx_buff =
      (((TxBuf.mk tx_buff 0).puts (frame_layout D p.command p.data p.data_size)).buf,
       (frame_layout D p.command p.data p.data_size).length) := by
  have hl := frame_layout_length D p.command p.data p.data_size
  have hsp := puts_spec (frame_layout D p.command p.data p.data_size) (TxBuf.mk tx_buff 0)
    (by simp only; omega)
  have hc : ¬ (p.ack = D.NAK_MSG ∨ p.ack = D.ACK_MSG) := by
    rw [hack]; intro h; rcases h with h | h
    · exact hD.new_ne_nak h
    · exact hD.new_ne_ack h
  have key : ∀ (l : List Nat) (b : TxBuf), b.it + l.length + 1 < 65536 →
      (Function.update (b.puts l).buf (b.puts l).it D.ETX, u16 ((b.puts l).it + 1))
        = ((b.puts (l ++ [D.ETX])).buf, b.it + (l ++ [D.ETX]).length) := by
    intro l b hb
    have h1 := (puts_spec l b (by omega)).1
    rw [puts_append]
    simp only [TxBuf.puts, List.foldl_cons, List.foldl_nil, TxBuf.put, u16,
      List.length_append, List.length_cons, List.length_nil] at h1 ⊢
    rw [h1]
    congr 1
    omega
  have e : frame_layout D p.command p.data p.data_size =
      ([D.STX, p.command] ++ payload_wire D p.data p.data_size
        ++ esc_bytes D (calc_8bit_mod_checksum p.data p.data_size)) ++ [D.ETX] := rfl
  rw [e] at hl ⊢
  have := key ([D.STX, p.command] ++ payload_wire D p.data p.data_size
        ++ esc_bytes D (calc_8bit_mod_checksum p.data p.data_size)) (TxBuf.mk tx_buff 0)
        (by simp only [List.length_append] at hl ⊢; omega)
  simp only [Nat.zero_add] at this
  rw [← this]
  simp only [pack_tx_packet, hc, if_false, hn, if_true, gt_iff_lt, pack_data_loop_eq,
    puts_append, esc_bytes]
  by_cases h : needs_esc D (calc_8bit_mod_checksum p.data p.data_size) = true <;>
    simp [h, TxBuf.puts]


/-! ### Decoder: the payload loop on a token sequence -/

theorem toks_bytes_append (D : Defs) (a b : List Tok) :
    toks_bytes D (a ++ b) = toks_bytes D a ++ toks_bytes D b := by
  induction a with
  | nil => rfl
  | cons t ts ih => simp [toks_bytes, ih]

theorem toks_sum_append (a b : List Tok) :
    toks_sum (a ++ b) = toks_sum a + toks_sum b := by
  induction a with
  | nil => simp [toks_sum]
  | cons t ts ih => simp [toks_sum, ih]; omega

theorem tok_bytes_length (D : Defs) (t : Tok) :
    1 ≤ (tok_bytes D t).length ∧ (tok_bytes D t).length ≤ 2 := by
  unfold tok_bytes; split <;> simp

theorem toks_bytes_length (D : Defs) (ts : List Tok) :
    ts.length ≤ (toks_bytes D ts).length ∧ (toks_bytes D ts).length ≤ 2 * ts.length := by
  induction ts with
  | nil => simp [toks_bytes]
  | cons t ts ih =>
    have := tok_bytes_length D t
    simp only [toks_bytes, List.length_append, List.length_cons]
    omega

theorem parse_loop_toks (D : Defs) (buf : Nat → Nat) (length : Nat) (hlen : length < 65536)
    (ts : List Tok) : ∀ it d, (∀ t ∈ ts, tok_ok D t) → At buf it (toks_bytes D ts) →
      it + (toks_bytes D ts).length ≤ length →
      parse_data_loop D buf length ts.length it d
        = (it + (toks_bytes D ts).length, fill ts d) := by
  induction ts with
  | nil => intro it d _ _ _; simp [parse_data_loop, toks_bytes, fill]
  | cons t ts ih =>
    intro it d hok hat hle
    obtain ⟨e, v⟩ := t
    have hokt := hok (e, v) (List.mem_cons_self _ _)
    have hoks : ∀ t ∈ ts, tok_ok D t := fun t ht => hok t (List.mem_cons_of_mem _ ht)
    simp only [toks_bytes, List.length_append] at hle hat ⊢
    rw [At_append] at hat
    obtain ⟨ht, hrest⟩ := hat
    have hl1 := tok_bytes_length D (e, v)
    have hlt : it < length := by omega
    simp only [List.length_cons, parse_data_loop, hlt, if_true]
    cases e with
    | true =>
      simp only [tok_bytes, if_true, At, List.length_cons, List.length_nil] at ht hrest hle ⊢
      obtain ⟨h0, h1, _⟩ := ht
      have e1 : u16 (it + 1) = it + 1 := by simp only [u16]; omega
      have e2 : u16 (it + 1 + 1) = it + 2 := by simp only [u16]; omega
      simp only [h0, if_true, e1, e2, h1]
      rw [ih (it + 2) _ hoks hrest (by omega)]
      simp only [fill, Prod.mk.injEq, and_true]
      omega
    | false =>
      simp only [tok_bytes, Bool.false_eq_true, if_false, At, List.length_cons,
        List.length_nil] at ht hrest hle ⊢
      obtain ⟨h0, _⟩ := ht
      have hne : v ≠ D.ESC := hokt rfl
      have e1 : u16 (it + 1) = it + 1 := by simp only [u16]; omega
      simp only [h0, hne, if_false, e1]
      rw [ih (it + 1) _ hoks hrest (by omega)]
      simp only [fill, Prod.mk.injEq, and_true]
      omega

theorem fill_apply_ge (ts : List Tok) : ∀ d idx, ts.length ≤ idx → fill ts d idx = d idx := by
  induction ts with
  | nil => intro d idx _; rfl
  | cons t ts ih =>
    intro d idx h
    simp only [List.length_cons] at h
    simp only [fill]
    rw [ih _ idx (by omega)]
    exact Function.update_noteq (by omega) _ _

theorem fill_sum (ts : List Tok) : ∀ d,
    ((List.range ts.length).map (fill ts d)).sum = toks_sum ts := by
  induction ts with
  | nil => intro d; simp [toks_sum]
  | cons t ts ih =>
    intro d
    simp only [List.length_cons, List.range_succ, List.map_append, List.sum_append,
      List.map_cons, List.map_nil, List.sum_cons, List.sum_nil, fill, toks_sum]
    rw [ih, fill_apply_ge ts _ _ (le_refl _)]
    simp
    omega

theorem checksum_fill (ts : List Tok) (d : Nat → Nat) :
    calc_8bit_mod_checksum (fill ts d) ts.length = (256 - toks_sum ts % 256) % 256 := by
  rw [checksum_eq, fill_sum]

theorem enc_seg_length (D : Defs) (data : Nat → Nat) (k m : Nat) :
    (enc_seg D data k m).length = m := by
  induction m with
  | zero => rfl
  | succ m ih => simp [enc_seg, ih]

theorem enc_seg_ok (D : Defs) (data : Nat → Nat) (k m : Nat) :
    ∀ t ∈ enc_seg D data k m, tok_ok D t := by
  induction m with
  | zero => intro t ht; simp [enc_seg] at ht
  | succ m ih =>
    intro t ht
    simp only [enc_seg, List.mem_cons] at ht
    rcases ht with rfl | ht
    · intro h
      simp only [needs_esc, Bool.or_eq_false_iff, beq_eq_false_iff_ne] at h
      exact h.2
    · exact ih t ht

theorem enc_seg_split (D : Defs) (data : Nat → Nat) (k m2 : Nat) : ∀ m1,
    enc_seg D data k (m1 + m2) = enc_seg D data (k + m2) m1 ++ enc_seg D data k m2 := by
  intro m1
  induction m1 with
  | zero => simp [enc_seg]
  | succ m ih =>
    have e : m + 1 + m2 = (m + m2) + 1 := by omega
    rw [e]
    simp only [enc_seg, ih, List.cons_append]
    have e2 : k + (m + m2) = k + m2 + m := by omega
    rw [e2]

theorem payload_wire_eq (D : Defs) (data : Nat → Nat) (n : Nat) :
    payload_wire D data n = toks_bytes D (enc_seg D data 0 n) := by
  induction n with
  | zero => rfl
  | succ i ih =>
    simp only [payload_wire, enc_seg, toks_bytes, ih, Nat.zero_add, esc_bytes, tok_bytes]

theorem enc_seg_sum (D : Defs) (data : Nat → Nat) (n : Nat) :
    toks_sum (enc_seg D data 0 n) = ((List.range n).map data).sum := by
  induction n with
  | zero => rfl
  | succ i ih =>
    simp only [enc_seg, toks_sum, ih, Nat.zero_add, List.range_succ, List.map_append,
      List.sum_append, List.map_cons, List.map_nil, List.sum_cons, List.sum_nil]
    omega

theorem fill_enc (D : Defs) (data : Nat → Nat) (n : Nat) : ∀ d idx, idx < n →
    fill (enc_seg D data 0 n) d idx = data idx := by
  induction n with
  | zero => intro d idx h; omega
  | succ i ih =>
    intro d idx h
    simp only [enc_seg, fill, Nat.zero_add, enc_seg_length]
    by_cases hi : idx < i
    · exact ih _ idx hi
    · have : idx = i := by omega
      subst this
      rw [fill_apply_ge _ _ _ (by rw [enc_seg_length])]
      simp

theorem parse_burn_frame (D : Defs) (hD : D.WF) (buf : Nat → Nat) (length : Nat)
    (r0 : TPacket_Data) (ts : List Tok) (R : List Nat)
    (hlen : length = 2 + (toks_bytes D ts).length + R.length) (hsmall : length < 65536)
    (hts : ts.length = 4) (hok : ∀ t ∈ ts, tok_ok D t)
    (hat : At buf 0 ([D.STX, D.CMD_BURN] ++ toks_bytes D ts ++ R)) :
    parse_rx_packet D buf length r0 =
      if 2 + (toks_bytes D ts).length ≥ length then
        (1, { command := D.CMD_BURN, ack := D.NEW_CMD, data_size := 4,
              data := fill ts r0.data })
      else if buf (if buf (2 + (toks_bytes D ts).length) = D.ESC
                    then u16 (2 + (toks_bytes D ts).length + 1)
                    else 2 + (toks_bytes D ts).length)
                ≠ (256 - toks_sum ts % 256) % 256 then
        (1, { command := D.CMD_BURN, ack := D.NEW_CMD, data_size := 4,
              data := fill ts r0.data })
      else if buf (u16 ((if buf (2 + (toks_bytes D ts).length) = D.ESC
                    then u16 (2 + (toks_bytes D ts).length + 1)
                    else 2 + (toks_bytes D ts).length) + 1)) ≠ D.ETX then
        (1, { command := D.CMD_BURN, ack := D.NEW_CMD, data_size := 4,
              data := fill ts r0.data })
      else
        (0, { command := D.CMD_BURN, ack := D.NEW_CMD, data_size := 4,
              data := fill ts r0.data }) := by
  have hl := toks_bytes_length D ts
  rw [List.append_assoc, At_append] at hat
  obtain ⟨hh, hrest⟩ := hat
  rw [At_append] at hrest
  obtain ⟨hts_at, _⟩ := hrest
  simp only [At, List.length_cons, List.length_nil, Nat.zero_add] at hh hts_at
  obtain ⟨h0, h1, _⟩ := hh
  have hloop := parse_loop_toks D buf length hsmall ts 2 r0.data hok hts_at (by omega)
  rw [hts] at hloop
  have hck := checksum_fill ts r0.data
  rw [hts] at hck
  have hmin : ¬ length < D.MIN_PACKET_LENGTH := by rw [hD.min_len]; omega
  have hps : payload_size D D.NEW_CMD D.CMD_BURN = some 4 := by
    simp [payload_size, hD.burn_size]
  simp only [parse_rx_packet, hmin, if_false, h0, ne_eq, not_true_eq_false, h1,
    hD.burn_ne_ack, hD.burn_ne_nak, or_self, hps, hloop, hck]
  simp

theorem At_tail (D : Defs) (buf : Nat → Nat) (c : Nat) (ts : List Tok) (R : List Nat)
    (hat : At buf 0 ([D.STX, c] ++ toks_bytes D ts ++ R)) :
    At buf (2 + (toks_bytes D ts).length) R := by
  rw [At_append] at hat
  have := hat.2
  simp only [List.length_append, List.length_cons, List.length_nil, Nat.zero_add] at this
  exact this

theorem parse_burn_aligned (D : Defs) (hD : D.WF) (buf : Nat → Nat) (length : Nat)
    (r0 : TPacket_Data) (ts : List Tok) (tc : Tok) (L : List Nat)
    (hL : L = [D.STX, D.CMD_BURN] ++ toks_bytes D ts ++ (tok_bytes D tc ++ [D.ETX]))
    (hlen : length = L.length)
    (hts : ts.length = 4) (hok : ∀ t ∈ ts, tok_ok D t) (hokc : tok_ok D tc)
    (hat : At buf 0 L) :
    parse_rx_packet D buf length r0 =
      (if tc.2 = (256 - toks_sum ts % 256) % 256 then 0 else 1,
        { command := D.CMD_BURN, ack := D.NEW_CMD, data_size := 4,
          data := fill ts r0.data }) := by
  subst hL
  simp only [List.length_append, List.length_cons, List.length_nil] at hlen
  have hl := toks_bytes_length D ts
  have hl1 := tok_bytes_length D tc
  have hR := At_tail D buf _ ts _ hat
  rw [parse_burn_frame D hD buf length r0 ts (tok_bytes D tc ++ [D.ETX])
    (by simp only [List.length_append, List.length_cons, List.length_nil]; omega)
    (by omega) hts hok hat]
  have hge : ¬ (2 + (toks_bytes D ts).length ≥ length) := by omega
  obtain ⟨e, v⟩ := tc
  cases e with
  | true =>
    simp only [tok_bytes, if_true, At, List.cons_append, List.nil_append] at hR
    obtain ⟨a0, a1, a2, _⟩ := hR
    have e1 : u16 (2 + (toks_bytes D ts).length + 1) = 2 + (toks_bytes D ts).length + 1 := by
      simp only [u16]; omega
    have e2 : u16 (2 + (toks_bytes D ts).length + 1 + 1)
        = 2 + (toks_bytes D ts).length + 1 + 1 := by
      simp only [u16]; omega
    simp only [hge, if_false, a0, if_true, e1, e2, a1, a2]
    split <;> simp_all
  | false =>
    simp only [tok_bytes, Bool.false_eq_true, if_false, At, List.cons_append,
      List.nil_append] at hR
    obtain ⟨a0, a1, _⟩ := hR
    have hne : v ≠ D.ESC := hokc rfl
    have e1 : u16 (2 + (toks_bytes D ts).length + 1) = 2 + (toks_bytes D ts).length + 1 := by
      simp only [u16]; omega
    simp only [hge, if_false, a0, hne, e1, a1]
    split <;> simp_all

theorem parse_burn_shifted (D : Defs) (hD : D.WF) (buf : Nat → Nat) (length : Nat)
    (r0 : TPacket_Data) (ts : List Tok) (R : List Nat) (hR : R = [] ∨ R = [D.ESC])
    (L : List Nat) (hL : L = [D.STX, D.CMD_BURN] ++ toks_bytes D ts ++ (R ++ [D.ETX]))
    (hlen : length = L.length)
    (hts : ts.length = 4) (hok : ∀ t ∈ ts, tok_ok D t)
    (hsum : (256 - toks_sum ts % 256) % 256 ≠ D.ETX)
    (hat : At buf 0 L) :
    (parse_rx_packet D buf length r0).1 = 1 := by
  subst hL
  simp only [List.length_append, List.length_cons, List.length_nil] at hlen
  have hl := toks_bytes_length D ts
  have hT := At_tail D buf _ ts _ hat
  have hRl : R.length ≤ 1 := by rcases hR with rfl | rfl <;> simp
  rw [parse_burn_frame D hD buf length r0 ts (R ++ [D.ETX])
    (by simp only [List.length_append, List.length_cons, List.length_nil]; omega)
    (by omega) hts hok hat]
  have hge : ¬ (2 + (toks_bytes D ts).length ≥ length) := by omega
  rcases hR with rfl | rfl
  · simp only [List.nil_append, At] at hT
    obtain ⟨a0, _⟩ := hT
    have hne := hD.etx_ne_esc
    simp only [hge, if_false, a0, hne, ne_eq, Ne.symm hsum, not_false_eq_true, if_true]
  · simp only [List.cons_append, List.nil_append, At] at hT
    obtain ⟨a0, a1, _⟩ := hT
    have e1 : u16 (2 + (toks_bytes D ts).length + 1) = 2 + (toks_bytes D ts).length + 1 := by
      simp only [u16]; omega
    simp only [hge, if_false, a0, if_true, e1, a1, ne_eq, Ne.symm hsum, not_false_eq_true]

theorem tok_bytes_true (D : Defs) (v : Nat) : tok_bytes D (true, v) = [D.ESC, v] := rfl

theorem tok_bytes_false (D : Defs) (v : Nat) : tok_bytes D (false, v) = [v] := rfl

theorem retok_cases (D : Defs) (tc : Tok) (hokc : tok_ok D tc) (B : List Tok) :
    (∀ t ∈ B, tok_ok D t) →
    (∃ ts tc2, ts.length = B.length + 1 ∧ (∀ t ∈ ts, tok_ok D t) ∧ tok_ok D tc2 ∧
        D.ESC :: (toks_bytes D B ++ tok_bytes D tc) = toks_bytes D ts ++ tok_bytes D tc2 ∧
        toks_sum ts = D.ESC + toks_sum B ∧ tc2.2 = tc.2)
    ∨ (∃ ts R, ts.length = B.length + 1 ∧ (∀ t ∈ ts, tok_ok D t) ∧ (R = [] ∨ R = [D.ESC]) ∧
        D.ESC :: (toks_bytes D B ++ tok_bytes D tc) = toks_bytes D ts ++ R ∧
        toks_sum ts = toks_sum B + tc.2) := by
  induction B with
  | nil =>
    intro _
    obtain ⟨e, v⟩ := tc
    cases e with
    | false =>
      right
      refine ⟨[(true, v)], [], rfl, ?_, Or.inl rfl, ?_, ?_⟩
      · intro t ht; simp only [List.mem_singleton] at ht; subst ht; intro h; cases h
      · simp [toks_bytes, tok_bytes]
      · simp [toks_sum]
    | true =>
      by_cases hv : v = D.ESC
      · right
        refine ⟨[(true, D.ESC)], [D.ESC], rfl, ?_, Or.inr rfl, ?_, ?_⟩
        · intro t ht; simp only [List.mem_singleton] at ht; subst ht; intro h; cases h
        · simp [toks_bytes, tok_bytes, hv]
        · simp [toks_sum, hv]
      · left
        refine ⟨[(true, D.ESC)], (false, v), rfl, ?_, fun _ => hv, ?_, ?_, rfl⟩
        · intro t ht; simp only [List.mem_singleton] at ht; subst ht; intro h; cases h
        · simp [toks_bytes, tok_bytes]
        · simp [toks_sum]
  | cons t B ih =>
    intro hB
    have hBt := hB t (List.mem_cons_self _ _)
    have hBs : ∀ t ∈ B, tok_ok D t := fun t ht => hB t (List.mem_cons_of_mem _ ht)
    obtain ⟨e, v⟩ := t
    cases e with
    | false =>
      right
      refine ⟨(true, v) :: (B ++ [tc]), [], by simp, ?_, Or.inl rfl, ?_, ?_⟩
      · intro t ht
        simp only [List.mem_cons, List.mem_append, List.mem_singleton, List.not_mem_nil,
          or_false] at ht
        rcases ht with rfl | ht | rfl
        · intro h; cases h
        · exact hBs t ht
        · exact hokc
      · simp [toks_bytes, tok_bytes, toks_bytes_append]
      · simp [toks_sum, toks_sum_append]; omega
    | true =>
      by_cases hv : v = D.ESC
      · subst hv
        rcases ih hBs with ⟨ts, tc2, h1, h2, h3, h4, h5, h6⟩ | ⟨ts, R, h1, h2, h3, h4, h5⟩
        · left
          refine ⟨(true, D.ESC) :: ts, tc2, by simp [h1], ?_, h3, ?_, ?_, h6⟩
          · intro t ht
            simp only [List.mem_cons] at ht
            rcases ht with rfl | ht
            · intro h; cases h
            · exact h2 t ht
          · simp only [toks_bytes, tok_bytes_true, List.cons_append, List.nil_append,
              List.append_assoc]
            rw [← h4]
          · simp [toks_sum, h5]
        · right
          refine ⟨(true, D.ESC) :: ts, R, by simp [h1], ?_, h3, ?_, ?_⟩
          · intro t ht
            simp only [List.mem_cons] at ht
            rcases ht with rfl | ht
            · intro h; cases h
            · exact h2 t ht
          · simp only [toks_bytes, tok_bytes_true, List.cons_append, List.nil_append,
              List.append_assoc]
            rw [← h4]
          · simp [toks_sum, h5]; omega
      · left
        refine ⟨(true, D.ESC) :: (false, v) :: B, tc, by simp, ?_, hokc, ?_, ?_, rfl⟩
        · intro t ht
          simp only [List.mem_cons] at ht
          rcases ht with rfl | rfl | ht
          · intro h; cases h
          · exact fun _ => hv
          · exact hBs t ht
        · simp [toks_bytes, tok_bytes]
        · simp [toks_sum]

/-! ### Round trip -/

theorem sampleBurn_valid : valid_packet sampleDefs sampleBurn := by
  refine ⟨Or.inl rfl, by decide, by decide⟩

theorem round_trip_zero_new (D : Defs) (hD : D.WF) (p : TPacket_Data) (tx_buff : Nat → Nat)
    (r0 : TPacket_Data) (hack : p.ack = D.NEW_CMD) (hs : p.data_size = 0)
    (h1 : p.command ≠ D.ACK_MSG) (h2 : p.command ≠ D.NAK_MSG)
    (hps : payload_size D D.NEW_CMD p.command = some 0) :
    parse_rx_packet D (pack_tx_packet D p tx_buff).1 (pack_tx_packet D p tx_buff).2 r0
      = (0, { command := p.command, ack := D.NEW_CMD, data_size := 0, data := r0.data }) := by
  have hc : ¬ (p.ack = D.NAK_MSG ∨ p.ack = D.ACK_MSG) := by
    rw [hack]; intro h; rcases h with h | h
    · exact hD.new_ne_nak h
    · exact hD.new_ne_ack h
  simp [pack_tx_packet, hc, hs, TxBuf.put, u16, parse_rx_packet, hD.min_len,
    Function.update_apply, h1, h2, hps]

theorem round_trip_zero_ack (D : Defs) (hD : D.WF) (p : TPacket_Data) (tx_buff : Nat → Nat)
    (r0 : TPacket_Data) (hack : p.ack = D.ACK_MSG ∨ p.ack = D.NAK_MSG)
    (h2 : p.command ≠ D.NAK_MSG)
    (hps : payload_size D p.ack p.command = some 0) :
    parse_rx_packet D (pack_tx_packet D p tx_buff).1 (pack_tx_packet D p tx_buff).2 r0
      = (0, { command := p.command, ack := p.ack, data_size := 0, data := r0.data }) := by
  obtain ⟨cmd, ack, sz, data⟩ := p
  simp only at hack h2 hps ⊢
  have hn := hD.ack_ne_nak
  have hna := hD.new_ne_ack
  have hnn := hD.new_ne_nak
  rcases hack with h | h <;> subst h <;>
  simp [pack_tx_packet, TxBuf.put, u16, parse_rx_packet, hD.min_len,
    Function.update_apply, h2, hps, hn, Ne.symm hn, Ne.symm hna, Ne.symm hnn]

theorem frame_layout_toks (D : Defs) (c : Nat) (data : Nat → Nat) (n : Nat) :
    frame_layout D c data n = [D.STX, c] ++ toks_bytes D (enc_seg D data 0 n)
      ++ (tok_bytes D (needs_esc D (calc_8bit_mod_checksum data n),
            calc_8bit_mod_checksum data n) ++ [D.ETX]) := by
  simp only [frame_layout, payload_wire_eq, esc_bytes, tok_bytes, List.append_assoc]

theorem checksum_tok_ok (D : Defs) (c : Nat) : tok_ok D (needs_esc D c, c) := by
  intro h
  simp only [needs_esc, Bool.or_eq_false_iff, beq_eq_false_iff_ne] at h
  exact h.2

theorem pack_burn_At (D : Defs) (hD : D.WF) (p : TPacket_Data) (tx_buff : Nat → Nat)
    (hack : p.ack = D.NEW_CMD) (hs : p.data_size = 4) :
    (pack_tx_packet D p tx_buff).2 = (frame_layout D p.command p.data 4).length ∧
    At (pack_tx_packet D p tx_buff).1 0 (frame_layout D p.command p.data 4) := by
  have hl := frame_layout_length D p.command p.data 4
  have h := pack_new_eq D hD p tx_buff hack (by omega) (by omega)
  rw [hs] at h
  rw [h]
  exact ⟨rfl, (puts_spec _ (TxBuf.mk tx_buff 0) (by simp only; omega)).2.1⟩

theorem round_trip_burn (D : Defs) (hD : D.WF) (p : TPacket_Data) (tx_buff : Nat → Nat)
    (r0 : TPacket_Data) (hack : p.ack = D.NEW_CMD) (hcmd : p.command = D.CMD_BURN)
    (hs : p.data_size = 4) :
    parse_rx_packet D (pack_tx_packet D p tx_buff).1 (pack_tx_packet D p tx_buff).2 r0
      = (0, { command := D.CMD_BURN, ack := D.NEW_CMD, data_size := 4,
              data := fill (enc_seg D p.data 0 4) r0.data }) := by
  obtain ⟨h1, h2⟩ := pack_burn_At D hD p tx_buff hack hs
  rw [hcmd] at h1 h2
  rw [parse_burn_aligned D hD _ _ r0 (enc_seg D p.data 0 4)
    (needs_esc D (calc_8bit_mod_checksum p.data 4), calc_8bit_mod_checksum p.data 4)
    (frame_layout D D.CMD_BURN p.data 4) (frame_layout_toks D _ _ _) h1
    (enc_seg_length D _ _ _) (enc_seg_ok D _ _ _) (checksum_tok_ok D _) h2]
  rw [enc_seg_sum, ← checksum_eq]
  simp

/-- C1: round trip of the codec. For every valid packet `p`, parsing the frame
written by `pack_tx_packet`, with the length it returned, succeeds and yields
the ack kind, command, payload size and payload bytes of `p`. -/
theorem codec_round_trip (D : Defs) (hD : D.WF) (p : TPacket_Data) (hp : valid_packet D p)
    (tx_buff : Nat → Nat) (r0 : TPacket_Data) :
    (parse_rx_packet D (pack_tx_packet D p tx_buff).1 (pack_tx_packet D p tx_buff).2 r0).1 = 0
    ∧ (parse_rx_packet D (pack_tx_packet D p tx_buff).1
        (pack_tx_packet D p tx_buff).2 r0).2.ack = p.ack
    ∧ (parse_rx_packet D (pack_tx_packet D p tx_buff).1
        (pack_tx_packet D p tx_buff).2 r0).2.command = p.command
    ∧ (parse_rx_packet D (pack_tx_packet D p tx_buff).1
        (pack_tx_packet D p tx_buff).2 r0).2.data_size = p.data_size
    ∧ ∀ i, i < p.data_size →
        (parse_rx_packet D (pack_tx_packet D p tx_buff).1
          (pack_tx_packet D p tx_buff).2 r0).2.data i = p.data i := by
  obtain ⟨hk, hps, _⟩ := hp
  rcases hk with hk | hk
  · -- NewCommand
    have hps2 := hps
    simp only [payload_size, hk, if_true] at hps2
    by_cases c1 : p.command = D.CMD_BURN
    · simp only [c1, if_true, hD.burn_size, Option.some.injEq] at hps2
      rw [round_trip_burn D hD p tx_buff r0 hk c1 hps2.symm]
      refine ⟨rfl, hk.symm, c1.symm, hps2, ?_⟩
      intro i hi
      exact fill_enc D p.data 4 _ i (by omega)
    · have hz : p.data_size = 0 ∧ p.command ≠ D.ACK_MSG ∧ p.command ≠ D.NAK_MSG := by
        simp only [c1, if_false] at hps2
        split at hps2
        · rename_i c; rw [c]
          exact ⟨by simpa [hD.start_size] using hps2.symm, hD.start_ne_ack, hD.start_ne_nak⟩
        · split at hps2
          · rename_i c; rw [c]
            exact ⟨by simpa [hD.end_size] using hps2.symm, hD.end_ne_ack, hD.end_ne_nak⟩
          · split at hps2
            · rename_i c; rw [c]
              exact ⟨by simpa [hD.init_size] using hps2.symm, hD.init_ne_ack, hD.init_ne_nak⟩
            · cases hps2
      obtain ⟨hz, ha, hn⟩ := hz
      rw [hk, hz] at hps
      rw [round_trip_zero_new D hD p tx_buff r0 hk hz ha hn hps]
      refine ⟨rfl, hk.symm, rfl, hz.symm, ?_⟩
      intro i hi; omega
  · -- Ack or Nak
    have hne : p.ack ≠ D.NEW_CMD := by
      rcases hk with h | h <;> rw [h]
      · exact Ne.symm hD.new_ne_ack
      · exact Ne.symm hD.new_ne_nak
    have hps2 := hps
    simp only [payload_size, hne, if_false] at hps2
    have hz : p.data_size = 0 ∧ p.command ≠ D.NAK_MSG := by
      split at hps2
      · rename_i c; rw [c]
        exact ⟨by simpa [hD.ready_size] using hps2.symm, hD.ready_ne_nak⟩
      · split at hps2
        · rename_i c; rw [c]
          exact ⟨by simpa [hD.emerg_size] using hps2.symm, hD.emerg_ne_nak⟩
        · split at hps2
          · rename_i c; rw [c]
            exact ⟨by simpa [hD.init_resp_size] using hps2.symm, hD.init_ne_nak⟩
          · cases hps2
    obtain ⟨hz, hn⟩ := hz
    rw [hz] at hps
    rw [round_trip_zero_ack D hD p tx_buff r0 hk hn hps]
    refine ⟨rfl, rfl, rfl, hz.symm, ?_⟩
    intro i hi; omega

/-! ### Corruption of one payload byte -/

theorem At_mutate (buf : Nat → Nat) (L1 L2 : List Nat) (a x : Nat)
    (h : At buf 0 (L1 ++ a :: L2)) :
    buf L1.length = a ∧ At (Function.update buf L1.length x) 0 (L1 ++ x :: L2) := by
  rw [At_append] at h ⊢
  obtain ⟨h1, h2⟩ := h
  simp only [At, Nat.zero_add] at h2 ⊢
  refine ⟨h2.1, ?_, by rw [Nat.zero_add]; exact Function.update_same _ _ _, ?_⟩
  · exact (At_update buf _ x L1 0 (Or.inr (by omega))).2 h1
  · exact (At_update buf _ x L2 _ (Or.inl (by omega))).2 h2.2

theorem corrupt_core (D : Defs) (hD : D.WF) (buf : Nat → Nat) (length : Nat)
    (r0 : TPacket_Data) (A B : List Tok) (a x : Nat) (L : List Nat)
    (hA : ∀ t ∈ A, tok_ok D t) (hB : ∀ t ∈ B, tok_ok D t)
    (hcnt : A.length + 1 + B.length = 4) (ha : a < 256) (hx : x < 256) (hne : x ≠ a)
    (hL : L = ([D.STX, D.CMD_BURN] ++ toks_bytes D A
            ++ (if needs_esc D a then [D.ESC] else [])) ++ x ::
          (toks_bytes D B ++ (tok_bytes D
            (needs_esc D ((256 - (toks_sum A + a + toks_sum B) % 256) % 256),
              (256 - (toks_sum A + a + toks_sum B) % 256) % 256) ++ [D.ETX])))
    (hlen : length = L.length) (hat : At buf 0 L) :
    (parse_rx_packet D buf length r0).1 = 1 := by
  have hesc := hD.esc_byte
  have hokc := checksum_tok_ok D ((256 - (toks_sum A + a + toks_sum B) % 256) % 256)
  generalize htc : (needs_esc D ((256 - (toks_sum A + a + toks_sum B) % 256) % 256),
              (256 - (toks_sum A + a + toks_sum B) % 256) % 256) = tc at hL hokc
  have htc2 : tc.2 = (256 - (toks_sum A + a + toks_sum B) % 256) % 256 := by rw [← htc]
  -- the aligned case: the mutated byte is read back as one payload byte
  have aligned : ∀ e : Bool, (e = false → x ≠ D.ESC) →
      L = [D.STX, D.CMD_BURN] ++ toks_bytes D (A ++ (e, x) :: B) ++ (tok_bytes D tc ++ [D.ETX]) →
      (parse_rx_packet D buf length r0).1 = 1 := by
    intro e he hL2
    rw [parse_burn_aligned D hD buf length r0 (A ++ (e, x) :: B) tc L hL2 hlen
      (by simp only [List.length_append, List.length_cons]; omega)
      (by
        intro t ht
        simp only [List.mem_append, List.mem_cons] at ht
        rcases ht with ht | rfl | ht
        · exact hA t ht
        · exact he
        · exact hB t ht) hokc hat]
    have : tc.2 ≠ (256 - toks_sum (A ++ (e, x) :: B) % 256) % 256 := by
      rw [htc2, toks_sum_append]
      simp only [toks_sum]
      omega
    simp [this]
  by_cases he : needs_esc D a = true
  · apply aligned true (fun h => by cases h)
    rw [hL]
    simp [he, toks_bytes_append, toks_bytes, tok_bytes_true]
  · by_cases hxe : x = D.ESC
    · -- the mutated byte is read as an escape
      simp only [he, if_false, Bool.false_eq_true, List.append_nil] at hL
      have hns : a ≠ D.ETX ∧ a ≠ D.ESC := by
        simp only [needs_esc, Bool.or_eq_true, beq_iff_eq, not_or] at he
        exact ⟨he.1.2, he.2⟩
      subst hxe
      rcases retok_cases D tc hokc B hB with
        ⟨ts, tc2, h1, h2, h3, h4, h5, h6⟩ | ⟨ts, R, h1, h2, h3, h4, h5⟩
      · have hL2 : L = [D.STX, D.CMD_BURN] ++ toks_bytes D (A ++ ts)
            ++ (tok_bytes D tc2 ++ [D.ETX]) := by
          rw [hL, toks_bytes_append]
          simp only [List.append_assoc, List.cons_append, List.nil_append]
          rw [← List.append_assoc (toks_bytes D ts), ← h4]
          simp
        rw [parse_burn_aligned D hD buf length r0 (A ++ ts) tc2 L hL2 hlen
          (by simp only [List.length_append]; omega)
          (by
            intro t ht
            simp only [List.mem_append] at ht
            rcases ht with ht | ht
            · exact hA t ht
            · exact h2 t ht) h3 hat]
        have : tc2.2 ≠ (256 - toks_sum (A ++ ts) % 256) % 256 := by
          rw [h6, htc2, toks_sum_append, h5]
          omega
        simp [this]
      · have hL2 : L = [D.STX, D.CMD_BURN] ++ toks_bytes D (A ++ ts)
            ++ (R ++ [D.ETX]) := by
          rw [hL, toks_bytes_append]
          simp only [List.append_assoc, List.cons_append, List.nil_append]
          rw [← List.append_assoc (toks_bytes D ts), ← h4]
          simp
        apply parse_burn_shifted D hD buf length r0 (A ++ ts) R h3 L hL2 hlen
          (by simp only [List.length_append]; omega)
          (by
            intro t ht
            simp only [List.mem_append] at ht
            rcases ht with ht | ht
            · exact hA t ht
            · exact h2 t ht) _ hat
        rw [toks_sum_append, h5, htc2]
        have := hns.1
        omega
    · apply aligned false (fun _ => hxe)
      rw [hL]
      simp [he, toks_bytes_append, toks_bytes, tok_bytes_false]

/-- C2: for a Burn packet (NewCommand, 4 payload bytes), replacing the wire
byte that carries `data[i]` by a different byte value makes `parse_rx_packet`
fail. The index `payload_index` lies inside the frame and holds `data[i]`. -/
theorem checksum_detects_payload_corruption (D : Defs) (hD : D.WF) (p : TPacket_Data)
    (hack : p.ack = D.NEW_CMD) (hcmd : p.command = D.CMD_BURN) (hsize : p.data_size = 4)
    (hbytes : ∀ i, i < 4 → p.data i < 256) (tx_buff : Nat → Nat) (r0 : TPacket_Data)
    (i : Nat) (hi : i < 4) (x : Nat) (hx : x < 256) (hne : x ≠ p.data i) :
    payload_index D p.data 4 i < (pack_tx_packet D p tx_buff).2
    ∧ (pack_tx_packet D p tx_buff).1 (payload_index D p.data 4 i) = p.data i
    ∧ (parse_rx_packet D
        (Function.update (pack_tx_packet D p tx_buff).1 (payload_index D p.data 4 i) x)
        (pack_tx_packet D p tx_buff).2 r0).1 ≠ 0 := by
  obtain ⟨h1, h2⟩ := pack_burn_At D hD p tx_buff hack hsize
  rw [hcmd] at h1 h2
  have e4 : 4 = (3 - i) + (i + 1) := by omega
  have hsplit : enc_seg D p.data 0 4
      = enc_seg D p.data (i + 1) (3 - i)
        ++ (needs_esc D (p.data i), p.data i) :: enc_seg D p.data 0 i := by
    conv_lhs => rw [e4]
    rw [enc_seg_split]
    simp only [enc_seg, Nat.zero_add]
  have hck : calc_8bit_mod_checksum p.data 4
      = (256 - (toks_sum (enc_seg D p.data (i + 1) (3 - i)) + p.data i
          + toks_sum (enc_seg D p.data 0 i)) % 256) % 256 := by
    rw [checksum_eq, ← enc_seg_sum D, hsplit, toks_sum_append]
    simp only [toks_sum]
    congr 3
    omega
  have hidx : payload_index D p.data 4 i
      = ([D.STX, D.CMD_BURN] ++ toks_bytes D (enc_seg D p.data (i + 1) (3 - i))
            ++ (if needs_esc D (p.data i) then [D.ESC] else [])).length := by
    have hw1 : payload_wire D p.data 4
        = toks_bytes D (enc_seg D p.data (i + 1) (3 - i)) ++ payload_wire D p.data (i + 1) := by
      rw [payload_wire_eq, payload_wire_eq]
      conv_lhs => rw [e4]
      rw [enc_seg_split, toks_bytes_append]
      simp only [Nat.zero_add]
    simp only [payload_index, hw1, List.length_append, List.length_cons, List.length_nil]
    split <;> simp
  have hlay : frame_layout D D.CMD_BURN p.data 4
      = ([D.STX, D.CMD_BURN] ++ toks_bytes D (enc_seg D p.data (i + 1) (3 - i))
            ++ (if needs_esc D (p.data i) then [D.ESC] else [])) ++ p.data i ::
          (toks_bytes D (enc_seg D p.data 0 i) ++ (tok_bytes D
            (needs_esc D (calc_8bit_mod_checksum p.data 4),
              calc_8bit_mod_checksum p.data 4) ++ [D.ETX])) := by
    rw [frame_layout_toks, hsplit, toks_bytes_append]
    simp only [toks_bytes, tok_bytes]
    split <;> simp
  rw [hlay] at h1 h2
  obtain ⟨m1, m2⟩ := At_mutate _ _ _ _ x h2
  rw [← hidx] at m1 m2
  refine ⟨?_, m1, ?_⟩
  · rw [h1, hidx]
    simp only [List.length_append, List.length_cons]
    omega
  · rw [corrupt_core D hD _ _ r0 (enc_seg D p.data (i + 1) (3 - i)) (enc_seg D p.data 0 i)
      (p.data i) x _ (enc_seg_ok D _ _ _) (enc_seg_ok D _ _ _)
      (by rw [enc_seg_length, enc_seg_length]; omega) (hbytes i hi) hx hne
      (by rw [← hck]) (by rw [h1]; simp) m2]
    decide

/-- C3: for a NewCommand packet with payload length `n > 0`, `pack_tx_packet`
writes exactly `STX`, the command byte, `data[n-1] .. data[0]` each preceded by
one `ESC` iff it equals `STX`, `ETX` or `ESC`, the checksum under the same rule,
and `ETX`; it returns the number of bytes written and leaves the rest of the
buffer untouched. -/
theorem pack_tx_packet_wire_layout (D : Defs) (hD : D.WF) (p : TPacket_Data)
    (tx_buff : Nat → Nat) (hack : p.ack = D.NEW_CMD) (hn : 0 < p.data_size)
    (hs : p.data_size ≤ 255) :
    (pack_tx_packet D p tx_buff).2 = (frame_layout D p.command p.data p.data_size).length
    ∧ (∀ k, k < (frame_layout D p.command p.data p.data_size).length →
        (pack_tx_packet D p tx_buff).1 k
          = (frame_layout D p.command p.data p.data_size).getD k 0)
    ∧ (∀ k, (frame_layout D p.command p.data p.data_size).length ≤ k →
        (pack_tx_packet D p tx_buff).1 k = tx_buff k) := by
  have hl := frame_layout_length D p.command p.data p.data_size
  obtain ⟨_, h2, h3⟩ := puts_spec (frame_layout D p.command p.data p.data_size)
    (TxBuf.mk tx_buff 0) (by simp only; omega)
  rw [pack_new_eq D hD p tx_buff hack hn hs]
  refine ⟨rfl, ?_, ?_⟩
  · intro k hk
    have := (At_getD _ _ 0).1 h2 k hk
    simpa using this
  · intro k hk
    exact h3 k (Or.inr (by simpa using hk))

/-- C1 on the sample Burn packet. -/
theorem codec_round_trip_witness :
    valid_packet sampleDefs sampleBurn ∧
    (parse_rx_packet sampleDefs (pack_tx_packet sampleDefs sampleBurn (fun _ => 0)).1
      (pack_tx_packet sampleDefs sampleBurn (fun _ => 0)).2 sampleBurn).1 = 0 :=
  ⟨sampleBurn_valid,
   (codec_round_trip sampleDefs sampleDefs_WF sampleBurn sampleBurn_valid (fun _ => 0)
      sampleBurn).1⟩

/-- C2 on the sample Burn packet: the plain payload byte `data[2] = 5` is
replaced by `ESC`. -/
theorem checksum_detects_payload_corruption_witness :
    (parse_rx_packet sampleDefs
      (Function.update (pack_tx_packet sampleDefs sampleBurn (fun _ => 0)).1
        (payload_index sampleDefs sampleBurn.data 4 2) 27)
      (pack_tx_packet sampleDefs sampleBurn (fun _ => 0)).2 sampleBurn).1 ≠ 0 :=
  (checksum_detects_payload_corruption sampleDefs sampleDefs_WF sampleBurn rfl rfl rfl
    (by decide) (fun _ => 0) sampleBurn 2 (by decide) 27 (by decide) (by decide)).2.2

/-- C3 on the sample Burn packet: the returned length is the length of the
framed layout. -/
theorem pack_tx_packet_wire_layout_witness :
    (pack_tx_packet sampleDefs sampleBurn (fun _ => 0)).2
      = (frame_layout sampleDefs sampleBurn.command sampleBurn.data
          sampleBurn.data_size).length :=
  (pack_tx_packet_wire_layout sampleDefs sampleDefs_WF sampleBurn (fun _ => 0) rfl
    (by decide) (by decide)).1

/-! ### Session dispatcher: what the receive path leaves unchanged -/

theorem RxOnly.refl (s : State) : RxOnly s s := ⟨rfl, rfl, rfl, rfl, rfl, rfl, rfl⟩

theorem RxOnly.trans {s t u : State} (h1 : RxOnly s t) (h2 : RxOnly t u) : RxOnly s u := by
  obtain ⟨a1, a2, a3, a4, a5, a6, a7⟩ := h1
  obtain ⟨b1, b2, b3, b4, b5, b6, b7⟩ := h2
  exact ⟨b1.trans a1, b2.trans a2, b3.trans a3, b4.trans a4, b5.trans a5, b6.trans a6,
    b7.trans a7⟩

theorem receive_one_rxonly (D : Defs) (c : Nat) (w : List Nat) (s t : State)
    (h : receive_one D c w s = some t) : RxOnly s t := by
  unfold receive_one at h
  cases hu : USCI0RXTX_ISR_rx D c s.uart with
  | none => rw [hu] at h; cases h
  | some u =>
    rw [hu] at h
    simp only [Option.map_some', Option.some.injEq] at h
    subst h
    exact ⟨rfl, rfl, rfl, rfl, rfl, rfl, rfl⟩

theorem deliver_rxonly (D : Defs) : ∀ (n : Nat) (s t : State),
    deliver D n s = some t → RxOnly s t := by
  intro n
  induction n with
  | zero => intro s t h; cases h; exact RxOnly.refl s
  | succ n ih =>
    intro s t h
    unfold deliver at h
    split at h
    · cases h; exact RxOnly.refl s
    · rename_i c w hw
      cases hr : receive_one D c w s with
      | none => rw [hr] at h; cases h
      | some s2 =>
        rw [hr] at h
        exact (receive_one_rxonly D c w s s2 hr).trans (ih s2 t h)

theorem uart_getc_rxonly (D : Defs) (s t : State) (c : Nat)
    (h : uart_getc D s = some (c, t)) : RxOnly s t := by
  unfold uart_getc at h
  by_cases hf : s.uart.rx_flag = 0
  · cases hw : s.env.rx_wire with
    | nil => simp [hf, hw] at h
    | cons c0 w =>
      cases hr : receive_one D c0 w s with
      | none => simp [hf, hw, hr] at h
      | some s2 =>
        simp only [hf, hw, hr, if_true, Option.map_some', Option.some.injEq,
          Prod.mk.injEq] at h
        have h2 := receive_one_rxonly D c0 w s s2 hr
        rw [← h.2]
        exact h2.trans ⟨rfl, rfl, rfl, rfl, rfl, rfl, rfl⟩
  · simp only [hf, if_false, Option.map_some', Option.some.injEq, Prod.mk.injEq] at h
    rw [← h.2]
    exact ⟨rfl, rfl, rfl, rfl, rfl, rfl, rfl⟩

theorem ite_some_or {α : Type} (c : Prop) [Decidable c] (a : α) (b : Option α) (r : α)
    (h : (if c then some a else b) = some r) : a = r ∨ b = some r := by
  split at h
  · left; exact Option.some.inj h
  · right; exact h

theorem uart_getp_loop_rxonly (D : Defs) (m : Nat) : ∀ (fuel i st : Nat) (p : Nat → Nat)
    (s : State) (r : Nat × (Nat → Nat) × State),
    uart_getp_loop D m fuel i st p s = some r → RxOnly s r.2.2 := by
  intro fuel
  induction fuel with
  | zero => intro i st p s r h; cases h
  | succ f ih =>
    intro i st p s r h
    unfold uart_getp_loop at h
    by_cases hi : i < m
    · simp only [hi, if_true] at h
      cases hg : uart_getc D s with
      | none => rw [hg] at h; cases h
      | some cs =>
        obtain ⟨c, s2⟩ := cs
        have h2 := uart_getc_rxonly D s s2 c hg
        rw [hg] at h
        simp only at h
        rcases ite_some_or _ _ _ _ h with h | h
        · rw [← h]; exact h2
        · exact h2.trans (ih _ _ _ _ _ h)
    · simp only [hi, if_false, Option.some.injEq] at h
      subst h
      exact RxOnly.refl s

theorem uart_getp_rxonly (D : Defs) (p : Nat → Nat) (m : Nat) (s : State)
    (r : Nat × (Nat → Nat) × State) (h : uart_getp D p m s = some r) : RxOnly s r.2.2 :=
  uart_getp_loop_rxonly D m _ _ _ _ _ _ h

theorem interrupts_keeps (D : Defs) (s t : State) (h : interrupts D s = some t) :
    t.ses = s.ses ∧ t.laser = s.laser ∧ t.trace = s.trace ∧
    t.env.lid_in = s.env.lid_in ∧ t.env.stack = s.env.stack := by
  unfold interrupts at h
  split at h
  · cases h; exact ⟨rfl, rfl, rfl, rfl, rfl⟩
  · obtain ⟨a1, a2, a3, _, _, a6, a7⟩ := deliver_rxonly D _ _ _ h
    exact ⟨a1, a2, a3, a6, a7⟩

theorem tx_frames_append (a b : List Event) : tx_frames (a ++ b) = tx_frames a ++ tx_frames b := by
  induction a with
  | nil => rfl
  | cons e es ih => cases e <;> simp [tx_frames, ih]

theorem pack_reply (D : Defs) (command ack : Nat) (data buf : Nat → Nat)
    (hack : ack = D.ACK_MSG ∨ ack = D.NAK_MSG) (hc : command ≠ D.NAK_MSG) :
    (List.range (pack_tx_packet D
        { command := command, ack := ack, data_size := 0, data := data } buf).2).map
      (pack_tx_packet D { command := command, ack := ack, data_size := 0, data := data } buf).1
    = [D.STX, ack, command, D.ETX] := by
  have hc2 : (ack = D.NAK_MSG ∨ ack = D.ACK_MSG) := hack.symm
  simp [pack_tx_packet, hc2, hc, TxBuf.put, u16, List.range_succ, Function.update_apply]

theorem send_ack_spec (D : Defs) (command ack : Nat) (s : State)
    (hack : ack = D.ACK_MSG ∨ ack = D.NAK_MSG) (hc : command ≠ D.NAK_MSG) :
    (send_ack D command ack s).trace = s.trace ++ [Event.putp [D.STX, ack, command, D.ETX]]
    ∧ (send_ack D command ack s).ses = s.ses ∧ (send_ack D command ack s).laser = s.laser
    ∧ (send_ack D command ack s).env = s.env := by
  refine ⟨?_, rfl, rfl, rfl⟩
  simp only [send_ack, uart_putp]
  rw [pack_reply D command ack _ _ hack hc]

/-- C7 (as stated, refuted): on an idle device (`picture_ip = FALSE`) a
correctly decoded Burn is answered with the Ack frame `STX, ACK_MSG, CMD_BURN,
ETX` and sets `burn_ready` to `TRUE`. -/
theorem burn_outside_session_not_rejected :
    burnArrival.ses.picture_ip = sampleDefs.FALSE ∧
    (check_and_respond_to_msg sampleDefs none burnArrival).map
        (fun r => (tx_frames r.2.trace, r.2.ses.burn_ready))
      = some ([[sampleDefs.STX, sampleDefs.ACK_MSG, sampleDefs.CMD_BURN, sampleDefs.ETX]],
              sampleDefs.TRUE) := by
  decide

theorem receive_packet_keeps (D : Defs) (s : State) (r : Nat × TPacket_Data × State)
    (h : receive_packet D s = some r) :
    r.2.2.trace = s.trace ∧ r.2.2.laser = s.laser ∧
    r.2.2.ses = { s.ses with last_rx_time := s.env.time_ms } ∧
    r.2.2.env.time_ms = s.env.time_ms ∧ r.2.2.env.sched = s.env.sched ∧
    r.2.2.env.lid_in = s.env.lid_in ∧ r.2.2.env.stack = s.env.stack := by
  unfold receive_packet at h
  simp only [Option.map_eq_some'] at h
  obtain ⟨g, hg, rfl⟩ := h
  obtain ⟨g1, g2, g3, g4, g5, g6, g7⟩ := uart_getp_rxonly D _ _ _ g hg
  exact ⟨g3, g2, g1, g4, g5, g6, g7⟩

theorem received_keeps (D : Defs) (s : State) (r : Nat × TPacket_Data × State)
    (h : received D s = some r) :
    r.2.2.trace = s.trace ∧ r.2.2.laser = s.laser ∧
    r.2.2.ses.burn_ready = s.ses.burn_ready ∧ r.2.2.ses.picture_ip = s.ses.picture_ip ∧
    r.2.2.ses.pi_init = s.ses.pi_init ∧ r.2.2.ses.first_pixel = s.ses.first_pixel ∧
    r.2.2.ses.door_opened = s.ses.door_opened ∧
    r.2.2.ses.pixel_request_time = s.ses.pixel_request_time ∧
    r.2.2.env.lid_in = s.env.lid_in ∧ r.2.2.env.stack = s.env.stack := by
  unfold received at h
  split at h
  · obtain ⟨g1, g2, g3, _, _, g6, g7⟩ := receive_packet_keeps D s r h
    refine ⟨g1, g2, ?_, ?_, ?_, ?_, ?_, ?_, g6, g7⟩ <;> rw [g3]
  · cases h

theorem check_of_received (D : Defs) (rx_data : Option TPacket_Data) (s : State)
    (r : Nat × TPacket_Data × State) (h : received D s = some r) :
    check_and_respond_to_msg D rx_data s
      = (dispatch D r.1 r.2.1 r.2.2).bind fun t => some (rx_data.map (fun _ => r.2.1), t) := by
  unfold received at h
  unfold check_and_respond_to_msg
  split at h
  · rename_i hr
    simp only [hr, if_true, h, Option.some_bind]
  · cases h

/-- C7 (amended): for every session state with `picture_ip = FALSE`, when
`check_and_respond_to_msg` processes a correctly decoded NewCommand Burn
packet, it transmits the Ack frame `STX, ACK_MSG, CMD_BURN, ETX` as its only
reply, sets `burn_ready` to `TRUE` and leaves `picture_ip = FALSE`. -/
theorem burn_outside_session_acked (D : Defs) (hD : D.WF) (rx_data : Option TPacket_Data)
    (s : State) (hpic : s.ses.picture_ip = D.FALSE)
    (hrecv : (received D s).map (fun r => (r.1, r.2.1.ack, r.2.1.command))
        = some (0, D.NEW_CMD, D.CMD_BURN)) :
    ∃ t lrx, check_and_respond_to_msg D rx_data s = some (rx_data.map (fun _ => lrx), t)
      ∧ tx_frames t.trace
          = tx_frames s.trace ++ [[D.STX, D.ACK_MSG, D.CMD_BURN, D.ETX]]
      ∧ t.ses.burn_ready = D.TRUE ∧ t.ses.picture_ip = D.FALSE := by
  simp only [Option.map_eq_some', Prod.mk.injEq] at hrecv
  obtain ⟨r, hr, hret, hack, hcmd⟩ := hrecv
  obtain ⟨htr, _, _, hp, _⟩ := received_keeps D s r hr
  obtain ⟨k1, k2, _, _⟩ := send_ack_spec D D.CMD_BURN D.ACK_MSG r.2.2 (Or.inl rfl)
    hD.burn_ne_nak
  have hfp : (send_ack D D.CMD_BURN D.ACK_MSG r.2.2).ses.first_pixel
      = r.2.2.ses.first_pixel := by rw [k2]
  rw [check_of_received D rx_data s r hr]
  simp only [dispatch, hret, hack, hcmd, if_true]
  by_cases hf : r.2.2.ses.first_pixel = D.TRUE
  · simp only [hfp, hf, if_true, Option.some_bind]
    refine ⟨_, _, rfl, ?_, rfl, ?_⟩
    · simp only [enable_laser, delay_ms, State.log, k1, htr, tx_frames_append]
      simp [tx_frames]
    · simp only [enable_laser, delay_ms, State.log, k2, hp, hpic]
  · simp only [hfp, hf, if_false, Option.some_bind]
    refine ⟨_, _, rfl, ?_, rfl, ?_⟩
    · simp only [k1, htr, tx_frames_append]
      simp [tx_frames]
    · simp only [k2, hp, hpic]

/-- C7 (amended) on the idle device that receives a Burn frame. -/
theorem burn_outside_session_acked_witness :
    ∃ t, check_and_respond_to_msg sampleDefs none burnArrival = some (none, t)
      ∧ tx_frames t.trace = tx_frames burnArrival.trace ++ [[2, 6, 66, 3]]
      ∧ t.ses.burn_ready = 1 ∧ t.ses.picture_ip = 0 := by
  obtain ⟨t, _, h1, h2, h3, h4⟩ :=
    burn_outside_session_acked sampleDefs sampleDefs_WF none burnArrival
      (by decide) (by decide)
  exact ⟨t, h1, h2, h3, h4⟩

/-! ### Burn execution after a motor fault -/

/-- C8 (code evaluated at the failing input): a Burn frame is received and
acknowledged in a running session, and `moveMotors` reports a fault while
`respond_to_burn_cmd` executes it. With the lid closed, `turn_on_laser` is
invoked after `halt_burn`. With the lid found open and then closed,
`enable_laser` and `turn_on_laser` are invoked after `halt_burn`, and on return
the laser-enable pin is low (laser enabled) while `picture_ip = FALSE`. -/
theorem motor_fault_still_fires_laser :
    (received sampleDefs (after_interrupts sampleDefs (burnThenAck [16]))).map
        (fun r => (r.1, r.2.1.ack, r.2.1.command, (List.range 4).map r.2.1.data))
      = some (0, sampleDefs.NEW_CMD, sampleDefs.CMD_BURN, [14, 0, 4, 8])
    ∧ ((poll sampleDefs (burnThenAck [16])).bind
          (respond_to_burn_cmd sampleDefs (bytes [14, 0, 4, 8]) 1)).map
        (fun t => (t.trace, t.laser.P1OUT &&& sampleDefs.LASER_ENA_PIN, t.laser.laser_on,
                   t.ses.picture_ip))
      = some ([Event.putp [2, 6, 66, 3], Event.moveMotors 16 7, Event.halt_burn,
               Event.disable_laser, Event.turn_off_laser, Event.turn_on_laser 200,
               Event.delay_ms 2, Event.turn_off_laser, Event.putp [2, 82, 3]],
              sampleDefs.LASER_ENA_PIN, 0, 0)
    ∧ ((poll sampleDefs (burnThenAck [0, 0, 16])).bind
          (respond_to_burn_cmd sampleDefs (bytes [14, 0, 4, 8]) 1)).map
        (fun t => (t.trace, t.laser.P1OUT &&& sampleDefs.LASER_ENA_PIN, t.laser.laser_on,
                   t.ses.picture_ip))
      = some ([Event.putp [2, 6, 66, 3], Event.moveMotors 16 7, Event.halt_burn,
               Event.disable_laser, Event.turn_off_laser, Event.disable_laser,
               Event.enable_laser, Event.turn_on_laser 200, Event.delay_ms 2,
               Event.turn_off_laser, Event.putp [2, 82, 3]], 0, 0, 0) := by
  refine ⟨by decide, by decide, by decide⟩

/-! ### Pixel-request timeout -/

theorem deliver_silent (D : Defs) (n : Nat) (s : State) (h : s.env.rx_wire = []) :
    deliver D n s = some s := by
  cases n with
  | zero => rfl
  | succ n => simp [deliver, h]

theorem halt_burn_spec (D : Defs) (s : State) :
    (halt_burn D s).trace = s.trace ++ halt_events
    ∧ (halt_burn D s).ses = { s.ses with picture_ip := D.FALSE }
    ∧ (halt_burn D s).uart = s.uart ∧ (halt_burn D s).env = s.env := by
  refine ⟨?_, rfl, rfl, rfl⟩
  simp [halt_burn, disable_laser, turn_off_laser, State.log, halt_events]

theorem poll_silent (D : Defs) (s : State) (hidle : s.uart.packet_ready ≠ 1)
    (hsilent : s.env.rx_wire = []) :
    ∃ s1, interrupts D s = some s1 ∧ poll D s = some (pixel_timeout_check D s1)
      ∧ s1.uart = s.uart ∧ s1.ses = s.ses ∧ s1.trace = s.trace ∧ s1.env.rx_wire = []
      ∧ poll_times 1 s.env.time_ms s.env.sched = [s1.env.time_ms]
      ∧ ∀ n, poll_times (n + 1) s.env.time_ms s.env.sched
          = s1.env.time_ms :: poll_times n s1.env.time_ms s1.env.sched := by
  cases hs : s.env.sched with
  | nil =>
    have hi : interrupts D s = some s := by simp [interrupts, hs]
    refine ⟨s, hi, ?_, rfl, rfl, rfl, hsilent, ?_, ?_⟩
    · simp [poll, poll_msg, check_and_respond_to_msg, hi, hidle]
    · simp [poll_times]
    · intro n; simp [poll_times, hs]
  | cons e rest =>
    obtain ⟨dt, k⟩ := e
    have hi : interrupts D s = some
        { s with env := { s.env with sched := rest, time_ms := u32 (s.env.time_ms + dt) } } := by
      simp only [interrupts, hs]
      exact deliver_silent D k _ hsilent
    refine ⟨_, hi, ?_, rfl, rfl, rfl, hsilent, ?_, ?_⟩
    · simp [poll, poll_msg, check_and_respond_to_msg, hi, hidle]
    · simp [poll_times]
    · intro n; simp [poll_times]

theorem pixel_timeout_check_spec (D : Defs) (s : State)
    (hreq : s.ses.pixel_request_time ≠ UINT32_MAX) :
    (pixel_timeout_check D s).trace
        = s.trace ++ (if timed_out D s.env.time_ms s.ses.pixel_request_time
                      then halt_events else [])
    ∧ (pixel_timeout_check D s).ses.pixel_request_time = s.ses.pixel_request_time
    ∧ (pixel_timeout_check D s).ses.picture_ip
        = (if timed_out D s.env.time_ms s.ses.pixel_request_time then D.FALSE
           else s.ses.picture_ip)
    ∧ (pixel_timeout_check D s).uart = s.uart ∧ (pixel_timeout_check D s).env = s.env := by
  obtain ⟨h1, h2, h3, h4⟩ := halt_burn_spec D s
  unfold pixel_timeout_check
  simp only [hreq, ne_eq, not_false_eq_true, if_true]
  by_cases ht : timed_out D s.env.time_ms s.ses.pixel_request_time = true
  · simp only [ht, if_true, h1, h2, h3, h4, and_self]
  · simp only [ht, if_false, List.append_nil, and_self, Bool.false_eq_true]

/-- The branch of the pixel-request timeout taken alone. In a state with no
frame ready (`packet_ready ≠ 1`), a pixel request of time `t0` outstanding and
a silent host, every poll returns, and `halt_burn` is invoked on every poll
whose time is past the timeout (the signed 32-bit value of `time_ms - t0`
exceeds `PIXEL_TIMEOUT`), the first such poll and each later one; the request
stays outstanding. No state that follows an acknowledged pixel request is of
this kind: `packet_ready` is 1 there (`acked_request_leaves_frame_flag`). -/
theorem pixel_timeout_fires_on_every_late_poll (D : Defs) (n : Nat) : ∀ (s : State),
    s.uart.packet_ready ≠ 1 → s.env.rx_wire = [] → s.ses.pixel_request_time ≠ UINT32_MAX →
    ∃ t, polls D n s = some t
      ∧ t.trace = s.trace
          ++ timeout_events D s.ses.pixel_request_time
               (poll_times n s.env.time_ms s.env.sched)
      ∧ t.ses.pixel_request_time = s.ses.pixel_request_time
      ∧ t.ses.picture_ip
          = (if (poll_times n s.env.time_ms s.env.sched).any
                  (fun tm => timed_out D tm s.ses.pixel_request_time)
             then D.FALSE else s.ses.picture_ip) := by
  induction n with
  | zero =>
    intro s _ _ _
    exact ⟨s, rfl, by simp [poll_times, timeout_events], rfl, by simp [poll_times]⟩
  | succ n ih =>
    intro s hidle hsilent hreq
    obtain ⟨s1, _, hp, u1, e1, tr1, w1, _, pt⟩ := poll_silent D s hidle hsilent
    have hreq1 : s1.ses.pixel_request_time ≠ UINT32_MAX := by rw [e1]; exact hreq
    obtain ⟨c1, c2, c3, c4, c5⟩ := pixel_timeout_check_spec D s1 hreq1
    obtain ⟨t, ht, htr, hprt, hpic⟩ := ih (pixel_timeout_check D s1)
      (by rw [c4, u1]; exact hidle) (by rw [c5]; exact w1) (by rw [c2]; exact hreq1)
    refine ⟨t, ?_, ?_, ?_, ?_⟩
    · simp only [polls, hp, Option.some_bind, ht]
    · rw [htr, c1, c2, c5, tr1, e1, pt n]
      simp only [timeout_events, List.append_assoc]
    · rw [hprt, c2, e1]
    · rw [hpic, c2, c3, c5, e1, pt n]
      simp only [List.any_cons]
      by_cases hto : timed_out D s1.env.time_ms s.ses.pixel_request_time = true
      · simp [hto]
      · simp [hto]

/-! ### Bounded retry of the pixel request -/

theorem interrupts_silent (D : Defs) (s : State) (hsilent : s.env.rx_wire = []) :
    ∃ s1, interrupts D s = some s1 ∧ s1.uart = s.uart ∧ s1.env.rx_wire = [] := by
  cases hs : s.env.sched with
  | nil => exact ⟨s, by simp [interrupts, hs], rfl, hsilent⟩
  | cons e rest =>
    refine ⟨{ s with env := { s.env with sched := rest,
                                          time_ms := u32 (s.env.time_ms + e.1) } }, ?_, rfl,
      hsilent⟩
    simp only [interrupts, hs]
    exact deliver_silent D e.2 _ hsilent

/-- With the frame-ready flag set, nothing in the receive ring and a silent
host, `check_and_respond_to_msg` never returns: `uart_getp` waits in
`uart_getc`. -/
theorem check_blocks (D : Defs) (rx_data : Option TPacket_Data) (s : State)
    (h1 : s.uart.packet_ready = 1) (h2 : s.uart.rx_flag = 0) (h3 : s.env.rx_wire = [])
    (h4 : 0 < D.MAX_PACKET_LENGTH) : check_and_respond_to_msg D rx_data s = none := by
  have hg : uart_getc D
      { s with ses := { s.ses with last_rx_time := s.env.time_ms } } = none := by
    simp [uart_getc, h2, h3]
  have hr : receive_packet D s = none := by
    simp only [receive_packet, uart_getp, uart_getp_loop, h4, if_true, hg, Option.map_none']
  simp only [check_and_respond_to_msg, h1, if_true, hr, Option.none_bind]

/-- The same for a poll. -/
theorem poll_blocks (D : Defs) (rx_data : Option TPacket_Data) (s : State)
    (h1 : s.uart.packet_ready = 1) (h2 : s.uart.rx_flag = 0) (h3 : s.env.rx_wire = [])
    (h4 : 0 < D.MAX_PACKET_LENGTH) : poll_msg D rx_data s = none := by
  obtain ⟨s1, hi, u1, w1⟩ := interrupts_silent D s h3
  simp only [poll_msg, hi, Option.some_bind]
  exact check_blocks D rx_data s1 (by rw [u1]; exact h1) (by rw [u1]; exact h2) w1 h4

/-- C10 (code evaluated at the failing input). First run: a Burn frame is
handled by a poll, which leaves `packet_ready = 1` and the receive ring empty;
the host then stays silent, and neither `send_ready_for_pixel` nor
`respond_to_burn_cmd` returns, the first attempt already waiting for ever
after one transmission. Second run: no frame is pending at entry and the
host answers the first pixel request with a Nak frame, then stays silent;
the first attempt returns without the matching Ack, with one PixelReady frame
sent and `packet_ready` still 1, and the second attempt never returns. -/
theorem retry_blocks_after_first_frame :
    (poll sampleDefs burnInSession).map
        (fun t => (t.ses.burn_ready, t.uart.packet_ready, t.uart.rx_flag, t.env.rx_wire))
      = some (1, 1, 0, [])
    ∧ ((poll sampleDefs burnInSession).bind (send_ready_for_pixel sampleDefs)).isSome = false
    ∧ ((poll sampleDefs burnInSession).bind
          (respond_to_burn_cmd sampleDefs (bytes [14, 0, 4, 8]) 0)).isSome = false
    ∧ (poll_msg sampleDefs
        (some { command := 0, ack := 0, data_size := 0, data := fun _ => 0 })
        (uart_putp sampleDefs (bytes [2, 82, 3]) 3 hostNaksOnce)).map
      (fun r => (r.1.map (ready_acked sampleDefs), r.2.uart.packet_ready, r.2.uart.rx_flag,
                 r.2.env.rx_wire, r.2.trace))
      = some (some false, 1, 0, [], [Event.putp [2, 82, 3]])
    ∧ (send_ready_attempts sampleDefs hostNaksOnce).isSome = false
    ∧ (send_ready_for_pixel sampleDefs hostNaksOnce).isSome = false := by
  refine ⟨by decide, by decide, by decide, by decide, by decide, by decide⟩

/-! ### Burn execution after a motor fault, for every payload -/

theorem laserInt_le (p : Nat → Nat) : (parse_burn_cmd_payload p).2.2 ≤ 3 := by
  simp only [parse_burn_cmd_payload]
  rw [and_shifted_mask _ 2 27 0x18000000 (by decide)]
  omega

theorem turn_on_laser_timed_trace (D : Defs) (i d : Nat) (s : State) :
    (turn_on_laser_timed D i d s).trace
      = s.trace ++ [Event.turn_on_laser i, Event.delay_ms d, Event.turn_off_laser] := by
  simp [turn_on_laser_timed, turn_on_laser, delay_ms, turn_off_laser, State.log]

theorem fire_laser_trace (D : Defs) (li : Nat) (hli : li ≤ 3) (s : State) :
    ∃ i d, (fire_laser D li s).trace
      = s.trace ++ [Event.turn_on_laser i, Event.delay_ms d, Event.turn_off_laser] := by
  unfold fire_laser
  by_cases c0 : li = 0
  · refine ⟨D.INTENSITY_1, D.LASER_DUR_1, ?_⟩
    rw [if_pos c0, turn_on_laser_timed_trace]
  by_cases c1 : li = 1
  · refine ⟨D.INTENSITY_2, D.LASER_DUR_2, ?_⟩
    rw [if_neg c0, if_pos c1, turn_on_laser_timed_trace]
  by_cases c2 : li = 2
  · refine ⟨D.INTENSITY_3, D.LASER_DUR_3, ?_⟩
    rw [if_neg c0, if_neg c1, if_pos c2, turn_on_laser_timed_trace]
  have c3 : li = 3 := by omega
  refine ⟨D.MAX_INTENSITY, D.LASER_DUR_4, ?_⟩
  rw [if_neg c0, if_neg c1, if_neg c2, if_pos c3, turn_on_laser_timed_trace]

theorem lid_check_trace (D : Defs) (s t : State) (h : lid_check D s = some t) :
    t.trace = s.trace ∨ t.trace = s.trace ++ [Event.disable_laser, Event.enable_laser] := by
  unfold lid_check at h
  split at h
  · cases h
  · simp only at h
    split at h
    · simp only [Option.map_eq_some'] at h
      obtain ⟨l, _, rfl⟩ := h
      right
      simp [enable_laser, disable_laser, State.log]
    · cases h; left; rfl

/-- For every burn payload, not only the one of the example: when `moveMotors`
reports a fault and `respond_to_burn_cmd` gets past the lid check, the events
of `halt_burn` are followed by a `turn_on_laser`. -/
theorem burn_pixel_fires_after_halt (D : Defs) (p : Nat → Nat) (s t : State)
    (h : burn_pixel D p 1 s = some t) :
    ∃ mid i d, t.trace = s.trace
      ++ [Event.moveMotors (parse_burn_cmd_payload p).2.1 (parse_burn_cmd_payload p).1]
      ++ halt_events ++ mid ++ [Event.turn_on_laser i, Event.delay_ms d, Event.turn_off_laser] := by
  have ht := (halt_burn_spec D
    (s.log (Event.moveMotors (parse_burn_cmd_payload p).2.1 (parse_burn_cmd_payload p).1))).1
  simp only [burn_pixel, if_true, Option.map_eq_some'] at h
  obtain ⟨s2, hl, rfl⟩ := h
  obtain ⟨i, d, hf⟩ := fire_laser_trace D _ (laserInt_le p) s2
  rcases lid_check_trace D _ s2 hl with h2 | h2
  · refine ⟨[], i, d, ?_⟩
    show (fire_laser D _ s2).trace = _
    rw [hf, h2, ht]
    simp [State.log]
  · refine ⟨[Event.disable_laser, Event.enable_laser], i, d, ?_⟩
    show (fire_laser D _ s2).trace = _
    rw [hf, h2, ht]
    simp [State.log]

/-! ### Decoder: rejected frames -/

theorem unknown_command_result (D : Defs) (rx_buff : Nat → Nat) (length : Nat)
    (r0 : TPacket_Data) (hlen : D.MIN_PACKET_LENGTH ≤ length) (hstx : rx_buff 0 = D.STX)
    (hunk : payload_size D (frame_ack D rx_buff) (rx_buff (command_index D rx_buff)) = none) :
    parse_rx_packet D rx_buff length r0
      = (1, { command := D.NAK_MSG, ack := frame_ack D rx_buff, data_size := 0,
              data := r0.data }) := by
  have h1 : ¬ length < D.MIN_PACKET_LENGTH := by omega
  simp only [frame_ack, command_index] at hunk
  simp only [parse_rx_packet, h1, if_false, hstx, ne_eq, not_true_eq_false, hunk]
  rfl

/-- C12 (as stated, refuted): the frame `STX, 0x55, ETX` carries no ack
sentinel and a command byte that is in neither table; `parse_rx_packet`
returns 1 with `command = NAK_MSG` but `ack = NEW_CMD`. The frame
`STX, ACK_MSG, 0x55, ETX` is rejected with `ack = ACK_MSG`. -/
theorem unknown_command_leaves_ack_kind :
    payload_size sampleDefs (frame_ack sampleDefs (bytes [2, 85, 3])) 85 = none
    ∧ ((parse_rx_packet sampleDefs (bytes [2, 85, 3]) 3 sampleBurn).1,
       (parse_rx_packet sampleDefs (bytes [2, 85, 3]) 3 sampleBurn).2.command,
       (parse_rx_packet sampleDefs (bytes [2, 85, 3]) 3 sampleBurn).2.ack)
      = (1, sampleDefs.NAK_MSG, sampleDefs.NEW_CMD)
    ∧ sampleDefs.NEW_CMD ≠ sampleDefs.NAK_MSG
    ∧ ((parse_rx_packet sampleDefs (bytes [2, 6, 85, 3]) 4 sampleBurn).1,
       (parse_rx_packet sampleDefs (bytes [2, 6, 85, 3]) 4 sampleBurn).2.command,
       (parse_rx_packet sampleDefs (bytes [2, 6, 85, 3]) 4 sampleBurn).2.ack)
      = (1, sampleDefs.NAK_MSG, sampleDefs.ACK_MSG) := by
  refine ⟨by decide, by decide, by decide, by decide⟩

/-- C12 (amended): for every frame of length at least `MIN_PACKET_LENGTH`
that starts with `STX` and whose command byte is not in the table selected by
its ack kind, `parse_rx_packet` returns 1 and leaves `command = NAK_MSG`,
`data_size = 0` and `ack` equal to the ack kind read from the frame; `ack` is
`NAK_MSG` exactly when the frame carries the `NAK_MSG` sentinel. -/
theorem unknown_command_rejected (D : Defs) (hD : D.WF) (rx_buff : Nat → Nat) (length : Nat)
    (rx_data : TPacket_Data) (hlen : D.MIN_PACKET_LENGTH ≤ length)
    (hstx : rx_buff 0 = D.STX)
    (hunk : payload_size D (frame_ack D rx_buff) (rx_buff (command_index D rx_buff)) = none) :
    (parse_rx_packet D rx_buff length rx_data).1 = 1
    ∧ (parse_rx_packet D rx_buff length rx_data).2.command = D.NAK_MSG
    ∧ (parse_rx_packet D rx_buff length rx_data).2.data_size = 0
    ∧ (parse_rx_packet D rx_buff length rx_data).2.ack = frame_ack D rx_buff
    ∧ ((parse_rx_packet D rx_buff length rx_data).2.ack = D.NAK_MSG
        ↔ rx_buff 1 = D.NAK_MSG) := by
  rw [unknown_command_result D rx_buff length rx_data hlen hstx hunk]
  refine ⟨rfl, rfl, rfl, rfl, ?_⟩
  show frame_ack D rx_buff = D.NAK_MSG ↔ rx_buff 1 = D.NAK_MSG
  unfold frame_ack
  by_cases h1 : rx_buff 1 = D.ACK_MSG
  · rw [if_pos h1, h1]
  · rw [if_neg h1]
    by_cases h2 : rx_buff 1 = D.NAK_MSG
    · rw [if_pos h2]
      exact ⟨fun _ => h2, fun _ => rfl⟩
    · rw [if_neg h2]
      exact ⟨fun h => absurd h hD.new_ne_nak, fun h => absurd h h2⟩

/-- C12 (amended) on the frames `STX, 0x55, ETX`. -/
theorem unknown_command_rejected_witness :
    (parse_rx_packet sampleDefs (bytes [2, 85, 3]) 3 sampleBurn).1 = 1
    ∧ (parse_rx_packet sampleDefs (bytes [2, 85, 3]) 3 sampleBurn).2.command = 21
    ∧ (parse_rx_packet sampleDefs (bytes [2, 85, 3]) 3 sampleBurn).2.data_size = 0
    ∧ (parse_rx_packet sampleDefs (bytes [2, 85, 3]) 3 sampleBurn).2.ack = 0 := by
  obtain ⟨h1, h2, h3, h4, _⟩ := unknown_command_rejected sampleDefs sampleDefs_WF
    (bytes [2, 85, 3]) 3 sampleBurn (by decide) (by decide) (by decide)
  exact ⟨h1, h2, h3, h4⟩

theorem parse_success_facts (D : Defs) (rx_buff : Nat → Nat) (length : Nat)
    (rx_data : TPacket_Data) (h : (parse_rx_packet D rx_buff length rx_data).1 = 0) :
    D.MIN_PACKET_LENGTH ≤ length ∧ rx_buff 0 = D.STX
    ∧ rx_buff (etx_index D rx_buff length rx_data) = D.ETX := by
  have hl : ¬ length < D.MIN_PACKET_LENGTH := by
    intro hl
    simp [parse_rx_packet, hl] at h
  have hs : rx_buff 0 = D.STX := by
    by_contra hs
    simp [parse_rx_packet, hl, hs] at h
  refine ⟨by omega, hs, ?_⟩
  cases hsz : payload_size D (frame_ack D rx_buff) (rx_buff (command_index D rx_buff)) with
  | none =>
    rw [unknown_command_result D rx_buff length rx_data (by omega) hs hsz] at h
    cases h
  | some size =>
    unfold etx_index
    simp only [hsz]
    unfold frame_ack command_index at hsz
    simp only [parse_rx_packet, hl, if_false, hs, ne_eq, not_true_eq_false, hsz] at h
    unfold command_index
    by_cases hz : size = 0
    · subst hz
      simp only [ne_eq, not_true_eq_false, if_false] at h ⊢
      by_contra hne
      simp [hne] at h
    · simp only [ne_eq, hz, not_false_eq_true, if_true] at h ⊢
      generalize parse_data_loop D rx_buff length size _ rx_data.data = lp at h ⊢
      generalize (if rx_buff lp.1 = D.ESC then u16 (lp.1 + 1) else lp.1) = k at h ⊢
      by_contra hne
      by_cases c1 : lp.1 ≥ length
      · simp [c1] at h
      · by_cases c2 : rx_buff k = calc_8bit_mod_checksum lp.2 size
        · simp [c1, c2, hne] at h
        · simp [c1, c2] at h

theorem parse_empty_payload (D : Defs) (rx_buff : Nat → Nat) (length : Nat)
    (rx_data : TPacket_Data) (hlen : D.MIN_PACKET_LENGTH ≤ length) (hstx : rx_buff 0 = D.STX)
    (hz : payload_size D (frame_ack D rx_buff) (rx_buff (command_index D rx_buff)) = some 0) :
    (parse_rx_packet D rx_buff length rx_data).1
      = if rx_buff (command_index D rx_buff + 1) = D.ETX then 0 else 1 := by
  have h1 : ¬ length < D.MIN_PACKET_LENGTH := by omega
  unfold frame_ack command_index at hz
  unfold command_index
  simp only [parse_rx_packet, h1, if_false, hstx, ne_eq, not_true_eq_false, hz]
  by_cases he : rx_buff ((if rx_buff 1 = D.ACK_MSG ∨ rx_buff 1 = D.NAK_MSG then 2 else 1) + 1)
      = D.ETX
  · simp [he]
  · simp [he]

/-- C13 (as stated, refuted): the frame `STX, CMD_START, ETX, 0x55` of length
4 is accepted although its final byte is not `ETX`. -/
theorem etx_not_final_accepted :
    (parse_rx_packet sampleDefs (bytes [2, 83, 3, 85]) 4 sampleBurn).1 = 0
    ∧ bytes [2, 83, 3, 85] (4 - 1) ≠ sampleDefs.ETX := by
  decide

/-- C13 (amended): if `parse_rx_packet` returns 0 then the length is at least
`MIN_PACKET_LENGTH`, the first byte is `STX`, and the byte at the index that
follows the decoded fields is `ETX`: the index after the command byte when the
payload is empty, the index after the checksum otherwise. The index is not
compared with the last index of the frame: a frame with an empty payload that
is accepted is accepted with every other length from `MIN_PACKET_LENGTH` on
that contains this `ETX`. -/
theorem parse_checks_etx_after_fields (D : Defs) (rx_buff : Nat → Nat) (length : Nat)
    (rx_data : TPacket_Data) (h : (parse_rx_packet D rx_buff length rx_data).1 = 0) :
    D.MIN_PACKET_LENGTH ≤ length ∧ rx_buff 0 = D.STX
    ∧ rx_buff (etx_index D rx_buff length rx_data) = D.ETX
    ∧ (payload_size D (frame_ack D rx_buff) (rx_buff (command_index D rx_buff)) = some 0 →
        etx_index D rx_buff length rx_data = command_index D rx_buff + 1
        ∧ ∀ length2, D.MIN_PACKET_LENGTH ≤ length2 →
            etx_index D rx_buff length rx_data < length2 →
            (parse_rx_packet D rx_buff length2 rx_data).1 = 0) := by
  obtain ⟨h1, h2, h3⟩ := parse_success_facts D rx_buff length rx_data h
  refine ⟨h1, h2, h3, ?_⟩
  intro hz
  have he : etx_index D rx_buff length rx_data = command_index D rx_buff + 1 := by
    unfold etx_index
    simp only [hz, ne_eq, not_true_eq_false, if_false]
  refine ⟨he, fun length2 hl2 _ => ?_⟩
  rw [parse_empty_payload D rx_buff length2 rx_data hl2 h2 hz, ← he, if_pos h3]

/-- C13 (amended) on the frame `STX, CMD_START, ETX, 0x55` of length 4: the
`ETX` tested is the byte at index 2. -/
theorem parse_checks_etx_after_fields_witness :
    bytes [2, 83, 3, 85] (etx_index sampleDefs (bytes [2, 83, 3, 85]) 4 sampleBurn) = 3
    ∧ etx_index sampleDefs (bytes [2, 83, 3, 85]) 4 sampleBurn = 2 := by
  obtain ⟨_, _, h3, h4⟩ := parse_checks_etx_after_fields sampleDefs (bytes [2, 83, 3, 85]) 4
    sampleBurn (by decide)
  exact ⟨h3, (h4 (by decide)).1⟩

/-! ### Session dispatcher: replies and transitions -/

theorem or_and_mask (x m : Nat) : (x ||| m) &&& m = m := by
  apply Nat.eq_of_testBit_eq
  intro i
  simp only [Nat.testBit_and, Nat.testBit_or]
  cases x.testBit i <;> cases m.testBit i <;> rfl

theorem bit_clear_testBit (x m i : Nat) :
    (bit_clear x m).testBit i = (x.testBit i && !m.testBit i) := by
  simp only [bit_clear, Nat.testBit_xor, Nat.testBit_and]
  cases x.testBit i <;> cases m.testBit i <;> rfl

theorem bit_clear_and (x m : Nat) : bit_clear x m &&& m = 0 := by
  apply Nat.eq_of_testBit_eq
  intro i
  simp only [Nat.testBit_and, bit_clear_testBit, Nat.zero_testBit]
  cases x.testBit i <;> cases m.testBit i <;> rfl

theorem pack_reply_nak (D : Defs) (ack : Nat) (data buf : Nat → Nat)
    (hack : ack = D.ACK_MSG ∨ ack = D.NAK_MSG) :
    (List.range (pack_tx_packet D
        { command := D.NAK_MSG, ack := ack, data_size := 0, data := data } buf).2).map
      (pack_tx_packet D { command := D.NAK_MSG, ack := ack, data_size := 0, data := data } buf).1
    = [D.STX, ack, D.ETX] := by
  have hc2 : (ack = D.NAK_MSG ∨ ack = D.ACK_MSG) := hack.symm
  simp [pack_tx_packet, hc2, TxBuf.put, u16, List.range_succ, Function.update_apply]

theorem dispatch_burn_spec (D : Defs) (hD : D.WF) (lrx : TPacket_Data) (s : State)
    (hack : lrx.ack = D.NEW_CMD) (hcmd : lrx.command = D.CMD_BURN) :
    ∃ t, dispatch D 0 lrx s = some t
      ∧ tx_frames t.trace = tx_frames s.trace ++ [[D.STX, D.ACK_MSG, D.CMD_BURN, D.ETX]]
      ∧ t.ses = { s.ses with burn_ready := D.TRUE, pixel_request_time := UINT32_MAX,
                             first_pixel := if s.ses.first_pixel = D.TRUE then D.FALSE
                                            else s.ses.first_pixel } := by
  obtain ⟨k1, k2, _, _⟩ := send_ack_spec D D.CMD_BURN D.ACK_MSG s (Or.inl rfl)
    hD.burn_ne_nak
  have hfp : (send_ack D D.CMD_BURN D.ACK_MSG s).ses.first_pixel = s.ses.first_pixel := by
    rw [k2]
  simp only [dispatch, hack, hcmd, if_true]
  by_cases hf : s.ses.first_pixel = D.TRUE
  · simp only [hfp, hf, if_true]
    refine ⟨_, rfl, ?_, ?_⟩
    · simp only [enable_laser, delay_ms, State.log, k1, tx_frames_append]
      simp [tx_frames]
    · simp only [enable_laser, delay_ms, State.log, k2]
  · simp only [hfp, hf, if_false]
    refine ⟨_, rfl, ?_, ?_⟩
    · simp only [k1, tx_frames_append]
      simp [tx_frames]
    · simp only [k2]

theorem wait_lid_in_spec (D : Defs) (b : Bool) : ∀ (L : List Nat) (s : State),
    ∃ seen, L = seen ++ (wait_lid_in D b L s).2.env.lid_in
      ∧ (wait_lid_in D b L s).2.trace = s.trace ++ seen.map Event.lid_read
      ∧ (wait_lid_in D b L s).2.uart = s.uart ∧ (wait_lid_in D b L s).2.ses = s.ses
      ∧ (wait_lid_in D b L s).2.laser = s.laser
      ∧ (wait_lid_in D b L s).2.env
          = { s.env with lid_in := (wait_lid_in D b L s).2.env.lid_in }
      ∧ (wait_lid_in D b L s).1 = (wait_lid D b L).isSome
      ∧ ((wait_lid_in D b L s).1 = false → (wait_lid_in D b L s).2.env.lid_in = [])
      ∧ ((wait_lid_in D b L s).1 = true
          → wait_lid D b L = some (wait_lid_in D b L s).2.env.lid_in) := by
  intro L
  induction L with
  | nil =>
    intro s
    exact ⟨[], rfl, (List.append_nil _).symm, rfl, rfl, rfl, rfl, rfl, fun _ => rfl,
      fun h => (by cases h)⟩
  | cons a L ih =>
    intro s
    by_cases ha : decide (a &&& D.LID_OPEN ≠ 0) = b
    · have e : wait_lid_in D b (a :: L) s
          = (true, { s with env := { s.env with lid_in := L },
                            trace := s.trace ++ [Event.lid_read a] }) := by
        simp only [wait_lid_in, ha, if_true]
      have e2 : wait_lid D b (a :: L) = some L := by
        simp only [wait_lid, ha, if_true]
      rw [e, e2]
      exact ⟨[a], rfl, rfl, rfl, rfl, rfl, rfl, rfl, fun h => (by cases h), fun _ => rfl⟩
    · have e : wait_lid_in D b (a :: L) s
          = wait_lid_in D b L { s with env := { s.env with lid_in := L },
                                       trace := s.trace ++ [Event.lid_read a] } := by
        simp only [wait_lid_in, ha, if_false]
      have e2 : wait_lid D b (a :: L) = wait_lid D b L := by
        simp only [wait_lid, ha, if_false]
      obtain ⟨seen, h1, h2, h3, h4, h5, h6, h7, h8, h9⟩ := ih
        { s with env := { s.env with lid_in := L }, trace := s.trace ++ [Event.lid_read a] }
      rw [e, e2]
      refine ⟨a :: seen, ?_, ?_, h3, h4, h5, ?_, h7, h8, h9⟩
      · rw [List.cons_append, ← h1]
      · rw [h2]
        simp only [List.map_cons, List.append_assoc, List.singleton_append]
      · rw [h6]

theorem start_waits_spec (D : Defs) (s : State) :
    ∃ seen, s.env.lid_in = seen ++ (start_waits D s).2.env.lid_in
      ∧ (start_waits D s).2.trace = s.trace ++ seen.map Event.lid_read
      ∧ (start_waits D s).2.uart = s.uart ∧ (start_waits D s).2.laser = s.laser
      ∧ (start_waits D s).2.ses
          = { s.ses with door_opened := (start_waits D s).2.ses.door_opened }
      ∧ (start_waits D s).2.env
          = { s.env with lid_in := (start_waits D s).2.env.lid_in }
      ∧ (start_waits D s).1 = (start_lid_wait D s.ses.door_opened s.env.lid_in).isSome
      ∧ ((start_waits D s).1 = false → (start_waits D s).2.env.lid_in = [])
      ∧ ((start_waits D s).1 = true →
          start_lid_wait D s.ses.door_opened s.env.lid_in
            = some (start_waits D s).2.env.lid_in
          ∧ (start_waits D s).2.ses.door_opened
            = if s.ses.door_opened = D.FALSE then D.TRUE else s.ses.door_opened) := by
  unfold start_waits start_lid_wait
  obtain ⟨seen1, a1, a2, a3, a4, a5, a6, a7, a8, a9⟩ :=
    wait_lid_in_spec D true s.env.lid_in s
  generalize wait_lid_in D true s.env.lid_in s = w1 at *
  dsimp only
  by_cases c1 : w1.1 = true
  · have g1 := a9 c1
    rw [if_pos c1, g1, Option.some_bind]
    have hdo : w1.2.ses.door_opened = s.ses.door_opened := by rw [a4]
    rw [hdo]
    by_cases hd : s.ses.door_opened = D.FALSE
    · rw [if_pos hd, if_pos hd]
      obtain ⟨seen2, b1, b2, b3, b4, b5, b6, b7, b8, b9⟩ :=
        wait_lid_in_spec D false w1.2.env.lid_in w1.2
      generalize wait_lid_in D false w1.2.env.lid_in w1.2 = w2 at *
      by_cases c2 : w2.1 = true
      · have g2 := b9 c2
        rw [if_pos c2, g2, Option.some_bind]
        obtain ⟨seen3, d1, d2, d3, d4, d5, d6, d7, d8, d9⟩ :=
          wait_lid_in_spec D true w2.2.env.lid_in
            { w2.2 with ses := { w2.2.ses with door_opened := D.TRUE } }
        dsimp only at d1 d2 d3 d4 d5 d6 d7 d8 d9
        generalize wait_lid_in D true w2.2.env.lid_in
            { uart := w2.2.uart,
              ses := { burn_ready := w2.2.ses.burn_ready, picture_ip := w2.2.ses.picture_ip,
                       pi_init := w2.2.ses.pi_init, first_pixel := w2.2.ses.first_pixel,
                       door_opened := D.TRUE, last_rx_time := w2.2.ses.last_rx_time,
                       pixel_request_time := w2.2.ses.pixel_request_time },
              laser := w2.2.laser, env := w2.2.env, trace := w2.2.trace } = w3 at *
        refine ⟨seen1 ++ seen2 ++ seen3, ?_, ?_, ?_, ?_, ?_, ?_, ?_, d8, ?_⟩
        · rw [a1, b1, d1]
          simp only [List.append_assoc]
        · rw [d2, b2, a2]
          simp only [List.map_append, List.append_assoc]
        · rw [d3, b3, a3]
        · rw [d5, b5, a5]
        · rw [d4, b4, a4]
        · rw [d6, b6, a6]
        · rw [d7]
        · intro c3
          refine ⟨d9 c3, ?_⟩
          rw [d4, if_pos hd]
      · have c2 : w2.1 = false := by simpa using c2
        have g2 : wait_lid D false w1.2.env.lid_in = none := by
          rw [c2] at b7
          cases hw : wait_lid D false w1.2.env.lid_in with
          | none => rfl
          | some x => rw [hw] at b7; cases b7
        rw [c2, g2]
        simp only [Bool.false_eq_true, if_false, Option.none_bind, Option.isSome_none]
        refine ⟨seen1 ++ seen2, ?_, ?_, ?_, ?_, ?_, ?_, c2, fun _ => b8 c2,
          fun h => absurd (c2.symm.trans h) (by decide)⟩
        · rw [a1, b1]
          simp only [List.append_assoc]
        · rw [b2, a2]
          simp only [List.map_append, List.append_assoc]
        · rw [b3, a3]
        · rw [b5, a5]
        · rw [b4, a4]
        · rw [b6, a6]
    · rw [if_neg hd, if_neg hd]
      refine ⟨seen1, a1, a2, a3, a5, ?_, a6, c1, fun h => absurd (c1.symm.trans h) (by decide),
        fun _ => ⟨rfl, by rw [if_neg hd]; exact hdo⟩⟩
      rw [a4]
  · have c1 : w1.1 = false := by simpa using c1
    have g1 : wait_lid D true s.env.lid_in = none := by
      rw [c1] at a7
      cases hw : wait_lid D true s.env.lid_in with
      | none => rfl
      | some x => rw [hw] at a7; cases a7
    rw [c1, g1]
    simp only [Bool.false_eq_true, if_false, Option.none_bind, Option.isSome_none]
    refine ⟨seen1, a1, a2, a3, a5, ?_, a6, c1, fun _ => a8 c1,
      fun h => absurd (c1.symm.trans h) (by decide)⟩
    rw [a4]


theorem start_cmd_spec (D : Defs) (command : Nat) (s : State) :
    (start_cmd D command s).1 = (start_waits D s).1
    ∧ ((start_waits D s).1 = false → (start_cmd D command s).2 = (start_waits D s).2)
    ∧ ((start_waits D s).1 = true →
        (start_cmd D command s).2
          = ({ send_ack D command D.ACK_MSG (start_waits D s).2 with
               ses := { (send_ack D command D.ACK_MSG (start_waits D s).2).ses with
                        picture_ip := D.TRUE, burn_ready := D.FALSE,
                        first_pixel := D.TRUE } }).log Event.homeLaser) := by
  unfold start_cmd
  dsimp only
  by_cases h : (start_waits D s).1 = true
  · rw [if_pos h]
    exact ⟨h.symm, fun h2 => absurd (h.symm.trans h2) (by decide), fun _ => rfl⟩
  · rw [if_neg h]
    exact ⟨rfl, fun _ => rfl, fun h2 => absurd h2 h⟩

theorem dispatch_start_spec (D : Defs) (hD : D.WF) (lrx : TPacket_Data) (s : State)
    (hack : lrx.ack = D.NEW_CMD) (hcmd : lrx.command = D.CMD_START) :
    (start_lid_wait D s.ses.door_opened s.env.lid_in = none → dispatch D 0 lrx s = none)
    ∧ ∀ l, start_lid_wait D s.ses.door_opened s.env.lid_in = some l →
      ∃ t, dispatch D 0 lrx s = some t
        ∧ (∃ seen, s.env.lid_in = seen ++ l
            ∧ t.trace = s.trace ++ seen.map Event.lid_read
                ++ [Event.putp [D.STX, D.ACK_MSG, D.CMD_START, D.ETX], Event.homeLaser])
        ∧ t.ses = { s.ses with door_opened := if s.ses.door_opened = D.FALSE then D.TRUE
                                              else s.ses.door_opened,
                               picture_ip := D.TRUE, burn_ready := D.FALSE,
                               first_pixel := D.TRUE }
        ∧ t.laser = s.laser ∧ t.env = { s.env with lid_in := l } := by
  have hne : D.CMD_START ≠ D.CMD_BURN := fun h => hD.burn_ne_start h.symm
  have hdis : dispatch D 0 lrx s
      = if (start_cmd D D.CMD_START s).1 then some (start_cmd D D.CMD_START s).2 else none := by
    simp only [dispatch, hack, hcmd, hne, if_true, if_false]
  obtain ⟨c1, c2, c3⟩ := start_cmd_spec D D.CMD_START s
  obtain ⟨seen, a1, a2, a3, a4, a5, a6, a7, a8, a9⟩ := start_waits_spec D s
  rw [hdis, c1, a7]
  refine ⟨fun h => by rw [h]; rfl, fun l hl => ?_⟩
  have hw : (start_waits D s).1 = true := by rw [a7, hl]; rfl
  obtain ⟨b1, b2⟩ := a9 hw
  have el : (start_waits D s).2.env.lid_in = l := by
    rw [hl] at b1
    exact (Option.some.inj b1).symm
  obtain ⟨k1, k2, k3, k4⟩ := send_ack_spec D D.CMD_START D.ACK_MSG (start_waits D s).2
    (Or.inl rfl) hD.start_ne_nak
  rw [hl]
  refine ⟨_, rfl, ⟨seen, by rw [← el]; exact a1, ?_⟩, ?_, ?_, ?_⟩
  · rw [c3 hw]
    simp only [State.log]
    rw [k1, a2]
    simp only [List.append_assoc, List.singleton_append]
  · rw [c3 hw]
    simp only [State.log]
    rw [k2, a5, b2]
  · rw [c3 hw]
    simp only [State.log]
    rw [k3, a4]
  · rw [c3 hw]
    simp only [State.log]
    rw [k4, a6, el]

theorem dispatch_end_spec (D : Defs) (hD : D.WF) (lrx : TPacket_Data) (s : State)
    (hack : lrx.ack = D.NEW_CMD) (hcmd : lrx.command = D.CMD_END) :
    ∃ t, dispatch D 0 lrx s = some t
      ∧ t.trace = s.trace ++ [Event.putp [D.STX, D.ACK_MSG, D.CMD_END, D.ETX],
                              Event.disable_laser, Event.homeLaser]
      ∧ t.ses = { s.ses with picture_ip := D.FALSE, door_opened := D.FALSE }
      ∧ t.laser = { s.laser with P1OUT := s.laser.P1OUT ||| D.LASER_ENA_PIN,
                                 P7OUT := bit_clear s.laser.P7OUT D.FAN_ENA_PIN }
      ∧ t.env = s.env := by
  have hne1 : D.CMD_END ≠ D.CMD_BURN := fun h => hD.burn_ne_end h.symm
  have hne2 : D.CMD_END ≠ D.CMD_START := fun h => hD.start_ne_end h.symm
  obtain ⟨k1, k2, k3, k4⟩ := send_ack_spec D D.CMD_END D.ACK_MSG s (Or.inl rfl)
    hD.end_ne_nak
  simp only [dispatch, hack, hcmd, hne1, hne2, if_true, if_false]
  refine ⟨_, rfl, ?_, ?_, ?_, ?_⟩
  · simp only [State.log, disable_laser, k1, List.append_assoc, List.singleton_append,
      List.cons_append, List.nil_append]
  · simp only [State.log, disable_laser, k2]
  · simp only [State.log, disable_laser, disable_fan, k3]
  · simp only [State.log, disable_laser, k4]

theorem dispatch_init_spec (D : Defs) (hD : D.WF) (lrx : TPacket_Data) (s : State)
    (hack : lrx.ack = D.NEW_CMD) (hcmd : lrx.command = D.CMD_INIT) :
    ∃ t, dispatch D 0 lrx s = some t
      ∧ t.trace = s.trace ++ [Event.disable_laser, Event.homeLaser,
                              Event.putp [D.STX, D.ACK_MSG, D.CMD_INIT, D.ETX]]
      ∧ t.ses = { s.ses with pi_init := D.JUST_INITIALIZED }
      ∧ t.laser = { s.laser with P1OUT := s.laser.P1OUT ||| D.LASER_ENA_PIN,
                                 P7OUT := bit_clear s.laser.P7OUT D.FAN_ENA_PIN }
      ∧ t.env = s.env := by
  have hne1 : D.CMD_INIT ≠ D.CMD_BURN := fun h => hD.burn_ne_init h.symm
  have hne2 : D.CMD_INIT ≠ D.CMD_START := fun h => hD.start_ne_init h.symm
  have hne3 : D.CMD_INIT ≠ D.CMD_END := fun h => hD.end_ne_init h.symm
  obtain ⟨k1, k2, k3, k4⟩ := send_ack_spec D D.CMD_INIT D.ACK_MSG
    ((disable_laser D s).log Event.homeLaser) (Or.inl rfl) hD.init_ne_nak
  simp only [dispatch, hack, hcmd, hne1, hne2, hne3, if_true, if_false]
  refine ⟨_, rfl, ?_, ?_, ?_, ?_⟩
  · rw [k1]
    simp only [State.log, disable_laser, List.append_assoc, List.singleton_append,
      List.cons_append, List.nil_append]
  · rw [k2]
    simp only [State.log, disable_laser]
  · rw [k3]
    simp only [State.log, disable_laser, disable_fan]
  · rw [k4]
    simp only [State.log, disable_laser]

/-- C19: after `check_and_respond_to_msg` has handled a frame decoded as a
NewCommand (for Start: once the waits on the lid have ended), Start leaves
`picture_ip = TRUE`, `burn_ready = FALSE`, `first_pixel = TRUE`; Burn leaves
`burn_ready = TRUE`, `pixel_request_time = UINT32_MAX`, `first_pixel = FALSE`
(`first_pixel` being `TRUE` or `FALSE` on entry); End leaves
`picture_ip = FALSE`, `door_opened = FALSE`, the laser-enable pin high
(disabled) and the fan off; Init leaves `pi_init = JUST_INITIALIZED`, the
laser-enable pin high, the fan off, and has called `disable_laser` and
`homeLaser`, whatever `pi_init` was. -/
theorem session_transition_table (D : Defs) (hD : D.WF) (rx_data : Option TPacket_Data)
    (s : State) (c : Nat)
    (hrecv : (received D s).map (fun r => (r.1, r.2.1.ack, r.2.1.command))
        = some (0, D.NEW_CMD, c))
    (hc : c = D.CMD_BURN ∨ c = D.CMD_START ∨ c = D.CMD_END ∨ c = D.CMD_INIT)
    (hlid : c = D.CMD_START →
        (start_lid_wait D s.ses.door_opened s.env.lid_in).isSome = true)
    (hfp : s.ses.first_pixel = D.TRUE ∨ s.ses.first_pixel = D.FALSE) :
    ∃ t lrx, check_and_respond_to_msg D rx_data s = some (rx_data.map (fun _ => lrx), t)
      ∧ (c = D.CMD_START → t.ses.picture_ip = D.TRUE ∧ t.ses.burn_ready = D.FALSE
            ∧ t.ses.first_pixel = D.TRUE)
      ∧ (c = D.CMD_BURN → t.ses.burn_ready = D.TRUE
            ∧ t.ses.pixel_request_time = UINT32_MAX ∧ t.ses.first_pixel = D.FALSE)
      ∧ (c = D.CMD_END → t.ses.picture_ip = D.FALSE ∧ t.ses.door_opened = D.FALSE
            ∧ t.laser.P1OUT &&& D.LASER_ENA_PIN = D.LASER_ENA_PIN
            ∧ t.laser.P7OUT &&& D.FAN_ENA_PIN = 0)
      ∧ (c = D.CMD_INIT → t.ses.pi_init = D.JUST_INITIALIZED
            ∧ t.laser.P1OUT &&& D.LASER_ENA_PIN = D.LASER_ENA_PIN
            ∧ t.laser.P7OUT &&& D.FAN_ENA_PIN = 0
            ∧ t.trace = s.trace ++ [Event.disable_laser, Event.homeLaser,
                Event.putp [D.STX, D.ACK_MSG, D.CMD_INIT, D.ETX]]) := by
  simp only [Option.map_eq_some', Prod.mk.injEq] at hrecv
  obtain ⟨r, hr, hret, hack, hcmd⟩ := hrecv
  obtain ⟨htr, _, _, _, _, hfirst, hdo, _, hlin, _⟩ := received_keeps D s r hr
  rw [check_of_received D rx_data s r hr, hret]
  rcases hc with hc | hc | hc | hc
  · subst hc
    obtain ⟨t, ht, _, k2⟩ := dispatch_burn_spec D hD r.2.1 r.2.2 hack hcmd
    refine ⟨t, r.2.1, by rw [ht]; rfl, fun h => absurd h hD.burn_ne_start, fun _ => ?_,
      fun h => absurd h hD.burn_ne_end, fun h => absurd h hD.burn_ne_init⟩
    rw [k2, hfirst]
    refine ⟨rfl, rfl, ?_⟩
    rcases hfp with h | h
    · simp only [h, if_true]
    · simp only [h, hD.true_ne_false.symm, if_false]
  · subst hc
    have hl := hlid rfl
    rw [← hdo, ← hlin] at hl
    obtain ⟨l, hl⟩ := Option.isSome_iff_exists.mp hl
    obtain ⟨t, ht, _, k2, _⟩ := (dispatch_start_spec D hD r.2.1 r.2.2 hack hcmd).2 l hl
    refine ⟨t, r.2.1, by rw [ht]; rfl, fun _ => ?_, fun h => absurd h.symm hD.burn_ne_start,
      fun h => absurd h hD.start_ne_end, fun h => absurd h hD.start_ne_init⟩
    rw [k2]
    exact ⟨rfl, rfl, rfl⟩
  · subst hc
    obtain ⟨t, ht, _, k2, k3, _⟩ := dispatch_end_spec D hD r.2.1 r.2.2 hack hcmd
    refine ⟨t, r.2.1, by rw [ht]; rfl, fun h => absurd h.symm hD.start_ne_end,
      fun h => absurd h.symm hD.burn_ne_end, fun _ => ?_, fun h => absurd h hD.end_ne_init⟩
    rw [k2, k3]
    exact ⟨rfl, rfl, or_and_mask _ _, bit_clear_and _ _⟩
  · subst hc
    obtain ⟨t, ht, k1, k2, k3, _⟩ := dispatch_init_spec D hD r.2.1 r.2.2 hack hcmd
    refine ⟨t, r.2.1, by rw [ht]; rfl, fun h => absurd h.symm hD.start_ne_init,
      fun h => absurd h.symm hD.burn_ne_init, fun h => absurd h.symm hD.end_ne_init,
      fun _ => ?_⟩
    rw [k1, k2, k3, htr]
    exact ⟨rfl, or_and_mask _ _, bit_clear_and _ _, rfl⟩

/-- C19 on an idle device that receives the Init frame `STX, CMD_INIT, ETX`. -/
theorem session_transition_table_witness :
    ∃ t, check_and_respond_to_msg sampleDefs none (arrival [2, 73, 3] []) = some (none, t)
      ∧ t.ses.pi_init = 2 ∧ t.laser.P1OUT &&& 4 = 4 ∧ t.laser.P7OUT &&& 1 = 0 := by
  obtain ⟨t, _, h1, _, _, _, h2⟩ :=
    session_transition_table sampleDefs sampleDefs_WF none (arrival [2, 73, 3] [])
      73 (by decide) (by decide) (fun h => absurd h (by decide)) (by decide)
  obtain ⟨h3, h4, h5, _⟩ := h2 rfl
  exact ⟨t, h1, h3, h4, h5⟩

/-! ### Start and the lid interlock -/

theorem or_mask_idem (x m : Nat) : (x ||| m) ||| m = x ||| m := by
  apply Nat.eq_of_testBit_eq
  intro i
  simp only [Nat.testBit_or]
  cases x.testBit i <;> cases m.testBit i <;> rfl

theorem bit_clear_idem (x m : Nat) : bit_clear (bit_clear x m) m = bit_clear x m := by
  apply Nat.eq_of_testBit_eq
  intro i
  simp only [bit_clear_testBit]
  cases x.testBit i <;> cases m.testBit i <;> rfl

theorem bit_clear3_and (x a b c : Nat) :
    bit_clear (bit_clear (bit_clear x a) b) c &&& a = 0
    ∧ bit_clear (bit_clear (bit_clear x a) b) c &&& b = 0
    ∧ bit_clear (bit_clear (bit_clear x a) b) c &&& c = 0 := by
  refine ⟨?_, ?_, ?_⟩ <;>
  · apply Nat.eq_of_testBit_eq
    intro i
    simp only [Nat.testBit_and, bit_clear_testBit, Nat.zero_testBit]
    cases x.testBit i <;> cases a.testBit i <;> cases b.testBit i <;> cases c.testBit i <;> rfl

theorem bit_clear3_idem (x a b c : Nat) :
    bit_clear (bit_clear (bit_clear (bit_clear (bit_clear (bit_clear x a) b) c) a) b) c
      = bit_clear (bit_clear (bit_clear x a) b) c := by
  apply Nat.eq_of_testBit_eq
  intro i
  simp only [bit_clear_testBit]
  cases x.testBit i <;> cases a.testBit i <;> cases b.testBit i <;> cases c.testBit i <;> rfl

/-- C16: for every state `s`, after `halt_burn` the laser-enable pin is high
(the laser is disabled), the fan pin is low, `TA0CCR1` is 0, the three
output-mode bits of `TA0CCTL1` are clear, `laser_on` and `picture_ip` are
`FALSE`, the other session flags, the byte transport and the clock are
unchanged, and a second `halt_burn` changes no variable or register of the
device: it only records its calls once more. -/
theorem halt_burn_postcondition (D : Defs) (s : State) :
    (halt_burn D s).laser.P1OUT &&& D.LASER_ENA_PIN = D.LASER_ENA_PIN
    ∧ (halt_burn D s).laser.P7OUT &&& D.FAN_ENA_PIN = 0
    ∧ (halt_burn D s).laser.TA0CCR1 = 0
    ∧ (halt_burn D s).laser.TA0CCTL1 &&& D.OUTMOD2 = 0
    ∧ (halt_burn D s).laser.TA0CCTL1 &&& D.OUTMOD1 = 0
    ∧ (halt_burn D s).laser.TA0CCTL1 &&& D.OUTMOD0 = 0
    ∧ (halt_burn D s).laser.laser_on = D.FALSE
    ∧ (halt_burn D s).ses = { s.ses with picture_ip := D.FALSE }
    ∧ (halt_burn D s).uart = s.uart ∧ (halt_burn D s).env = s.env
    ∧ { halt_burn D (halt_burn D s) with trace := (halt_burn D s).trace } = halt_burn D s
    ∧ (halt_burn D (halt_burn D s)).trace = (halt_burn D s).trace ++ halt_events := by
  obtain ⟨h1, h2, h3⟩ := bit_clear3_and s.laser.TA0CCTL1 D.OUTMOD2 D.OUTMOD1 D.OUTMOD0
  refine ⟨or_and_mask _ _, bit_clear_and _ _, rfl, h1, h2, h3, rfl, rfl, rfl, rfl, ?_, ?_⟩
  · simp only [halt_burn, disable_laser, turn_off_laser, disable_fan, State.log,
      or_mask_idem, bit_clear_idem, bit_clear3_idem]
  · simp only [halt_burn, disable_laser, turn_off_laser, State.log, halt_events,
      List.append_assoc, List.singleton_append, List.cons_append, List.nil_append]

/-! ### The receive handler -/

theorem isr_stx (D : Defs) (c : Nat) (u : Uart) (h1 : c = D.STX ∧ u.packet_ip = 0) :
    USCI0RXTX_ISR_rx D c u = some { rx_store D c u with packet_ip := 1 } :=
  if_pos h1

theorem isr_other (D : Defs) (c : Nat) (u : Uart) (h1 : ¬ (c = D.STX ∧ u.packet_ip = 0))
    (h2 : ¬ (c = D.ETX ∧ u.packet_ip = 1)) :
    USCI0RXTX_ISR_rx D c u = some (rx_store D c u) :=
  (if_neg h1).trans (if_neg h2)

theorem isr_etx (D : Defs) (c : Nat) (u : Uart) (h1 : ¬ (c = D.STX ∧ u.packet_ip = 0))
    (h2 : c = D.ETX ∧ u.packet_ip = 1) :
    USCI0RXTX_ISR_rx D c u =
      (isr_esc_scan D (rx_store D c u).rx_fifo (rx_store D c u).rx_fifo_ptB 65536 0).bind
        fun esc_count =>
          if esc_count % 2 = 0 then
            some { rx_store D c u with packet_ip := 0, packet_ready := 1 }
          else some (rx_store D c u) := by
  refine ((if_neg h1).trans (if_pos h2)).trans ?_
  generalize hsc : isr_esc_scan D _ _ 65536 0 = sc
  have hsc2 : isr_esc_scan D (rx_store D c u).rx_fifo (rx_store D c u).rx_fifo_ptB 65536 0
      = sc := hsc
  rw [hsc2]
  cases sc <;> rfl

theorem isr_cases (D : Defs) (c : Nat) (u v : Uart) (h : USCI0RXTX_ISR_rx D c u = some v) :
    v = { rx_store D c u with packet_ip := 1 }
    ∨ v = { rx_store D c u with packet_ip := 0, packet_ready := 1 }
    ∨ v = rx_store D c u := by
  by_cases h1 : c = D.STX ∧ u.packet_ip = 0
  · rw [isr_stx D c u h1] at h
    exact Or.inl (Option.some.inj h).symm
  · by_cases h2 : c = D.ETX ∧ u.packet_ip = 1
    · rw [isr_etx D c u h1 h2] at h
      cases hsc : isr_esc_scan D (rx_store D c u).rx_fifo (rx_store D c u).rx_fifo_ptB
          65536 0 with
      | none => rw [hsc] at h; cases h
      | some e =>
        rw [hsc, Option.some_bind] at h
        split at h
        · exact Or.inr (Or.inl (Option.some.inj h).symm)
        · exact Or.inr (Or.inr (Option.some.inj h).symm)
    · rw [isr_other D c u h1 h2] at h
      exact Or.inr (Or.inr (Option.some.inj h).symm)

theorem isr_returns (D : Defs) (c : Nat) (u : Uart) (hc : c ≠ D.ETX ∨ u.packet_ip ≠ 1) :
    (USCI0RXTX_ISR_rx D c u).isSome = true := by
  have h2 : ¬ (c = D.ETX ∧ u.packet_ip = 1) := by
    intro h
    rcases hc with hc | hc
    · exact hc h.1
    · exact hc h.2
  by_cases h1 : c = D.STX ∧ u.packet_ip = 0
  · rw [isr_stx D c u h1]
    rfl
  · rw [isr_other D c u h1 h2]
    rfl

set_option maxRecDepth 100000 in
/-- C17 (as stated, refuted): in `ringFull` the ring holds 64 unread bytes,
`rx_fifo_ptA = rx_fifo_ptB = 0` and `rx_fifo_full = 1`; the handler run for
the further byte `0x42` stores it at index 0 over the oldest unread byte
`0x41`, moves `rx_fifo_ptB` to 1 and clears `rx_fifo_full`. -/
theorem full_ring_overwritten :
    (ringFull.uart.rx_fifo_ptA, ringFull.uart.rx_fifo_ptB, ringFull.uart.rx_fifo_full,
      ringFull.uart.rx_fifo 0) = (0, 0, 1, 65)
    ∧ (USCI0RXTX_ISR_rx sampleDefs 66 ringFull.uart).map
        (fun u => (u.rx_fifo_ptA, u.rx_fifo_ptB, u.rx_fifo_full, u.rx_fifo 0))
      = some (0, 1, 0, 66) := by
  refine ⟨by decide, by decide⟩

/-- C17 (amended): for every state in which the receive ring is full
(`rx_fifo_ptA = rx_fifo_ptB` and `rx_fifo_full = 1`), the handler run for a
further byte `c` stores `c` at the write index, over the oldest unread byte,
leaves the other cells unchanged, advances the write index with roll-over and
clears `rx_fifo_full`; it returns for every byte other than `ETX`. -/
theorem full_ring_byte_stored (D : Defs) (c : Nat) (u : Uart)
    (hsize : 1 < D.FIFO_SIZE) (hsz : D.FIFO_SIZE ≤ 65536) (hB : u.rx_fifo_ptB < D.FIFO_SIZE)
    (hfull : u.rx_fifo_ptA = u.rx_fifo_ptB ∧ u.rx_fifo_full = 1) :
    (c ≠ D.ETX → (USCI0RXTX_ISR_rx D c u).isSome = true)
    ∧ ∀ v, USCI0RXTX_ISR_rx D c u = some v →
        v.rx_fifo u.rx_fifo_ptA = c
        ∧ (∀ i, i ≠ u.rx_fifo_ptA → v.rx_fifo i = u.rx_fifo i)
        ∧ v.rx_fifo_ptB = (if u.rx_fifo_ptB + 1 = D.FIFO_SIZE then 0 else u.rx_fifo_ptB + 1)
        ∧ v.rx_fifo_ptA = u.rx_fifo_ptA
        ∧ v.rx_fifo_full = 0 := by
  obtain ⟨hA, _⟩ := hfull
  have hnext : (if u16 (u.rx_fifo_ptB + 1) = D.FIFO_SIZE then 0 else u16 (u.rx_fifo_ptB + 1))
      = (if u.rx_fifo_ptB + 1 = D.FIFO_SIZE then 0 else u.rx_fifo_ptB + 1) := by
    by_cases h : u.rx_fifo_ptB + 1 = D.FIFO_SIZE
    · rw [if_pos h]
      by_cases h2 : u16 (u.rx_fifo_ptB + 1) = D.FIFO_SIZE
      · rw [if_pos h2]
      · rw [if_neg h2]
        simp only [u16] at h2 ⊢
        omega
    · rw [if_neg h]
      have e : u16 (u.rx_fifo_ptB + 1) = u.rx_fifo_ptB + 1 := by
        simp only [u16]
        omega
      rw [e, if_neg h]
  have hne : u.rx_fifo_ptA
      ≠ (if u.rx_fifo_ptB + 1 = D.FIFO_SIZE then 0 else u.rx_fifo_ptB + 1) := by
    rw [hA]
    split <;> omega
  have key : ∀ v, USCI0RXTX_ISR_rx D c u = some v →
      v.rx_fifo = Function.update u.rx_fifo u.rx_fifo_ptB c
      ∧ v.rx_fifo_ptB = (if u.rx_fifo_ptB + 1 = D.FIFO_SIZE then 0 else u.rx_fifo_ptB + 1)
      ∧ v.rx_fifo_ptA = u.rx_fifo_ptA
      ∧ v.rx_fifo_full = 0 := by
    intro v hv
    have hs : (rx_store D c u).rx_fifo = Function.update u.rx_fifo u.rx_fifo_ptB c
        ∧ (rx_store D c u).rx_fifo_ptB
            = (if u.rx_fifo_ptB + 1 = D.FIFO_SIZE then 0 else u.rx_fifo_ptB + 1)
        ∧ (rx_store D c u).rx_fifo_ptA = u.rx_fifo_ptA
        ∧ (rx_store D c u).rx_fifo_full = 0 := by
      refine ⟨rfl, hnext, rfl, ?_⟩
      show (if u.rx_fifo_ptA
          = (if u16 (u.rx_fifo_ptB + 1) = D.FIFO_SIZE then 0 else u16 (u.rx_fifo_ptB + 1))
        then 1 else 0) = 0
      rw [hnext, if_neg hne]
    rcases isr_cases D c u v hv with h | h | h <;> (rw [h]; exact hs)
  constructor
  · intro hc
    exact isr_returns D c u (Or.inl hc)
  · intro v hv
    obtain ⟨k1, k2, k3, k4⟩ := key v hv
    refine ⟨?_, ?_, k2, k3, k4⟩
    · rw [k1, hA]
      exact Function.update_same _ _ _
    · intro i hi
      rw [k1, ← hA]
      exact Function.update_noteq hi _ _

set_option maxRecDepth 100000 in
/-- C17 (amended) on the full ring of `ringFull` and the byte `0x42`. -/
theorem full_ring_byte_stored_witness :
    ∃ v, USCI0RXTX_ISR_rx sampleDefs 66 ringFull.uart = some v
      ∧ v.rx_fifo 0 = 66 ∧ v.rx_fifo_ptB = 1 ∧ v.rx_fifo_full = 0 := by
  have h := full_ring_byte_stored sampleDefs 66 ringFull.uart (by decide) (by decide)
    (by decide) (by decide)
  obtain ⟨v, hv⟩ := Option.isSome_iff_exists.mp (h.1 (by decide))
  obtain ⟨h1, _, h3, _, h5⟩ := h.2 v hv
  exact ⟨v, hv, h1, h3, h5⟩

/-! ### The frame-ready flag -/

theorem isr_keeps_ready (D : Defs) (c : Nat) (u v : Uart)
    (h : USCI0RXTX_ISR_rx D c u = some v) (hr : u.packet_ready = 1) : v.packet_ready = 1 := by
  rcases isr_cases D c u v h with h | h | h
  · rw [h]
    exact hr
  · rw [h]
  · rw [h]
    exact hr

theorem receive_one_keeps_ready (D : Defs) (c : Nat) (w : List Nat) (s t : State)
    (h : receive_one D c w s = some t) (hr : s.uart.packet_ready = 1) :
    t.uart.packet_ready = 1 := by
  unfold receive_one at h
  cases hu : USCI0RXTX_ISR_rx D c s.uart with
  | none => rw [hu] at h; cases h
  | some u =>
    rw [hu] at h
    simp only [Option.map_some', Option.some.injEq] at h
    subst h
    exact isr_keeps_ready D c s.uart u hu hr

theorem uart_getc_keeps_ready (D : Defs) (s t : State) (c : Nat)
    (h : uart_getc D s = some (c, t)) (hr : s.uart.packet_ready = 1) :
    t.uart.packet_ready = 1 := by
  unfold uart_getc at h
  by_cases hf : s.uart.rx_flag = 0
  · cases hw : s.env.rx_wire with
    | nil => simp [hf, hw] at h
    | cons c0 w =>
      cases hr1 : receive_one D c0 w s with
      | none => simp [hf, hw, hr1] at h
      | some s2 =>
        simp only [hf, hw, hr1, if_true, Option.map_some', Option.some.injEq,
          Prod.mk.injEq] at h
        rw [← h.2]
        exact receive_one_keeps_ready D c0 w s s2 hr1 hr
  · simp only [hf, if_false, Option.map_some', Option.some.injEq, Prod.mk.injEq] at h
    rw [← h.2]
    exact hr

theorem uart_getp_loop_keeps_ready (D : Defs) (m : Nat) : ∀ (fuel i st : Nat) (p : Nat → Nat)
    (s : State) (r : Nat × (Nat → Nat) × State),
    uart_getp_loop D m fuel i st p s = some r → s.uart.packet_ready = 1 →
    r.2.2.uart.packet_ready = 1 := by
  intro fuel
  induction fuel with
  | zero => intro i st p s r h; cases h
  | succ f ih =>
    intro i st p s r h hr
    unfold uart_getp_loop at h
    by_cases hi : i < m
    · simp only [hi, if_true] at h
      cases hg : uart_getc D s with
      | none => rw [hg] at h; cases h
      | some cs =>
        obtain ⟨c, s2⟩ := cs
        have h2 := uart_getc_keeps_ready D s s2 c hg hr
        rw [hg] at h
        simp only at h
        rcases ite_some_or _ _ _ _ h with h | h
        · rw [← h]; exact h2
        · exact ih _ _ _ _ _ h h2
    · simp only [hi, if_false, Option.some.injEq] at h
      subst h
      exact hr

theorem uart_putc_fold_ready (D : Defs) (packet : Nat → Nat) (l : List Nat) : ∀ (u : Uart),
    (l.foldl (fun u i => uart_putc D (packet i) u) u).packet_ready = u.packet_ready := by
  induction l with
  | nil => intro u; rfl
  | cons a l ih =>
    intro u
    rw [List.foldl_cons, ih]
    rfl

theorem send_ack_ready (D : Defs) (command ack : Nat) (s : State) :
    (send_ack D command ack s).uart.packet_ready = s.uart.packet_ready := by
  simp only [send_ack, uart_putp]
  exact uart_putc_fold_ready D _ _ _

theorem dispatch_keeps_ready (D : Defs) (ret : Nat) (lrx : TPacket_Data) (s t : State)
    (h : dispatch D ret lrx s = some t) : t.uart.packet_ready = s.uart.packet_ready := by
  unfold dispatch at h
  by_cases h0 : ret = 0
  · rw [if_pos h0] at h
    by_cases h1 : lrx.ack = D.NEW_CMD
    · rw [if_pos h1] at h
      by_cases c1 : lrx.command = D.CMD_BURN
      · rw [if_pos c1] at h
        dsimp only at h
        split at h
        · cases h
          exact send_ack_ready D _ _ s
        · cases h
          exact send_ack_ready D _ _ s
      · rw [if_neg c1] at h
        by_cases c2 : lrx.command = D.CMD_START
        · rw [if_pos c2] at h
          dsimp only at h
          obtain ⟨e1, _, e3⟩ := start_cmd_spec D lrx.command s
          obtain ⟨_, _, _, a3, _⟩ := start_waits_spec D s
          by_cases hw : (start_cmd D lrx.command s).1 = true
          · rw [if_pos hw] at h
            cases h
            rw [e3 (e1.symm.trans hw)]
            show (send_ack D lrx.command D.ACK_MSG (start_waits D s).2).uart.packet_ready = _
            rw [send_ack_ready, a3]
          · rw [if_neg hw] at h
            cases h
        · rw [if_neg c2] at h
          by_cases c3 : lrx.command = D.CMD_END
          · rw [if_pos c3] at h
            cases h
            exact send_ack_ready D _ _ s
          · rw [if_neg c3] at h
            by_cases c4 : lrx.command = D.CMD_INIT
            · rw [if_pos c4] at h
              cases h
              exact send_ack_ready D _ _ _
            · rw [if_neg c4] at h
              cases h
              exact send_ack_ready D _ _ s
    · rw [if_neg h1] at h
      cases h
      rfl
  · rw [if_neg h0] at h
    cases h
    exact send_ack_ready D _ _ s

theorem packet_ready_sticky (D : Defs) (rx_data : Option TPacket_Data) (s : State)
    (q : Option TPacket_Data × State) (hr : s.uart.packet_ready = 1)
    (h : check_and_respond_to_msg D rx_data s = some q) : q.2.uart.packet_ready = 1 := by
  unfold check_and_respond_to_msg at h
  rw [if_pos hr] at h
  cases h1 : receive_packet D s with
  | none => rw [h1] at h; cases h
  | some r =>
    rw [h1, Option.some_bind] at h
    cases h2 : dispatch D r.1 r.2.1 r.2.2 with
    | none => rw [h2] at h; cases h
    | some t =>
      rw [h2, Option.some_bind] at h
      cases h
      rw [dispatch_keeps_ready D _ _ _ _ h2]
      unfold receive_packet at h1
      simp only [Option.map_eq_some'] at h1
      obtain ⟨g, hg, rfl⟩ := h1
      exact uart_getp_loop_keeps_ready D _ _ _ _ _ _ _ hg hr

/-- C20 (code evaluated at the failing input): a Burn frame has just arrived
on an idle device (`packet_ready = 1`). The call of `check_and_respond_to_msg`
reads the frame, answers it with the Ack and returns with `packet_ready` still
1 and the receive ring empty. A second call, with no new frame, does not take
the branch of the pixel-request timeout: it enters `uart_getp` and never
returns while the host stays silent. -/
theorem packet_ready_never_cleared :
    burnArrival.uart.packet_ready = 1
    ∧ (check_and_respond_to_msg sampleDefs none burnArrival).map
        (fun q => (q.2.uart.packet_ready, q.2.uart.rx_flag, q.2.env.rx_wire,
                   tx_frames q.2.trace))
      = some (1, 0, [], [[2, 6, 66, 3]])
    ∧ ((check_and_respond_to_msg sampleDefs none burnArrival).bind
        (fun q => check_and_respond_to_msg sampleDefs none q.2)).isSome = false := by
  refine ⟨by decide, by decide, by decide⟩

/-! ### The receive handler: counting the escapes before `ETX` -/

theorem isr_run_append (D : Defs) (l1 l2 : List Nat) : ∀ u,
    isr_run D (l1 ++ l2) u = (isr_run D l1 u).bind (isr_run D l2) := by
  induction l1 with
  | nil => intro u; rfl
  | cons c cs ih =>
    intro u
    show (USCI0RXTX_ISR_rx D c u).bind (isr_run D (cs ++ l2)) = _
    cases h : USCI0RXTX_ISR_rx D c u with
    | none => simp [isr_run, h]
    | some v => simp [isr_run, h, ih]

/-- The scan stops with the length of the run: the cells `n - 1 - j`, `j < k`,
hold `ESC`, the cell `n - 1 - k` does not, and the write index is `n + 1`. -/
theorem isr_esc_scan_run (D : Defs) (f : Nat → Nat) (n k : Nat) (hk : k < n)
    (hn : n < 65536) (hrun : ∀ j, j < k → f (n - 1 - j) = D.ESC)
    (hstop : f (n - 1 - k) ≠ D.ESC) :
    ∀ fuel cnt, cnt ≤ k → k - cnt < fuel → isr_esc_scan D f (n + 1) fuel cnt = some k := by
  intro fuel
  induction fuel with
  | zero => intro cnt _ h; omega
  | succ fuel ih =>
    intro cnt hc hf
    have hidx : u16 (n + 1 + 131072 - 1 - cnt - 1) = n - 1 - cnt := by
      simp only [u16]
      omega
    unfold isr_esc_scan
    rw [hidx]
    by_cases hlt : cnt < k
    · rw [if_pos (hrun cnt hlt)]
      have e : u16 (cnt + 1) = cnt + 1 := by
        simp only [u16]
        omega
      rw [e]
      exact ih (cnt + 1) (by omega) (by omega)
    · have : cnt = k := by omega
      subst this
      rw [if_neg hstop]

theorem run_decompose (D : Defs) : ∀ l : List Nat, (∃ x ∈ l, x ≠ D.ESC) →
    ∃ front b k, l = front ++ b :: List.replicate k D.ESC ∧ b ≠ D.ESC := by
  intro l
  induction l with
  | nil => rintro ⟨x, hx, _⟩; cases hx
  | cons a l ih =>
    intro h
    by_cases hl : ∃ x ∈ l, x ≠ D.ESC
    · obtain ⟨front, b, k, e, hb⟩ := ih hl
      exact ⟨a :: front, b, k, by rw [e]; rfl, hb⟩
    · have hall : ∀ x ∈ l, x = D.ESC := by
        intro x hx
        by_contra hne
        exact hl ⟨x, hx, hne⟩
      have ha : a ≠ D.ESC := by
        obtain ⟨x, hx, hne⟩ := h
        rcases List.mem_cons.mp hx with hx | hx
        · rw [← hx]; exact hne
        · exact absurd (hall x hx) hne
      exact ⟨[], a, l.length, by rw [List.nil_append, ← List.eq_replicate_of_mem hall], ha⟩

theorem getD_run (b e k : Nat) : ∀ front : List Nat,
    (front ++ b :: List.replicate k e).getD front.length 0 = b
    ∧ ∀ j, j < k → (front ++ b :: List.replicate k e).getD (front.length + 1 + j) 0 = e := by
  intro front
  induction front with
  | nil =>
    refine ⟨rfl, fun j hj => ?_⟩
    show (b :: List.replicate k e).getD (0 + 1 + j) 0 = e
    rw [Nat.zero_add, Nat.add_comm 1 j, List.getD_cons_succ, List.getD_eq_getElem?_getD,
      List.getElem?_replicate, if_pos hj]
    rfl
  | cons a front ih =>
    refine ⟨ih.1, fun j hj => ?_⟩
    have e1 : (a :: front).length + 1 + j = (front.length + 1 + j) + 1 := by
      simp only [List.length_cons]
      omega
    rw [e1]
    exact ih.2 j hj

theorem rx_store_holds (D : Defs) (l : List Nat) (c : Nat) (u : Uart)
    (hsz : D.FIFO_SIZE ≤ 65536) (hlen : l.length + 1 < D.FIFO_SIZE) (h : RingHolds D l u) :
    (rx_store D c u).rx_fifo_ptB = l.length + 1
    ∧ (∀ i, i < l.length + 1 → (rx_store D c u).rx_fifo i = (l ++ [c]).getD i 0)
    ∧ (rx_store D c u).packet_ip = u.packet_ip
    ∧ (rx_store D c u).packet_ready = u.packet_ready := by
  obtain ⟨h1, h2, _⟩ := h
  refine ⟨?_, ?_, rfl, rfl⟩
  · show (if u16 (u.rx_fifo_ptB + 1) = D.FIFO_SIZE then 0 else u16 (u.rx_fifo_ptB + 1))
        = l.length + 1
    have e : u16 (u.rx_fifo_ptB + 1) = l.length + 1 := by
      simp only [u16, h1]
      omega
    rw [e, if_neg (by omega)]
  · intro i hi
    show Function.update u.rx_fifo u.rx_fifo_ptB c i = _
    rw [h1]
    by_cases hi2 : i = l.length
    · subst hi2
      rw [Function.update_same, List.getD_append_right _ _ _ _ (Nat.le_refl _), Nat.sub_self]
      rfl
    · have hlt : i < l.length := by omega
      rw [Function.update_noteq hi2, h2 i hlt, List.getD_append _ _ _ _ hlt]

theorem etx_after_run (D : Defs) (hsz : D.FIFO_SIZE ≤ 65536) (front : List Nat) (b k : Nat)
    (hb : b ≠ D.ESC) (u : Uart)
    (hlen : (front ++ b :: List.replicate k D.ESC).length + 1 < D.FIFO_SIZE)
    (h : RingHolds D (front ++ b :: List.replicate k D.ESC) u) (hip : u.packet_ip = 1) :
    USCI0RXTX_ISR_rx D D.ETX u
      = if k % 2 = 0 then some { rx_store D D.ETX u with packet_ip := 0, packet_ready := 1 }
        else some (rx_store D D.ETX u) := by
  have h1 : ¬ (D.ETX = D.STX ∧ u.packet_ip = 0) := by
    intro hh
    rw [hip] at hh
    exact absurd hh.2 (by decide)
  obtain ⟨s1, s2, _, _⟩ := rx_store_holds D _ D.ETX u hsz hlen h
  have hn : (front ++ b :: List.replicate k D.ESC).length = front.length + 1 + k := by
    simp only [List.length_append, List.length_cons, List.length_replicate]
    omega
  rw [hn] at s1 s2 hlen
  obtain ⟨g1, g2⟩ := getD_run b D.ESC k front
  have hscan : isr_esc_scan D (rx_store D D.ETX u).rx_fifo (rx_store D D.ETX u).rx_fifo_ptB
      65536 0 = some k := by
    rw [s1]
    refine isr_esc_scan_run D _ (front.length + 1 + k) k (by omega) (by omega) ?_ ?_
      65536 0 (Nat.zero_le _) (by omega)
    · intro j hj
      rw [s2 _ (by omega), List.getD_append _ _ _ _ (by rw [hn]; omega)]
      have e : front.length + 1 + k - 1 - j = front.length + 1 + (k - 1 - j) := by omega
      rw [e]
      exact g2 _ (by omega)
    · rw [s2 _ (by omega), List.getD_append _ _ _ _ (by rw [hn]; omega)]
      have e : front.length + 1 + k - 1 - k = front.length := by omega
      rw [e, g1]
      exact hb
  rw [isr_etx D D.ETX u h1 ⟨rfl, hip⟩, hscan, Option.some_bind]

theorem isr_step_holds (D : Defs) (hD : D.WF) (hsz : D.FIFO_SIZE ≤ 65536) (l : List Nat)
    (c : Nat) (u : Uart) (hlen : l.length + 1 < D.FIFO_SIZE) (h : RingHolds D l u) :
    ∃ v, USCI0RXTX_ISR_rx D c u = some v ∧ RingHolds D (l ++ [c]) v := by
  obtain ⟨s1, s2, s3, _⟩ := rx_store_holds D l c u hsz hlen h
  have hl : (l ++ [c]).length = l.length + 1 := by simp
  have base : ∀ v : Uart, v.rx_fifo_ptB = (rx_store D c u).rx_fifo_ptB →
      v.rx_fifo = (rx_store D c u).rx_fifo → (v.packet_ip = 1 → D.STX ∈ l ++ [c]) →
      RingHolds D (l ++ [c]) v := by
    intro v e1 e2 e3
    refine ⟨by rw [e1, s1, hl], ?_, e3⟩
    intro i hi
    rw [e2]
    exact s2 i (by rw [hl] at hi; exact hi)
  have keep : u.packet_ip = 1 → D.STX ∈ l ++ [c] := fun hp =>
    List.mem_append_left _ (h.2.2 hp)
  by_cases h1 : c = D.STX ∧ u.packet_ip = 0
  · refine ⟨_, isr_stx D c u h1, base _ rfl rfl (fun _ => ?_)⟩
    rw [h1.1]
    exact List.mem_append_right _ (List.mem_singleton_self _)
  · by_cases h2 : c = D.ETX ∧ u.packet_ip = 1
    · obtain ⟨hc, hip⟩ := h2
      subst hc
      obtain ⟨front, b, k, e, hb⟩ := run_decompose D l
        ⟨D.STX, h.2.2 hip, hD.stx_ne_esc⟩
      have hrun := etx_after_run D hsz front b k hb u (by rw [← e]; exact hlen)
        (by rw [← e]; exact h) hip
      by_cases hk : k % 2 = 0
      · rw [if_pos hk] at hrun
        exact ⟨_, hrun, base _ rfl rfl
          (fun hp => absurd (show (0 : Nat) = 1 from hp) (by decide))⟩
      · rw [if_neg hk] at hrun
        refine ⟨_, hrun, base _ rfl rfl (fun hp => keep ?_)⟩
        rw [← s3]
        exact hp
    · refine ⟨_, isr_other D c u h1 h2, base _ rfl rfl (fun hp => keep ?_)⟩
      rw [← s3]
      exact hp

theorem isr_run_holds (D : Defs) (hD : D.WF) (hsz : D.FIFO_SIZE ≤ 65536) : ∀ l : List Nat,
    l.length < D.FIFO_SIZE →
    ∃ u, isr_run D l (init_state D [] [] []).uart = some u ∧ RingHolds D l u := by
  intro l
  induction l using List.reverseRecOn with
  | nil =>
    intro _
    exact ⟨_, rfl, rfl, fun i hi => absurd hi (Nat.not_lt_zero _),
      fun hp => absurd (show (0 : Nat) = 1 from hp) (by decide)⟩
  | append_singleton l c ih =>
    intro hlen
    have hl : l.length + 1 < D.FIFO_SIZE := by
      simp only [List.length_append, List.length_cons, List.length_nil] at hlen
      omega
    obtain ⟨u, hu, hh⟩ := ih (by omega)
    obtain ⟨v, hv, hh2⟩ := isr_step_holds D hD hsz l c u hl hh
    refine ⟨v, ?_, hh2⟩
    rw [isr_run_append, hu, Option.some_bind]
    show (USCI0RXTX_ISR_rx D c u).bind (isr_run D []) = some v
    rw [hv]
    rfl

/-- Within a stream that has not reached the end of the ring the handler
counts the run: after a stream that ends with a byte `b` other than `ESC`
followed by exactly `k` bytes `ESC`, and that is shorter by two than the ring,
the handler has returned for every byte, and when a frame is in progress it
ends the frame on `ETX` if `k` is even and leaves it in progress if `k` is
odd. -/
theorem escape_count_within_ring (D : Defs) (hD : D.WF) (hsz : D.FIFO_SIZE ≤ 65536)
    (front : List Nat) (b k : Nat) (hb : b ≠ D.ESC)
    (hlen : (front ++ b :: List.replicate k D.ESC).length + 1 < D.FIFO_SIZE) :
    ∃ u, isr_run D (front ++ b :: List.replicate k D.ESC) (init_state D [] [] []).uart
          = some u
      ∧ (u.packet_ip = 1 →
          ∃ v, USCI0RXTX_ISR_rx D D.ETX u = some v
            ∧ (k % 2 = 0 → v.packet_ip = 0 ∧ v.packet_ready = 1)
            ∧ (k % 2 = 1 → v.packet_ip = 1 ∧ v.packet_ready = u.packet_ready)) := by
  obtain ⟨u, hu, hh⟩ := isr_run_holds D hD hsz (front ++ b :: List.replicate k D.ESC)
    (by omega)
  refine ⟨u, hu, fun hip => ?_⟩
  have hrun := etx_after_run D hsz front b k hb u hlen hh hip
  by_cases hk : k % 2 = 0
  · rw [if_pos hk] at hrun
    exact ⟨_, hrun, fun _ => ⟨rfl, rfl⟩, fun h1 => by omega⟩
  · rw [if_neg hk] at hrun
    exact ⟨_, hrun, fun h0 => absurd h0 hk, fun _ => ⟨hip, rfl⟩⟩

set_option maxRecDepth 100000 in
/-- C11 (code evaluated at the failing input), with `FIFO_SIZE = 64` on a
device just initialised (the cells beyond the ring hold 0). First stream:
`STX`, 61 bytes `0x41`, `ESC`, then `ETX`. The `ETX` arrives while
`packet_ip = 1`, preceded by exactly one `ESC`, at ring index 62; it is stored
at index 63, the write index rolls over to 0, the scan starts at index 65534,
counts 0, and the handler ends the frame (`packet_ip = 0`,
`packet_ready = 1`). Second stream: `STX`, 62 bytes `0x41`, `ESC`, `ESC`, then
`ETX`. The two `ESC` are at ring indices 63 and 0 and the `ETX` at index 1;
the scan counts the `ESC` at index 0, then reads index 65535, and the handler
leaves the frame in progress (`packet_ip = 1`, `packet_ready = 0`) although
the run is even. -/
theorem escape_count_lost_at_ring_wrap :
    (isr_run sampleDefs escAtRingEnd (init_state sampleDefs [] [] []).uart).map
        (fun u => (u.packet_ip, u.packet_ready, u.rx_fifo_ptB, u.rx_fifo 62, u.rx_fifo 61,
                   u.rx_fifo 65534))
      = some (1, 0, 63, 27, 65, 0)
    ∧ (isr_run sampleDefs (escAtRingEnd ++ [3]) (init_state sampleDefs [] [] []).uart).map
        (fun u => (u.packet_ip, u.packet_ready, u.rx_fifo_ptB)) = some (0, 1, 0)
    ∧ (isr_run sampleDefs escAcrossRingEnd (init_state sampleDefs [] [] []).uart).map
        (fun u => (u.packet_ip, u.packet_ready, u.rx_fifo_ptB, u.rx_fifo 0, u.rx_fifo 63,
                   u.rx_fifo 65535))
      = some (1, 0, 1, 27, 27, 0)
    ∧ (isr_run sampleDefs (escAcrossRingEnd ++ [3]) (init_state sampleDefs [] [] []).uart).map
        (fun u => (u.packet_ip, u.packet_ready, u.rx_fifo_ptB)) = some (1, 0, 2) := by
  refine ⟨by decide, by decide, by decide, by decide⟩

/-! ### Reads outside the frame, the packet buffer and the ring -/

theorem isr_scan_reads_sound (D : Defs) (f g : Nat → Nat) (ptB : Nat) : ∀ fuel cnt,
    (∀ i ∈ isr_scan_reads D f ptB fuel cnt, g i = f i) →
    isr_esc_scan D g ptB fuel cnt = isr_esc_scan D f ptB fuel cnt := by
  intro fuel
  induction fuel with
  | zero => intro cnt _; rfl
  | succ fuel ih =>
    intro cnt h
    unfold isr_esc_scan
    unfold isr_scan_reads at h
    rw [h _ (List.mem_cons_self _ _)]
    by_cases hc : f (u16 (ptB + 131072 - 1 - cnt - 1)) = D.ESC
    · rw [if_pos hc] at h
      rw [if_pos hc, if_pos hc]
      exact ih _ (fun i hi => h i (List.mem_cons_of_mem _ hi))
    · rw [if_neg hc, if_neg hc]

/-- C22 (code evaluated at the failing input). First pair: the buffers
`STX, ACK_MSG, CMD_PIXEL_READY, ETX` and `STX, ACK_MSG, CMD_PIXEL_READY, 0`
agree on their first 3 bytes; with `length = 3` the first is accepted and the
second rejected, the test for `ETX` reading index 3. Second pair: a Burn frame
cut after its checksum, `length = 7`, is accepted or rejected according to the
byte at index 7. Third pair: with `length = 6` and `ESC` at index 5, the
payload loop stores the byte at index 6 as `data[0]`. -/
theorem parse_reads_beyond_length :
    (∀ i, i < 3 → bytes [2, 6, 82, 3] i = bytes [2, 6, 82, 0] i)
    ∧ (parse_rx_packet sampleDefs (bytes [2, 6, 82, 3]) 3 sampleBurn).1 = 0
    ∧ (parse_rx_packet sampleDefs (bytes [2, 6, 82, 0]) 3 sampleBurn).1 = 1
    ∧ (∀ i, i < 7 → bytes [2, 66, 8, 4, 0, 14, 230, 3] i = bytes [2, 66, 8, 4, 0, 14, 230] i)
    ∧ (parse_rx_packet sampleDefs (bytes [2, 66, 8, 4, 0, 14, 230, 3]) 7 sampleBurn).1 = 0
    ∧ (parse_rx_packet sampleDefs (bytes [2, 66, 8, 4, 0, 14, 230]) 7 sampleBurn).1 = 1
    ∧ (∀ i, i < 6 → bytes [2, 66, 8, 4, 0, 27, 14] i = bytes [2, 66, 8, 4, 0, 27, 15] i)
    ∧ (parse_rx_packet sampleDefs (bytes [2, 66, 8, 4, 0, 27, 14]) 6 sampleBurn).2.data 0 = 14
    ∧ (parse_rx_packet sampleDefs (bytes [2, 66, 8, 4, 0, 27, 15]) 6 sampleBurn).2.data 0 = 15 := by
  refine ⟨by decide, by decide, by decide, by decide, by decide, by decide, by decide,
    by decide, by decide⟩

/-- C23 (code evaluated at the failing input): `max_length = 16`, the stream
is `0x41, STX, CMD_START, ETX`. The two packet buffers agree on the indices
below 16. With the buffer of zeros `uart_getp` returns 3 with the frame. With
`ETX` in the cell of index 65535 (the byte before the array), the byte `0x41`
makes `i` wrap to 65535, the test `packet[i] == ETX` reads that cell, and
`uart_getp` returns `i + 1 = 0` with `packet[0]` not `STX` and the frame still
unread. -/
theorem getp_reads_before_buffer :
    (∀ i, i < 16 → (fun i => if i = 65535 then 3 else 0 : Nat → Nat) i = (fun _ => 0) i)
    ∧ (uart_getp sampleDefs (fun _ => 0) 16 junkThenStart).map
        (fun r => (r.1, r.2.1 0, r.2.1 1, r.2.1 2, r.2.2.env.rx_wire)) = some (3, 2, 83, 3, [])
    ∧ (uart_getp sampleDefs (fun i => if i = 65535 then 3 else 0) 16 junkThenStart).map
        (fun r => (r.1, r.2.1 0, r.2.2.env.rx_wire)) = some (0, 0, [2, 83, 3]) := by
  refine ⟨?_, by decide, by decide⟩
  intro i hi
  have : i ≠ 65535 := by omega
  simp [this]

set_option maxRecDepth 100000 in
/-- C24 (code evaluated at the failing input), with `FIFO_SIZE = 64`: after
the stream `STX`, 62 bytes `0x41` on a device just initialised, `packet_ip` is
1 and the write index 63. The handler run for `ETX` stores it at index 63 and
rolls the write index over to 0; the scan then reads the cell of index 65534,
and no other. The frame is ended when that cell holds 0, and left in progress
when it holds `ESC`, the ring being the same. -/
theorem scan_reads_outside_ring :
    (isr_run sampleDefs plainToRingEnd (init_state sampleDefs [] [] []).uart).map
        (fun u => (u.packet_ip, u.rx_fifo_ptB, (rx_store sampleDefs 3 u).rx_fifo_ptB))
      = some (1, 63, 0)
    ∧ (isr_run sampleDefs plainToRingEnd (init_state sampleDefs [] [] []).uart).map
        (fun u => isr_scan_reads sampleDefs (rx_store sampleDefs 3 u).rx_fifo
          (rx_store sampleDefs 3 u).rx_fifo_ptB 65536 0) = some [65534]
    ∧ ((isr_run sampleDefs plainToRingEnd (init_state sampleDefs [] [] []).uart).bind
        (fun u => (USCI0RXTX_ISR_rx sampleDefs 3 u).map (fun v => v.packet_ready))) = some 1
    ∧ ((isr_run sampleDefs plainToRingEnd (init_state sampleDefs [] [] []).uart).bind
        (fun u => (USCI0RXTX_ISR_rx sampleDefs 3
            { u with rx_fifo := Function.update u.rx_fifo 65534 27 }).map
          (fun v => v.packet_ready))) = some 0 := by
  refine ⟨by decide, by decide, by decide, by decide⟩

/-! ### The receive ring as a queue -/

theorem isr_esc_scan_stops (D : Defs) (f : Nat → Nat) (ptB : Nat) : ∀ fuel cnt c0,
    cnt ≤ c0 → c0 < cnt + fuel → c0 < 65536 →
    f (u16 (ptB + 131072 - 1 - c0 - 1)) ≠ D.ESC →
    (isr_esc_scan D f ptB fuel cnt).isSome = true := by
  intro fuel
  induction fuel with
  | zero => intro cnt c0 h1 h2; omega
  | succ fuel ih =>
    intro cnt c0 h1 h2 h3 h4
    unfold isr_esc_scan
    by_cases hc : f (u16 (ptB + 131072 - 1 - cnt - 1)) = D.ESC
    · rw [if_pos hc]
      have hne : cnt ≠ c0 := by
        intro e
        rw [e] at hc
        exact h4 hc
      have e : u16 (cnt + 1) = cnt + 1 := by
        simp only [u16]
        omega
      rw [e]
      exact ih (cnt + 1) c0 (by omega) (by omega) h3 h4
    · rw [if_neg hc]
      rfl

theorem isr_total (D : Defs) (hD : D.WF) (c : Nat) (u : Uart) (hB : u.rx_fifo_ptB < 65536) :
    (USCI0RXTX_ISR_rx D c u).isSome = true := by
  by_cases h2 : c = D.ETX ∧ u.packet_ip = 1
  · have h1 : ¬ (c = D.STX ∧ u.packet_ip = 0) := by
      intro h
      rw [h2.2] at h
      exact absurd h.2 (by decide)
    rw [isr_etx D c u h1 h2]
    have hs : (isr_esc_scan D (rx_store D c u).rx_fifo (rx_store D c u).rx_fifo_ptB
        65536 0).isSome = true := by
      refine isr_esc_scan_stops D _ _ 65536 0
        (((rx_store D c u).rx_fifo_ptB + 131070 - u.rx_fifo_ptB) % 65536)
        (Nat.zero_le _) (by omega) (by omega) ?_
      have e : u16 ((rx_store D c u).rx_fifo_ptB + 131072 - 1
          - ((rx_store D c u).rx_fifo_ptB + 131070 - u.rx_fifo_ptB) % 65536 - 1)
          = u.rx_fifo_ptB := by
        have hlt : (rx_store D c u).rx_fifo_ptB < 65536 := by
          show (if u16 (u.rx_fifo_ptB + 1) = D.FIFO_SIZE then 0 else u16 (u.rx_fifo_ptB + 1))
            < 65536
          split
          · omega
          · simp only [u16]
            omega
        simp only [u16]
        omega
      rw [e]
      show Function.update u.rx_fifo u.rx_fifo_ptB c u.rx_fifo_ptB ≠ D.ESC
      rw [Function.update_same, h2.1]
      exact hD.etx_ne_esc
    obtain ⟨k, hk⟩ := Option.isSome_iff_exists.mp hs
    rw [hk, Option.some_bind]
    split <;> rfl
  · exact isr_returns D c u (by
      by_cases hc : c = D.ETX
      · right
        intro hp
        exact h2 ⟨hc, hp⟩
      · left
        exact hc)

theorem next_index (N x : Nat) (hx : x < N) (hN : N ≤ 65536) :
    (if u16 (x + 1) = N then 0 else u16 (x + 1)) = (x + 1) % N := by
  by_cases h : x + 1 = N
  · rw [h, Nat.mod_self]
    by_cases h2 : u16 N = N
    · rw [if_pos h2]
    · rw [if_neg h2]
      simp only [u16] at h2 ⊢
      omega
  · have e : u16 (x + 1) = x + 1 := by
      simp only [u16]
      omega
    rw [e, if_neg h, Nat.mod_eq_of_lt (by omega)]

theorem ring_cells_distinct (N a j l : Nat) (hj : j < l) (hl : l < j + N) :
    (a + j) % N ≠ (a + l) % N := by
  intro h
  have h2 := Nat.sub_mod_eq_zero_of_mod_eq h.symm
  have e : a + l - (a + j) = l - j := by omega
  rw [e, Nat.mod_eq_of_lt (by omega)] at h2
  omega

theorem Unread.congr (D : Defs) (l : List Nat) (v w : Uart) (h : Unread D l w)
    (e1 : v.rx_fifo = w.rx_fifo) (e2 : v.rx_fifo_ptA = w.rx_fifo_ptA)
    (e3 : v.rx_fifo_ptB = w.rx_fifo_ptB) (e4 : v.rx_flag = w.rx_flag) : Unread D l v := by
  unfold Unread at h ⊢
  rw [e1, e2, e3, e4]
  exact h

theorem rx_store_unread (D : Defs) (hsz : D.FIFO_SIZE ≤ 65536) (l : List Nat) (c : Nat)
    (u : Uart) (h : Unread D l u) (hl : l.length < D.FIFO_SIZE) :
    Unread D (l ++ [c]) (rx_store D c u) := by
  obtain ⟨hA, _, hB, hcells, _⟩ := h
  have hBlt : u.rx_fifo_ptB < D.FIFO_SIZE := by
    rw [hB]
    exact Nat.mod_lt _ (by omega)
  have hlen : (l ++ [c]).length = l.length + 1 := by simp
  refine ⟨hA, by rw [hlen]; omega, ?_, ?_, ?_⟩
  · show (if u16 (u.rx_fifo_ptB + 1) = D.FIFO_SIZE then 0 else u16 (u.rx_fifo_ptB + 1)) = _
    rw [next_index _ _ hBlt hsz, hB, hlen, Nat.mod_add_mod, Nat.add_assoc]
    rfl
  · intro j hj
    rw [hlen] at hj
    show Function.update u.rx_fifo u.rx_fifo_ptB c ((u.rx_fifo_ptA + j) % D.FIFO_SIZE) = _
    by_cases hjl : j = l.length
    · subst hjl
      rw [← hB, Function.update_same, List.getD_append_right _ _ _ _ (Nat.le_refl _),
        Nat.sub_self]
      rfl
    · have hlt : j < l.length := by omega
      have hne : (u.rx_fifo_ptA + j) % D.FIFO_SIZE ≠ u.rx_fifo_ptB := by
        rw [hB]
        exact ring_cells_distinct _ _ _ _ hlt (by omega)
      rw [Function.update_noteq hne, hcells j hlt, List.getD_append _ _ _ _ hlt]
  · show (1 : Nat) = _
    rw [if_neg (by simp)]

theorem isr_unread (D : Defs) (hD : D.WF) (hsz : D.FIFO_SIZE ≤ 65536) (l : List Nat)
    (c : Nat) (u : Uart) (h : Unread D l u) (hl : l.length < D.FIFO_SIZE) :
    ∃ v, USCI0RXTX_ISR_rx D c u = some v ∧ Unread D (l ++ [c]) v := by
  have hBlt : u.rx_fifo_ptB < 65536 := by
    rw [h.2.2.1]
    have := Nat.mod_lt (u.rx_fifo_ptA + l.length) (show 0 < D.FIFO_SIZE by omega)
    omega
  obtain ⟨v, hv⟩ := Option.isSome_iff_exists.mp (isr_total D hD c u hBlt)
  refine ⟨v, hv, ?_⟩
  have hs := rx_store_unread D hsz l c u h hl
  rcases isr_cases D c u v hv with e | e | e <;>
    exact Unread.congr D _ _ _ hs (by rw [e]) (by rw [e]) (by rw [e]) (by rw [e])

theorem deliver_unread (D : Defs) (hD : D.WF) (hsz : D.FIFO_SIZE ≤ 65536) (w : List Nat) :
    ∀ (bs l : List Nat) (s : State), Unread D l s.uart →
    l.length + bs.length ≤ D.FIFO_SIZE → s.env.rx_wire = bs ++ w →
    ∃ t, deliver D bs.length s = some t ∧ Unread D (l ++ bs) t.uart ∧ t.env.rx_wire = w := by
  intro bs
  induction bs with
  | nil =>
    intro l s h _ hw
    exact ⟨s, rfl, by rw [List.append_nil]; exact h, hw⟩
  | cons b bs ih =>
    intro l s h hlen hw
    simp only [List.length_cons] at hlen
    obtain ⟨v, hv, hu⟩ := isr_unread D hD hsz l b s.uart h (by omega)
    have hw2 : s.env.rx_wire = b :: (bs ++ w) := hw
    obtain ⟨t, ht, hu2, hw3⟩ := ih (l ++ [b])
      { s with uart := v, env := { s.env with rx_wire := bs ++ w } } hu
      (by simp only [List.length_append, List.length_cons, List.length_nil]; omega) rfl
    refine ⟨t, ?_, by rw [List.append_assoc] at hu2; exact hu2, hw3⟩
    show deliver D (bs.length + 1) s = some t
    unfold deliver
    rw [hw2]
    simp only [receive_one, hv, Option.map_some', Option.some_bind]
    exact ht

theorem uart_getc_unread (D : Defs) (hsz : D.FIFO_SIZE ≤ 65536) (c : Nat) (l : List Nat)
    (s : State) (h : Unread D (c :: l) s.uart) :
    ∃ r, uart_getc D s = some (c, r) ∧ Unread D l r.uart ∧ r.env = s.env := by
  obtain ⟨hA, hlen, hB, hcells, hflag⟩ := h
  simp only [List.length_cons] at hlen hB hcells
  have hN : 0 < D.FIFO_SIZE := by omega
  have hf : s.uart.rx_flag ≠ 0 := by
    rw [hflag, if_neg (by simp)]
    decide
  have hc : s.uart.rx_fifo s.uart.rx_fifo_ptA = c := by
    have := hcells 0 (by omega)
    rw [Nat.add_zero, Nat.mod_eq_of_lt hA] at this
    exact this
  have hnext := next_index D.FIFO_SIZE s.uart.rx_fifo_ptA hA hsz
  have hB2 : s.uart.rx_fifo_ptB = ((s.uart.rx_fifo_ptA + 1) % D.FIFO_SIZE + l.length)
      % D.FIFO_SIZE := by
    rw [hB, Nat.mod_add_mod, Nat.add_assoc, Nat.add_comm 1 l.length]
  have hg : uart_getc D s = some (s.uart.rx_fifo s.uart.rx_fifo_ptA,
      { s with uart :=
          { s.uart with
              rx_fifo_ptA := if u16 (s.uart.rx_fifo_ptA + 1) = D.FIFO_SIZE then 0
                             else u16 (s.uart.rx_fifo_ptA + 1),
              rx_flag := if (if u16 (s.uart.rx_fifo_ptA + 1) = D.FIFO_SIZE then 0
                             else u16 (s.uart.rx_fifo_ptA + 1)) = s.uart.rx_fifo_ptB then 0
                         else s.uart.rx_flag } }) := by
    unfold uart_getc
    rw [if_neg hf]
    rfl
  rw [hc] at hg
  refine ⟨_, hg, ?_, ?_⟩
  · refine ⟨?_, by omega, ?_, ?_, ?_⟩
    · show (if u16 (s.uart.rx_fifo_ptA + 1) = D.FIFO_SIZE then 0
          else u16 (s.uart.rx_fifo_ptA + 1)) < D.FIFO_SIZE
      rw [hnext]
      exact Nat.mod_lt _ hN
    · show s.uart.rx_fifo_ptB = ((if u16 (s.uart.rx_fifo_ptA + 1) = D.FIFO_SIZE then 0
          else u16 (s.uart.rx_fifo_ptA + 1)) + l.length) % D.FIFO_SIZE
      rw [hnext]
      exact hB2
    · intro j hj
      show s.uart.rx_fifo (((if u16 (s.uart.rx_fifo_ptA + 1) = D.FIFO_SIZE then 0
          else u16 (s.uart.rx_fifo_ptA + 1)) + j) % D.FIFO_SIZE) = _
      rw [hnext, Nat.mod_add_mod, Nat.add_assoc, Nat.add_comm 1 j, hcells (j + 1) (by omega)]
      rfl
    · show (if (if u16 (s.uart.rx_fifo_ptA + 1) = D.FIFO_SIZE then 0
          else u16 (s.uart.rx_fifo_ptA + 1)) = s.uart.rx_fifo_ptB then 0
          else s.uart.rx_flag) = _
      have hfl : s.uart.rx_flag = 1 := by
        rw [hflag]
        simp
      rw [hnext, hfl]
      by_cases hl : l = []
      · subst hl
        rw [if_pos (show (s.uart.rx_fifo_ptA + 1) % D.FIFO_SIZE = s.uart.rx_fifo_ptB from
          hB.symm), if_pos rfl]
      · have hpos : 0 < l.length := List.length_pos.mpr hl
        have hne : (s.uart.rx_fifo_ptA + 1) % D.FIFO_SIZE ≠ s.uart.rx_fifo_ptB := by
          rw [hB]
          exact ring_cells_distinct D.FIFO_SIZE s.uart.rx_fifo_ptA 1 (l.length + 1)
            (by omega) (by omega)
        rw [if_neg hne, if_neg hl]
  · rfl

theorem uart_getc_n_unread (D : Defs) (hsz : D.FIFO_SIZE ≤ 65536) : ∀ (l : List Nat)
    (s : State), Unread D l s.uart →
    ∃ r, uart_getc_n D l.length s = some (l, r) ∧ Unread D [] r.uart ∧ r.env = s.env := by
  intro l
  induction l with
  | nil => intro s h; exact ⟨s, rfl, h, rfl⟩
  | cons c l ih =>
    intro s h
    obtain ⟨r1, h1, hu1, he1⟩ := uart_getc_unread D hsz c l s h
    obtain ⟨r, h2, hu2, he2⟩ := ih r1 hu1
    refine ⟨r, ?_, hu2, he2.trans he1⟩
    show uart_getc_n D (l.length + 1) s = _
    unfold uart_getc_n
    rw [h1, Option.some_bind, h2]
    rfl

/-- C25: from every state whose receive ring is empty (`rx_fifo_ptA =
rx_fifo_ptB`, `rx_flag = 0`, the index anywhere in the ring), for every byte
sequence `bs` of at most `FIFO_SIZE` bytes that the host sends next, the
receive handler returns for each byte, and after it has stored them
`bs.length` successive calls of `uart_getc` return the bytes of `bs` in order.
No call waits: the bytes `w` that follow on the wire are still there. After
the calls `rx_flag = 0` and `rx_fifo_ptA = rx_fifo_ptB`. -/
theorem ring_first_in_first_out (D : Defs) (hD : D.WF) (hsz : D.FIFO_SIZE ≤ 65536)
    (s : State) (bs w : List Nat)
    (hempty : s.uart.rx_fifo_ptA = s.uart.rx_fifo_ptB ∧ s.uart.rx_flag = 0)
    (hA : s.uart.rx_fifo_ptA < D.FIFO_SIZE) (hn : bs.length ≤ D.FIFO_SIZE)
    (hwire : s.env.rx_wire = bs ++ w) :
    ∃ t r, deliver D bs.length s = some t
      ∧ t.env.rx_wire = w
      ∧ uart_getc_n D bs.length t = some (bs, r)
      ∧ r.env.rx_wire = w
      ∧ r.uart.rx_flag = 0 ∧ r.uart.rx_fifo_ptA = r.uart.rx_fifo_ptB := by
  have h0 : Unread D [] s.uart := by
    refine ⟨hA, Nat.zero_le _, ?_, fun j hj => absurd hj (Nat.not_lt_zero _), ?_⟩
    · rw [← hempty.1]
      exact (Nat.mod_eq_of_lt hA).symm
    · rw [hempty.2]
      rfl
  obtain ⟨t, ht, hu, hw⟩ := deliver_unread D hD hsz w bs [] s h0
    (by simp only [List.length_nil]; omega) hwire
  rw [List.nil_append] at hu
  obtain ⟨r, hr, hu2, he⟩ := uart_getc_n_unread D hsz bs t hu
  obtain ⟨hrA, _, hrB, _, hrf⟩ := hu2
  refine ⟨t, r, ht, hw, hr, by rw [he, hw], hrf, ?_⟩
  rw [hrB]
  exact (Nat.mod_eq_of_lt hrA).symm

/-- C25 on a ring whose indices are 62 of 64: three bytes are stored at the
cells 62, 63 and 0 and read back in order. -/
theorem ring_first_in_first_out_witness :
    ∃ t r, deliver sampleDefs 3 ringNearEnd = some t
      ∧ uart_getc_n sampleDefs 3 t = some ([10, 20, 30], r)
      ∧ r.env.rx_wire = [40]
      ∧ r.uart.rx_flag = 0 ∧ r.uart.rx_fifo_ptA = r.uart.rx_fifo_ptB := by
  obtain ⟨t, r, h1, _, h3, h4, h5, h6⟩ :=
    ring_first_in_first_out sampleDefs sampleDefs_WF (by decide) ringNearEnd [10, 20, 30] [40]
      (by decide) (by decide) (by decide) rfl
  exact ⟨t, r, h1, h3, h4, h5, h6⟩

/-! ### Encoder and frame reader -/

theorem esc_tail_snoc (D : Defs) (l : List Nat) (x : Nat) :
    esc_tail D (l ++ [x]) = if x = D.ESC then esc_tail D l + 1 else 0 := by
  unfold esc_tail
  rw [List.reverse_append, List.reverse_singleton, List.singleton_append,
    List.takeWhile_cons]
  by_cases h : x = D.ESC
  · simp [h]
  · simp [h]

theorem Quiet_append (D : Defs) (R1 R2 : List Nat) : ∀ P,
    Quiet D P (R1 ++ R2) ↔ Quiet D P R1 ∧ Quiet D (P ++ R1) R2 := by
  induction R1 with
  | nil => intro P; simp [Quiet]
  | cons x R ih =>
    intro P
    show (_ ∧ Quiet D (P ++ [x]) (R ++ R2)) ↔ (_ ∧ Quiet D (P ++ [x]) R) ∧ _
    rw [ih, and_assoc, List.append_assoc, List.singleton_append]

/-- One token of the encoder after a prefix that ends with an even run of
`ESC`: none of its bytes ends the frame, and the run after it is even. -/
theorem tok_quiet (D : Defs) (hD : D.WF) (P : List Nat) (x : Nat)
    (hP : esc_tail D P % 2 = 0) :
    Quiet D P (tok_bytes D (needs_esc D x, x))
    ∧ esc_tail D (P ++ tok_bytes D (needs_esc D x, x)) % 2 = 0 := by
  by_cases hx : needs_esc D x = true
  · have e : tok_bytes D (needs_esc D x, x) = [D.ESC, x] := by
      simp only [tok_bytes, hx, if_true]
    rw [e]
    have h1 : esc_tail D (P ++ [D.ESC]) = esc_tail D P + 1 := by
      rw [esc_tail_snoc, if_pos rfl]
    refine ⟨⟨?_, ?_, trivial⟩, ?_⟩
    · intro h
      exact hD.etx_ne_esc h.1.symm
    · intro h
      rw [h1] at h
      omega
    · have e2 : P ++ [D.ESC, x] = (P ++ [D.ESC]) ++ [x] := by simp
      rw [e2, esc_tail_snoc, h1]
      split <;> omega
  · have hx2 : needs_esc D x = false := by
      cases h : needs_esc D x
      · rfl
      · exact absurd h hx
    have e : tok_bytes D (needs_esc D x, x) = [x] := by
      simp only [tok_bytes, hx2, Bool.false_eq_true, if_false]
    rw [e]
    simp only [needs_esc, Bool.or_eq_false_iff, beq_eq_false_iff_ne] at hx2
    refine ⟨⟨fun h => hx2.1.2 h.1, trivial⟩, ?_⟩
    rw [esc_tail_snoc, if_neg hx2.2]

theorem enc_seg_quiet (D : Defs) (hD : D.WF) (data : Nat → Nat) (k : Nat) : ∀ m P,
    esc_tail D P % 2 = 0 →
    Quiet D P (toks_bytes D (enc_seg D data k m))
    ∧ esc_tail D (P ++ toks_bytes D (enc_seg D data k m)) % 2 = 0 := by
  intro m
  induction m with
  | zero =>
    intro P hP
    simp only [enc_seg, toks_bytes, List.append_nil]
    exact ⟨trivial, hP⟩
  | succ m ih =>
    intro P hP
    obtain ⟨h1, h2⟩ := tok_quiet D hD P (data (k + m)) hP
    obtain ⟨h3, h4⟩ := ih _ h2
    simp only [enc_seg, toks_bytes]
    rw [Quiet_append, ← List.append_assoc]
    exact ⟨⟨h1, h3⟩, h4⟩

theorem getp_esc_scan_tail (D : Defs) (packet : Nat → Nat) (n : Nat) : ∀ (Q : List Nat)
    (fuel cnt : Nat), At packet 0 Q → Q.length + cnt = n → Q.length ≤ fuel →
    getp_esc_scan D packet n fuel cnt = cnt + esc_tail D Q := by
  intro Q
  induction Q using List.reverseRecOn with
  | nil =>
    intro fuel cnt _ hn _
    simp only [List.length_nil, Nat.zero_add] at hn
    have e : esc_tail D [] = 0 := rfl
    rw [e, Nat.add_zero]
    cases fuel with
    | zero => rfl
    | succ f =>
      unfold getp_esc_scan
      rw [if_neg (by omega)]
  | append_singleton Q x ih =>
    intro fuel cnt hat hn hf
    simp only [List.length_append, List.length_cons, List.length_nil] at hn hf
    rw [At_append] at hat
    obtain ⟨hQ, hx⟩ := hat
    simp only [At, Nat.zero_add, and_true] at hx
    cases fuel with
    | zero => omega
    | succ f =>
      unfold getp_esc_scan
      have hidx : n - cnt - 1 = Q.length := by omega
      rw [hidx, hx, esc_tail_snoc]
      by_cases he : x = D.ESC
      · rw [if_pos ⟨by omega, he⟩, if_pos he, ih f (cnt + 1) hQ (by omega) (by omega)]
        omega
      · rw [if_neg (fun h => he h.2), if_neg he]
        rfl

theorem uart_getc_pending (D : Defs) (hD : D.WF) (hsz : D.FIFO_SIZE ≤ 65536) (c : Nat)
    (stream : List Nat) (s : State) (h : Pending D s (c :: stream)) :
    ∃ r, uart_getc D s = some (c, r) ∧ Pending D r stream := by
  obtain ⟨l, hu, hstr⟩ := h
  cases l with
  | cons c2 l2 =>
    simp only [List.cons_append, List.cons.injEq] at hstr
    obtain ⟨hc, hrest⟩ := hstr
    subst hc
    obtain ⟨r, hr, hu2, he⟩ := uart_getc_unread D hsz c l2 s hu
    exact ⟨r, hr, l2, hu2, by rw [he]; exact hrest⟩
  | nil =>
    rw [List.nil_append] at hstr
    have hN : 0 < D.FIFO_SIZE := by
      have := hu.1
      omega
    obtain ⟨v, hv, huv⟩ := isr_unread D hD hsz [] c s.uart hu hN
    rw [List.nil_append] at huv
    have hf : s.uart.rx_flag = 0 := hu.2.2.2.2
    have hf1 : (v.rx_flag = 0) = False := by
      rw [huv.2.2.2.2]
      simp
    obtain ⟨r, hr, hu2, he⟩ := uart_getc_unread D hsz c []
      { s with uart := v, env := { s.env with rx_wire := stream } } huv
    refine ⟨r, ?_, [], hu2, by rw [he]; rfl⟩
    rw [← hr]
    unfold uart_getc
    simp only [hf, if_true, ← hstr, receive_one, hv, Option.map_some', hf1, if_false]

theorem getp_loop_step (D : Defs) (m fuel i : Nat) (packet : Nat → Nat) (s r : State)
    (c st : Nat) (hi : i < m) (hg : uart_getc D s = some (c, r))
    (hst : st = 1 ∨ (st = 0 ∧ c = D.STX)) :
    uart_getp_loop D m (fuel + 1) i st packet s
      = if c = D.ETX ∧ getp_esc_scan D (Function.update packet i c) i i 0 % 2 = 0 then
          some (u16 (i + 1), Function.update packet i c, r)
        else uart_getp_loop D m fuel (u16 (i + 1)) 1 (Function.update packet i c) r := by
  have hn : ¬ (st = 0 ∧ c ≠ D.STX) := by
    rintro ⟨h0, hc⟩
    rcases hst with h | h
    · omega
    · exact hc h.2
  have hstarted : (if st = 0 then (if c = D.STX then 1 else 0) else st) = 1 := by
    rcases hst with h | h
    · rw [h]
      rfl
    · rw [if_pos h.1, if_pos h.2]
  conv_lhs => rw [uart_getp_loop]
  rw [if_pos hi, hg]
  simp only [hn, if_false, hstarted, Function.update_same]

theorem At_snoc_update (packet : Nat → Nat) (P : List Nat) (x : Nat) (h : At packet 0 P) :
    At (Function.update packet P.length x) 0 (P ++ [x]) := by
  rw [At_append]
  refine ⟨(At_update packet _ x P 0 (Or.inr (by omega))).2 h, ?_⟩
  show Function.update packet P.length x (0 + P.length) = x ∧ True
  rw [Nat.zero_add]
  exact ⟨Function.update_same _ _ _, trivial⟩

theorem getp_loop_frame (D : Defs) (hD : D.WF) (hsz : D.FIFO_SIZE ≤ 65536) (m : Nat)
    (hm : m < 65536) (rest : List Nat) : ∀ (R P : List Nat) (fuel : Nat)
    (packet : Nat → Nat) (s : State),
    At packet 0 P → Quiet D P R → esc_tail D (P ++ R) % 2 = 0 →
    Pending D s (R ++ D.ETX :: rest) → P.length + R.length + 1 ≤ m → R.length + 1 ≤ fuel →
    ∃ pk r, uart_getp_loop D m fuel P.length 1 packet s
        = some (P.length + R.length + 1, pk, r)
      ∧ At pk 0 (P ++ R ++ [D.ETX])
      ∧ (∀ k, P.length + R.length + 1 ≤ k → pk k = packet k)
      ∧ Pending D r rest := by
  intro R
  induction R with
  | nil =>
    intro P fuel packet s hat _ he hp hlen hf
    simp only [List.length_nil, Nat.add_zero, List.append_nil, List.nil_append] at *
    obtain ⟨r, hg, hp2⟩ := uart_getc_pending D hD hsz D.ETX rest s hp
    have hat2 : At (Function.update packet P.length D.ETX) 0 P :=
      (At_update packet _ D.ETX P 0 (Or.inr (by omega))).2 hat
    have hscan := getp_esc_scan_tail D (Function.update packet P.length D.ETX) P.length P
      P.length 0 hat2 rfl (Nat.le_refl _)
    rw [Nat.zero_add] at hscan
    cases fuel with
    | zero => omega
    | succ f =>
      rw [getp_loop_step D m f P.length packet s r D.ETX 1 (by omega) hg (Or.inl rfl),
        hscan, if_pos ⟨rfl, he⟩]
      have e : u16 (P.length + 1) = P.length + 1 := by
        simp only [u16]
        omega
      rw [e]
      refine ⟨_, _, rfl, At_snoc_update packet P D.ETX hat, ?_, hp2⟩
      · intro k hk
        exact Function.update_noteq (by omega) _ _
  | cons x R ih =>
    intro P fuel packet s hat hq he hp hlen hf
    simp only [List.length_cons] at hlen hf
    obtain ⟨hx, hq2⟩ := hq
    obtain ⟨r, hg, hp2⟩ := uart_getc_pending D hD hsz x (R ++ D.ETX :: rest) s hp
    have hat2 : At (Function.update packet P.length x) 0 P :=
      (At_update packet _ x P 0 (Or.inr (by omega))).2 hat
    have hscan := getp_esc_scan_tail D (Function.update packet P.length x) P.length P
      P.length 0 hat2 rfl (Nat.le_refl _)
    rw [Nat.zero_add] at hscan
    have hat3 : At (Function.update packet P.length x) 0 (P ++ [x]) :=
      At_snoc_update packet P x hat
    cases fuel with
    | zero => omega
    | succ f =>
      rw [getp_loop_step D m f P.length packet s r x 1 (by omega) hg (Or.inl rfl),
        hscan, if_neg hx]
      have e : u16 (P.length + 1) = (P ++ [x]).length := by
        simp only [u16, List.length_append, List.length_cons, List.length_nil]
        omega
      rw [e]
      have hl2 : (P ++ [x]).length = P.length + 1 := by simp
      obtain ⟨pk, r2, h1, h2, h3, h4⟩ := ih (P ++ [x]) f _ r hat3 hq2
        (by rw [List.append_assoc]; exact he) hp2 (by rw [hl2]; omega) (by omega)
      refine ⟨pk, r2, ?_, ?_, ?_, h4⟩
      · rw [h1, hl2]
        simp only [List.length_cons, Option.some.injEq, Prod.mk.injEq, and_true]
        omega
      · have e2 : P ++ x :: R ++ [D.ETX] = P ++ [x] ++ R ++ [D.ETX] := by simp
        rw [e2]
        exact h2
      · intro k hk
        simp only [List.length_cons] at hk
        rw [h3 k (by rw [hl2]; omega)]
        exact Function.update_noteq (by omega) _ _

/-- A frame `STX`, body, `ETX` none of whose body bytes ends it is read whole
by `uart_getp`. -/
theorem getp_frame (D : Defs) (hD : D.WF) (hsz : D.FIFO_SIZE ≤ 65536) (m : Nat)
    (hm : m < 65536) (R rest : List Nat) (packet : Nat → Nat) (s : State)
    (hq : Quiet D [D.STX] R) (he : esc_tail D (D.STX :: R) % 2 = 0)
    (hp : Pending D s (D.STX :: (R ++ D.ETX :: rest))) (hlen : R.length + 2 ≤ m) :
    ∃ pk r, uart_getp D packet m s = some (R.length + 2, pk, r)
      ∧ At pk 0 (D.STX :: (R ++ [D.ETX]))
      ∧ (∀ k, R.length + 2 ≤ k → pk k = packet k)
      ∧ Pending D r rest := by
  obtain ⟨r, hg, hp2⟩ := uart_getc_pending D hD hsz D.STX _ s hp
  have hat : At (Function.update packet 0 D.STX) 0 [D.STX] :=
    At_snoc_update packet [] D.STX trivial
  obtain ⟨pk, r2, h1, h2, h3, h4⟩ := getp_loop_frame D hD hsz m hm rest R [D.STX]
    (65536 + s.env.rx_wire.length + m) (Function.update packet 0 D.STX) r hat hq he hp2
    (by simp only [List.length_cons, List.length_nil]; omega) (by omega)
  refine ⟨pk, r2, ?_, h2, ?_, h4⟩
  · unfold uart_getp
    rw [getp_loop_step D m _ 0 packet s r D.STX 0 (by omega) hg (Or.inr ⟨rfl, rfl⟩),
      if_neg (fun h => hD.stx_ne_etx h.1)]
    have e : u16 (0 + 1) = [D.STX].length := rfl
    rw [e, h1]
    congr 2
    simp only [List.length_cons, List.length_nil]
    omega
  · intro k hk
    rw [h3 k (by simp only [List.length_cons, List.length_nil]; omega)]
    exact Function.update_noteq (by omega) _ _

theorem range_map_At (buf : Nat → Nat) : ∀ (l : List Nat) (it : Nat), At buf it l →
    (List.range' it l.length).map buf = l := by
  intro l
  induction l with
  | nil => intro it _; rfl
  | cons x l ih =>
    intro it h
    obtain ⟨h0, h1⟩ := h
    show buf it :: (List.range' (it + 1) l.length).map buf = x :: l
    rw [h0, ih (it + 1) h1]

theorem Quiet_take (D : Defs) : ∀ (R P : List Nat) (i : Nat), Quiet D P R → i < R.length →
    R.getD i 0 = D.ETX → esc_tail D (P ++ R.take i) % 2 = 1 := by
  intro R
  induction R with
  | nil => intro P i _ hi; cases hi
  | cons x R ih =>
    intro P i hq hi hx
    obtain ⟨h1, h2⟩ := hq
    cases i with
    | zero =>
      have hx0 : x = D.ETX := hx
      rw [List.take_zero, List.append_nil]
      have : ¬ esc_tail D P % 2 = 0 := fun h => h1 ⟨hx0, h⟩
      omega
    | succ j =>
      have e : P ++ (x :: R).take (j + 1) = (P ++ [x]) ++ R.take j := by simp
      rw [e]
      exact ih (P ++ [x]) j h2 (by simp only [List.length_cons] at hi; omega) hx

/-- The frame that `pack_tx_packet` writes for a NewCommand packet is `STX`,
a body no byte of which ends the frame, and `ETX`. -/
theorem pack_frame_quiet (D : Defs) (hD : D.WF) (p : TPacket_Data) (tx_buff : Nat → Nat)
    (hack : p.ack = D.NEW_CMD) (hc : p.command ≠ D.ETX ∧ p.command ≠ D.ESC)
    (hs : p.data_size ≤ 255) :
    ∃ R, (List.range (pack_tx_packet D p tx_buff).2).map (pack_tx_packet D p tx_buff).1
          = D.STX :: (R ++ [D.ETX])
      ∧ (pack_tx_packet D p tx_buff).2 = R.length + 2
      ∧ Quiet D [D.STX] R ∧ esc_tail D (D.STX :: R) % 2 = 0 := by
  have ht0 : esc_tail D [D.STX] = 0 := by
    have := esc_tail_snoc D [] D.STX
    rw [if_neg hD.stx_ne_esc] at this
    exact this
  have ht1 : esc_tail D [D.STX, p.command] = 0 := by
    have := esc_tail_snoc D [D.STX] p.command
    rw [if_neg hc.2] at this
    exact this
  by_cases hn : p.data_size = 0
  · have hnack : ¬ (p.ack = D.NAK_MSG ∨ p.ack = D.ACK_MSG) := by
      rw [hack]
      intro h
      rcases h with h | h
      · exact hD.new_ne_nak h
      · exact hD.new_ne_ack h
    refine ⟨[p.command], ?_, ?_, ⟨fun h => hc.1 h.1, trivial⟩, by rw [ht1]⟩
    · simp [pack_tx_packet, hnack, hn, TxBuf.put, u16, List.range_succ,
        Function.update_apply]
    · simp [pack_tx_packet, hnack, hn, TxBuf.put, u16]
  · have hpos : 0 < p.data_size := Nat.pos_of_ne_zero hn
    have hl := frame_layout_length D p.command p.data p.data_size
    obtain ⟨_, hat, _⟩ := puts_spec (frame_layout D p.command p.data p.data_size)
      (TxBuf.mk tx_buff 0) (by simp only; omega)
    rw [pack_new_eq D hD p tx_buff hack hpos hs]
    simp only
    rw [List.range_eq_range', range_map_At _ _ 0 hat]
    obtain ⟨q1, q2⟩ := enc_seg_quiet D hD p.data 0 p.data_size [D.STX, p.command]
      (by rw [ht1])
    obtain ⟨q3, q4⟩ := tok_quiet D hD
      ([D.STX, p.command] ++ toks_bytes D (enc_seg D p.data 0 p.data_size))
      (calc_8bit_mod_checksum p.data p.data_size) q2
    have e : frame_layout D p.command p.data p.data_size
        = D.STX :: ((p.command :: (toks_bytes D (enc_seg D p.data 0 p.data_size)
            ++ tok_bytes D (needs_esc D (calc_8bit_mod_checksum p.data p.data_size),
                calc_8bit_mod_checksum p.data p.data_size))) ++ [D.ETX]) := by
      rw [frame_layout_toks]
      simp
    refine ⟨_, e, ?_, ⟨fun h => hc.1 h.1, ?_⟩, ?_⟩
    · rw [e]
      simp only [List.length_cons, List.length_append, List.length_nil]
    · rw [Quiet_append]
      exact ⟨q1, q3⟩
    · have e2 : D.STX :: p.command :: (toks_bytes D (enc_seg D p.data 0 p.data_size)
          ++ tok_bytes D (needs_esc D (calc_8bit_mod_checksum p.data p.data_size),
              calc_8bit_mod_checksum p.data p.data_size))
          = [D.STX, p.command] ++ toks_bytes D (enc_seg D p.data 0 p.data_size)
            ++ tok_bytes D (needs_esc D (calc_8bit_mod_checksum p.data p.data_size),
                calc_8bit_mod_checksum p.data p.data_size) := by simp
      rw [e2]
      exact q4

theorem range_map_take (buf : Nat → Nat) (i L : Nat) (h : i ≤ L) :
    (List.range i).map buf = ((List.range L).map buf).take i := by
  rw [← List.map_take, List.take_range, Nat.min_eq_left h]

theorem range_map_getD (buf : Nat → Nat) (k L : Nat) (h : k < L) :
    ((List.range L).map buf).getD k 0 = buf k := by
  simp [List.getD_eq_getElem?_getD, List.getElem?_range h]

/-- C21: for every NewCommand packet whose command byte is neither `ETX`
nor `ESC`, with any payload of at most 255 bytes, when the `L` bytes of the
frame written by `pack_tx_packet` are the next bytes that `uart_getc` returns
(unread in the receive ring or still on the wire) and `L <= max_length`,
`uart_getp` returns `L` with `packet[0..L-1]` equal to the frame and the bytes
that follow the frame still to come. In the frame every byte `ETX` other than
the last is preceded by an odd run of `ESC` and the last by an even run. -/
theorem encoder_reader_agree (D : Defs) (hD : D.WF) (hsz : D.FIFO_SIZE ≤ 65536)
    (p : TPacket_Data) (tx_buff packet : Nat → Nat) (max_length : Nat) (s : State)
    (rest : List Nat) (hack : p.ack = D.NEW_CMD)
    (hc : p.command ≠ D.ETX ∧ p.command ≠ D.ESC) (hs : p.data_size ≤ 255)
    (hL : (pack_tx_packet D p tx_buff).2 ≤ max_length) (hm : max_length < 65536)
    (hp : Pending D s ((List.range (pack_tx_packet D p tx_buff).2).map
        (pack_tx_packet D p tx_buff).1 ++ rest)) :
    (∃ pk r, uart_getp D packet max_length s = some ((pack_tx_packet D p tx_buff).2, pk, r)
      ∧ (∀ k, k < (pack_tx_packet D p tx_buff).2 → pk k = (pack_tx_packet D p tx_buff).1 k)
      ∧ Pending D r rest)
    ∧ (∀ i, i + 1 < (pack_tx_packet D p tx_buff).2 →
        (pack_tx_packet D p tx_buff).1 i = D.ETX →
        esc_tail D ((List.range i).map (pack_tx_packet D p tx_buff).1) % 2 = 1)
    ∧ esc_tail D ((List.range ((pack_tx_packet D p tx_buff).2 - 1)).map
        (pack_tx_packet D p tx_buff).1) % 2 = 0 := by
  obtain ⟨R, hF, hlen, hq, he⟩ := pack_frame_quiet D hD p tx_buff hack hc hs
  generalize (pack_tx_packet D p tx_buff).1 = buf at *
  generalize (pack_tx_packet D p tx_buff).2 = L at *
  subst hlen
  refine ⟨?_, ?_, ?_⟩
  · have hp2 : Pending D s (D.STX :: (R ++ D.ETX :: rest)) := by
      rw [hF] at hp
      simpa using hp
    obtain ⟨pk, r, h1, h2, _, h4⟩ := getp_frame D hD hsz max_length hm R rest packet s hq he
      hp2 hL
    refine ⟨pk, r, h1, ?_, h4⟩
    intro k hk
    have := (At_getD pk _ 0).1 h2 k (by
      simp only [List.length_cons, List.length_append, List.length_nil]
      omega)
    rw [Nat.zero_add, ← hF, range_map_getD buf k _ hk] at this
    exact this
  · intro i hi hx
    rw [range_map_take buf i (R.length + 2) (by omega), hF]
    have hxi : (D.STX :: (R ++ [D.ETX])).getD i 0 = D.ETX := by
      rw [← hF, range_map_getD buf i _ (by omega)]
      exact hx
    cases i with
    | zero => exact absurd hxi hD.stx_ne_etx
    | succ j =>
      have hj : j < R.length := by omega
      have hxj : R.getD j 0 = D.ETX := by
        rw [List.getD_cons_succ, List.getD_append _ _ _ _ hj] at hxi
        exact hxi
      have e : (D.STX :: (R ++ [D.ETX])).take (j + 1) = [D.STX] ++ R.take j := by
        rw [List.take_succ_cons, List.take_append_of_le_length (by omega)]
        rfl
      rw [e]
      exact Quiet_take D R [D.STX] j hq hj hxj
  · have e : (D.STX :: (R ++ [D.ETX])).take (R.length + 2 - 1) = D.STX :: R := by
      have e1 : R.length + 2 - 1 = R.length + 1 := by omega
      rw [e1, List.take_succ_cons, List.take_append_of_le_length (Nat.le_refl _),
        List.take_length]
    rw [range_map_take buf _ (R.length + 2) (by omega), hF, e]
    exact he

/-- C21 on the sample Burn packet, whose payload holds `ESC`, `STX` and
`ETX`: the 11 bytes of its frame are read and the byte 9 is left. -/
theorem encoder_reader_agree_witness :
    ∃ pk r, uart_getp sampleDefs (fun _ => 0) 16 burnOnWire = some (11, pk, r)
      ∧ pk 3 = 3 ∧ pk 10 = 3 ∧ Pending sampleDefs r [9] := by
  have hL : (pack_tx_packet sampleDefs sampleBurn (fun _ => 0)).2 = 11 := by decide
  obtain ⟨⟨pk, r, h1, h2, h3⟩, _, _⟩ :=
    encoder_reader_agree sampleDefs sampleDefs_WF (by decide) sampleBurn (fun _ => 0)
      (fun _ => 0) 16 burnOnWire [9] rfl (by decide) (by decide) (by decide) (by decide)
      ⟨[], ⟨by decide, by decide, by decide, fun j hj => absurd hj (Nat.not_lt_zero _),
        by decide⟩, rfl⟩
  rw [hL] at h1 h2
  refine ⟨pk, r, h1, ?_, ?_, h3⟩
  · rw [h2 3 (by decide)]
    decide
  · rw [h2 10 (by decide)]
    decide

/-! ### Replies in the transmit ring -/

theorem or_two_idem (x : Nat) : (x ||| 2) ||| 2 = x ||| 2 := by
  apply Nat.eq_of_testBit_eq
  intro i
  simp only [Nat.testBit_or]
  cases x.testBit i <;> cases (2 : Nat).testBit i <;> rfl

theorem uart_putc_fold_ie (D : Defs) (l : List Nat) : ∀ (c : Nat) (u : Uart),
    (l.foldl (fun u c => uart_putc D c u) (uart_putc D c u)).UCA1IE = u.UCA1IE ||| 2 := by
  induction l with
  | nil => intro c u; rfl
  | cons a l ih =>
    intro c u
    rw [List.foldl_cons, ih a (uart_putc D c u)]
    exact or_two_idem _

theorem uart_putc_fold_ring (D : Defs) (hsz : D.FIFO_SIZE ≤ 65536) (l : List Nat) :
    ∀ (u : Uart), u.tx_fifo_ptA < D.FIFO_SIZE → l.length ≤ D.FIFO_SIZE →
    (∀ j, j < l.length →
        (l.foldl (fun u c => uart_putc D c u) u).tx_fifo ((u.tx_fifo_ptA + j) % D.FIFO_SIZE)
          = l.getD j 0)
    ∧ (∀ i, (∀ j, j < l.length → i ≠ (u.tx_fifo_ptA + j) % D.FIFO_SIZE)
        → (l.foldl (fun u c => uart_putc D c u) u).tx_fifo i = u.tx_fifo i)
    ∧ (l.foldl (fun u c => uart_putc D c u) u).tx_fifo_ptA
        = (u.tx_fifo_ptA + l.length) % D.FIFO_SIZE
    ∧ (l.foldl (fun u c => uart_putc D c u) u).tx_fifo_ptB = u.tx_fifo_ptB := by
  induction l with
  | nil =>
    intro u hA _
    refine ⟨fun j hj => absurd hj (Nat.not_lt_zero _), fun _ _ => rfl, ?_, rfl⟩
    simp only [List.foldl_nil, List.length_nil, Nat.add_zero]
    exact (Nat.mod_eq_of_lt hA).symm
  | cons c l ih =>
    intro u hA hl
    simp only [List.length_cons] at hl
    have hN : 0 < D.FIFO_SIZE := by omega
    have hp : (uart_putc D c u).tx_fifo_ptA = (u.tx_fifo_ptA + 1) % D.FIFO_SIZE :=
      next_index D.FIFO_SIZE u.tx_fifo_ptA hA hsz
    have hf : (uart_putc D c u).tx_fifo = Function.update u.tx_fifo u.tx_fifo_ptA c := rfl
    obtain ⟨h1, h2, h3, h4⟩ := ih (uart_putc D c u)
      (by rw [hp]; exact Nat.mod_lt _ hN) (by omega)
    rw [List.foldl_cons]
    have shift : ∀ j, ((uart_putc D c u).tx_fifo_ptA + j) % D.FIFO_SIZE
        = (u.tx_fifo_ptA + (j + 1)) % D.FIFO_SIZE := by
      intro j
      rw [hp, Nat.mod_add_mod]
      congr 1
      omega
    refine ⟨?_, ?_, ?_, ?_⟩
    · intro j hj
      cases j with
      | zero =>
        rw [h2]
        · rw [hf, Nat.add_zero, Nat.mod_eq_of_lt hA, Function.update_same]
          rfl
        · intro j hj2
          rw [shift j, Nat.add_zero]
          have := ring_cells_distinct D.FIFO_SIZE u.tx_fifo_ptA 0 (j + 1) (by omega) (by omega)
          rw [Nat.add_zero] at this
          exact this
      | succ j =>
        simp only [List.length_cons] at hj
        rw [← shift j, h1 j (by omega)]
        rfl
    · intro i hi
      rw [h2 i]
      · rw [hf, Function.update_noteq]
        have := hi 0 (by simp)
        rw [Nat.add_zero, Nat.mod_eq_of_lt hA] at this
        exact this
      · intro j hj
        rw [shift j]
        exact hi (j + 1) (by simp only [List.length_cons]; omega)
    · rw [h3, hp, Nat.mod_add_mod]
      congr 1
      simp only [List.length_cons]
      omega
    · rw [h4]
      rfl

theorem uart_putc_fold_enqueued (D : Defs) (hsz : D.FIFO_SIZE ≤ 65536) (l : List Nat)
    (u : Uart) (hA : u.tx_fifo_ptA < D.FIFO_SIZE) (hl : l.length ≤ D.FIFO_SIZE)
    (hne : l ≠ []) : Enqueued D l u (l.foldl (fun u c => uart_putc D c u) u) := by
  obtain ⟨h1, h2, h3, h4⟩ := uart_putc_fold_ring D hsz l u hA hl
  refine ⟨h1, h2, h3, h4, ?_⟩
  cases l with
  | nil => exact absurd rfl hne
  | cons c l => exact uart_putc_fold_ie D l c u

theorem send_ack_uart (D : Defs) (command ack : Nat) (s : State)
    (hack : ack = D.ACK_MSG ∨ ack = D.NAK_MSG) :
    (send_ack D command ack s).uart
      = (ack_frame D ack command).foldl (fun u c => uart_putc D c u) s.uart := by
  have e : ∀ (f : Nat → Nat) (n : Nat) (u : Uart),
      (List.range n).foldl (fun u i => uart_putc D (f i) u) u
        = ((List.range n).map f).foldl (fun u c => uart_putc D c u) u := by
    intro f n u
    rw [List.foldl_map]
  by_cases hc : command = D.NAK_MSG
  · subst hc
    simp only [send_ack, uart_putp, ack_frame, ne_eq, not_true_eq_false, if_false]
    rw [e, pack_reply_nak D ack _ _ hack]
  · simp only [send_ack, uart_putp, ack_frame, ne_eq, hc, not_false_eq_true, if_true]
    rw [e, pack_reply D command ack _ _ hack hc]

theorem ack_frame_length (D : Defs) (ack command : Nat) :
    (ack_frame D ack command) ≠ [] ∧ (ack_frame D ack command).length ≤ 4 := by
  unfold ack_frame
  split
  · exact ⟨by simp, by simp⟩
  · exact ⟨by simp, by simp⟩

theorem send_ack_enqueued (D : Defs) (command ack : Nat) (s : State)
    (hack : ack = D.ACK_MSG ∨ ack = D.NAK_MSG) (hA : s.uart.tx_fifo_ptA < D.FIFO_SIZE)
    (hN : 4 ≤ D.FIFO_SIZE) (hsz : D.FIFO_SIZE ≤ 65536) :
    Enqueued D (ack_frame D ack command) s.uart (send_ack D command ack s).uart := by
  rw [send_ack_uart D command ack s hack]
  obtain ⟨h1, h2⟩ := ack_frame_length D ack command
  exact uart_putc_fold_enqueued D hsz _ s.uart hA (by omega) h1


theorem halt_count_append (a b : List Event) :
    halt_count (a ++ b) = halt_count a + halt_count b := by
  simp only [halt_count, List.count_append]

theorem halt_count_lid_reads (l : List Nat) : halt_count (l.map Event.lid_read) = 0 := by
  induction l with
  | nil => rfl
  | cons a l ih =>
    simp only [halt_count] at ih
    simp [halt_count, ih]

theorem deliver_keeps_ready (D : Defs) : ∀ (n : Nat) (s t : State),
    deliver D n s = some t → s.uart.packet_ready = 1 → t.uart.packet_ready = 1 := by
  intro n
  induction n with
  | zero => intro s t h hr; cases h; exact hr
  | succ n ih =>
    intro s t h hr
    unfold deliver at h
    split at h
    · cases h; exact hr
    · rename_i c w hw
      cases h1 : receive_one D c w s with
      | none => rw [h1] at h; cases h
      | some s2 =>
        rw [h1] at h
        exact ih s2 t h (receive_one_keeps_ready D c w s s2 h1 hr)

theorem interrupts_keeps_ready (D : Defs) (s t : State) (h : interrupts D s = some t)
    (hr : s.uart.packet_ready = 1) : t.uart.packet_ready = 1 := by
  unfold interrupts at h
  split at h
  · cases h; exact hr
  · exact deliver_keeps_ready D _ _ _ h hr

theorem send_ack_halt_count (D : Defs) (command ack : Nat) (s : State) :
    halt_count (send_ack D command ack s).trace = halt_count s.trace := by
  show halt_count (s.trace ++ [Event.putp _]) = _
  rw [halt_count_append]
  rfl

theorem dispatch_halt_count (D : Defs) (ret : Nat) (lrx : TPacket_Data) (s t : State)
    (h : dispatch D ret lrx s = some t) : halt_count t.trace = halt_count s.trace := by
  unfold dispatch at h
  by_cases h0 : ret = 0
  · rw [if_pos h0] at h
    by_cases h1 : lrx.ack = D.NEW_CMD
    · rw [if_pos h1] at h
      by_cases c1 : lrx.command = D.CMD_BURN
      · rw [if_pos c1] at h
        dsimp only at h
        split at h
        · cases h
          show halt_count ((send_ack D lrx.command D.ACK_MSG s).trace
            ++ [Event.enable_laser] ++ [Event.delay_ms 1]) = _
          rw [halt_count_append, halt_count_append, send_ack_halt_count]
          rfl
        · cases h
          exact send_ack_halt_count D _ _ s
      · rw [if_neg c1] at h
        by_cases c2 : lrx.command = D.CMD_START
        · rw [if_pos c2] at h
          dsimp only at h
          obtain ⟨e1, _, e3⟩ := start_cmd_spec D lrx.command s
          obtain ⟨seen, _, a2, _⟩ := start_waits_spec D s
          by_cases hw : (start_cmd D lrx.command s).1 = true
          · rw [if_pos hw] at h
            cases h
            rw [e3 (e1.symm.trans hw)]
            show halt_count ((send_ack D lrx.command D.ACK_MSG (start_waits D s).2).trace
              ++ [Event.homeLaser]) = _
            rw [halt_count_append, send_ack_halt_count, a2, halt_count_append,
              halt_count_lid_reads]
            rfl
          · rw [if_neg hw] at h
            cases h
        · rw [if_neg c2] at h
          by_cases c3 : lrx.command = D.CMD_END
          · rw [if_pos c3] at h
            cases h
            show halt_count ((send_ack D lrx.command D.ACK_MSG s).trace
              ++ [Event.disable_laser] ++ [Event.homeLaser]) = _
            rw [halt_count_append, halt_count_append, send_ack_halt_count]
            rfl
          · rw [if_neg c3] at h
            by_cases c4 : lrx.command = D.CMD_INIT
            · rw [if_pos c4] at h
              cases h
              rw [send_ack_halt_count]
              show halt_count (s.trace ++ [Event.disable_laser] ++ [Event.homeLaser]) = _
              rw [halt_count_append, halt_count_append]
              rfl
            · rw [if_neg c4] at h
              cases h
              exact send_ack_halt_count D _ _ s
    · rw [if_neg h1] at h
      cases h
      rfl
  · rw [if_neg h0] at h
    cases h
    exact send_ack_halt_count D _ _ s

/-- With `packet_ready = 1` a call of `check_and_respond_to_msg` that returns
has taken the branch of a ready frame: it has not invoked `halt_burn`,
whatever the time and the pixel request, and `packet_ready` is still 1. -/
theorem ready_check_never_halts (D : Defs) (rx_data : Option TPacket_Data) (s : State)
    (q : Option TPacket_Data × State) (hr : s.uart.packet_ready = 1)
    (h : check_and_respond_to_msg D rx_data s = some q) :
    halt_count q.2.trace = halt_count s.trace ∧ q.2.uart.packet_ready = 1 := by
  refine ⟨?_, packet_ready_sticky D rx_data s q hr h⟩
  unfold check_and_respond_to_msg at h
  rw [if_pos hr] at h
  cases h1 : receive_packet D s with
  | none => rw [h1] at h; cases h
  | some r =>
    rw [h1, Option.some_bind] at h
    cases h2 : dispatch D r.1 r.2.1 r.2.2 with
    | none => rw [h2] at h; cases h
    | some t =>
      rw [h2, Option.some_bind] at h
      cases h
      rw [dispatch_halt_count D _ _ _ _ h2, (receive_packet_keeps D s r h1).1]

/-- From a state with `packet_ready = 1`, no sequence of polls invokes
`halt_burn`: every poll that returns has taken the branch of a ready frame. -/
theorem ready_polls_never_halt (D : Defs) (n : Nat) : ∀ (s t : State),
    s.uart.packet_ready = 1 → polls D n s = some t →
    halt_count t.trace = halt_count s.trace ∧ t.uart.packet_ready = 1 := by
  induction n with
  | zero =>
    intro s t hr h
    cases h
    exact ⟨rfl, hr⟩
  | succ n ih =>
    intro s t hr h
    unfold polls at h
    cases hp : poll D s with
    | none => rw [hp] at h; cases h
    | some s2 =>
      rw [hp, Option.some_bind] at h
      unfold poll poll_msg at hp
      cases hi : interrupts D s with
      | none => rw [hi] at hp; cases hp
      | some s1 =>
        rw [hi, Option.some_bind] at hp
        cases hc : check_and_respond_to_msg D none s1 with
        | none => rw [hc] at hp; cases hp
        | some q =>
          rw [hc] at hp
          simp only [Option.map_some', Option.some.injEq] at hp
          subst hp
          obtain ⟨k1, k2⟩ := ready_check_never_halts D none s1 q
            (interrupts_keeps_ready D s s1 hi hr) hc
          obtain ⟨k3, k4⟩ := ih q.2 t k2 h
          exact ⟨by rw [k3, k1, (interrupts_keeps D s s1 hi).2.2.1], k4⟩

theorem ready_loop_acked (D : Defs) (tx_buff : Nat → Nat) (tx_length : Nat) :
    ∀ (n : Nat) (rx_data : TPacket_Data) (s : State) (q : Nat × TPacket_Data × State),
    ready_loop D tx_buff tx_length n rx_data s = some q →
    (ready_acked D rx_data = true → s.uart.packet_ready = 1) →
    ready_acked D q.2.1 = true → q.2.2.uart.packet_ready = 1 := by
  intro n
  induction n with
  | zero =>
    intro rx_data s q h hinv
    cases h
    exact hinv
  | succ n ih =>
    intro rx_data s q h hinv
    unfold ready_loop at h
    by_cases ha : ready_acked D rx_data = true
    · rw [if_pos ha] at h
      cases h
      exact hinv
    · rw [if_neg ha] at h
      cases hp : poll_msg D (some rx_data) (uart_putp D tx_buff tx_length s) with
      | none => rw [hp] at h; cases h
      | some r =>
        rw [hp, Option.some_bind] at h
        cases hl : ready_loop D tx_buff tx_length n (r.1.getD rx_data) r.2 with
        | none => rw [hl] at h; cases h
        | some q2 =>
          rw [hl, Option.some_bind] at h
          cases h
          refine ih _ _ q2 hl ?_
          intro hacked
          unfold poll_msg at hp
          cases hi : interrupts D (uart_putp D tx_buff tx_length s) with
          | none => rw [hi] at hp; cases hp
          | some s1 =>
            rw [hi, Option.some_bind] at hp
            by_cases hr : s1.uart.packet_ready = 1
            · exact packet_ready_sticky D _ s1 r hr hp
            · unfold check_and_respond_to_msg at hp
              rw [if_neg hr] at hp
              cases hp
              exact absurd hacked ha

/-- Every return of `send_ready_for_pixel` that has set `pixel_request_time`
(the pixel request was acknowledged) leaves `packet_ready = 1`: the attempt
that received the Ack took it from a ready frame, and nothing clears the
flag. -/
theorem acked_request_leaves_frame_flag (D : Defs) (hD : D.WF) (s : State)
    (r : Nat × TPacket_Data × State) (h : send_ready_attempts D s = some r)
    (hack : ready_acked D r.2.1 = true) :
    send_ready_for_pixel D s
      = some { r.2.2 with ses := { r.2.2.ses with pixel_request_time := r.2.2.env.time_ms } }
    ∧ r.2.2.uart.packet_ready = 1 := by
  refine ⟨?_, ?_⟩
  · unfold send_ready_for_pixel
    rw [h, Option.some_bind, if_pos hack]
  · unfold send_ready_attempts at h
    refine ready_loop_acked D _ _ _ _ s r h ?_ hack
    intro h0
    simp only [ready_acked, Bool.and_eq_true, beq_iff_eq] at h0
    exact absurd (h0.2.symm.trans h0.1) hD.ready_ne_ack

/-- C9 (code evaluated at the failing input): a whole session from power-up.
The host sends Start, then a Burn frame; the pixel is burnt and the host
acknowledges the pixel request at time 40, which sets
`pixel_request_time = 40` with `picture_ip = TRUE`; no Burn arrives afterwards
and the host stays silent. `packet_ready` is still 1 and the receive ring is
empty. At the next poll the time is 6040, past the timeout
(`PIXEL_TIMEOUT = 5000`), but `check_and_respond_to_msg` takes the branch of
a ready frame, not that of the timeout, and never returns: `halt_burn` has
not been invoked, not once, and `picture_ip` is still `TRUE`. -/
theorem pixel_timeout_never_fires :
    sessionToAck.map
        (fun t => (t.ses.pixel_request_time, t.ses.picture_ip, t.uart.packet_ready,
                   t.uart.rx_flag, t.env.rx_wire, halt_count t.trace))
      = some (40, 1, 1, 0, [], 0)
    ∧ (sessionToAck.bind (interrupts sampleDefs)).map
        (fun t => (t.env.time_ms, timed_out sampleDefs t.env.time_ms t.ses.pixel_request_time,
                   t.uart.packet_ready, t.ses.picture_ip, halt_count t.trace))
      = some (6040, true, 1, 1, 0)
    ∧ (sessionToAck.bind (poll sampleDefs)).isSome = false := by
  refine ⟨by decide, by decide, by decide⟩

end LaserEngraver
